import Mathlib

/-!
Shallow embedding of the storage and projection engine of the tasque
repository (Rust sources under `src/` and `src-rust/`), together with
proofs about the embedded definitions.

Embedding conventions:
* Rust `HashMap`/`BTreeMap` values are modelled as association lists
  (`List (key × value)`); `get` is `List.lookup`, `insert` replaces the
  first binding or appends.  All maps built by the code keep their keys
  unique, so this is a faithful refinement of an unordered map.
* `serde_json::Value` is modelled by the inductive `Json` below (integers
  only: the projector only ever reads integers through `as_i64`).
* `TsqError` carries `code` and `exit_code` verbatim from the source.
  The formatted human message is abstracted, except for the data that is
  interpolated into it and that the specification talks about: the line
  number of a corrupt log line (`line`) and the name of a missing payload
  field (`field`).  `details` json blobs are not modelled.
* Fallible Rust functions returning `Result<T, TsqError>` become
  `Except TsqError T`; `&mut State` receivers become `State → … → Except
  TsqError State`.
-/

namespace Tasque

/-- Model of `serde_json::Value` (numbers restricted to integers; the
engine only reads numbers via `as_i64`). -/
inductive Json where
  | null : Json
  | bool (b : Bool) : Json
  | num (n : Int) : Json
  | str (s : String) : Json
  | arr (elements : List Json) : Json
  | obj (fields : List (String × Json)) : Json

mutual

def Json.decEq : (a b : Json) → Decidable (a = b)
  | .null, .null => isTrue rfl
  | .bool a, .bool b =>
    match Bool.decEq a b with
    | isTrue h => isTrue (h ▸ rfl)
    | isFalse h => isFalse fun hc => h (Json.bool.inj hc)
  | .num a, .num b =>
    match Int.decEq a b with
    | isTrue h => isTrue (h ▸ rfl)
    | isFalse h => isFalse fun hc => h (Json.num.inj hc)
  | .str a, .str b =>
    match String.decEq a b with
    | isTrue h => isTrue (h ▸ rfl)
    | isFalse h => isFalse fun hc => h (Json.str.inj hc)
  | .arr as, .arr bs =>
    match Json.decEqList as bs with
    | isTrue h => isTrue (h ▸ rfl)
    | isFalse h => isFalse fun hc => h (Json.arr.inj hc)
  | .obj fs, .obj gs =>
    match Json.decEqFields fs gs with
    | isTrue h => isTrue (h ▸ rfl)
    | isFalse h => isFalse fun hc => h (Json.obj.inj hc)
  | .null, .bool _ => isFalse fun h => Json.noConfusion h
  | .null, .num _ => isFalse fun h => Json.noConfusion h
  | .null, .str _ => isFalse fun h => Json.noConfusion h
  | .null, .arr _ => isFalse fun h => Json.noConfusion h
  | .null, .obj _ => isFalse fun h => Json.noConfusion h
  | .bool _, .null => isFalse fun h => Json.noConfusion h
  | .bool _, .num _ => isFalse fun h => Json.noConfusion h
  | .bool _, .str _ => isFalse fun h => Json.noConfusion h
  | .bool _, .arr _ => isFalse fun h => Json.noConfusion h
  | .bool _, .obj _ => isFalse fun h => Json.noConfusion h
  | .num _, .null => isFalse fun h => Json.noConfusion h
  | .num _, .bool _ => isFalse fun h => Json.noConfusion h
  | .num _, .str _ => isFalse fun h => Json.noConfusion h
  | .num _, .arr _ => isFalse fun h => Json.noConfusion h
  | .num _, .obj _ => isFalse fun h => Json.noConfusion h
  | .str _, .null => isFalse fun h => Json.noConfusion h
  | .str _, .bool _ => isFalse fun h => Json.noConfusion h
  | .str _, .num _ => isFalse fun h => Json.noConfusion h
  | .str _, .arr _ => isFalse fun h => Json.noConfusion h
  | .str _, .obj _ => isFalse fun h => Json.noConfusion h
  | .arr _, .null => isFalse fun h => Json.noConfusion h
  | .arr _, .bool _ => isFalse fun h => Json.noConfusion h
  | .arr _, .num _ => isFalse fun h => Json.noConfusion h
  | .arr _, .str _ => isFalse fun h => Json.noConfusion h
  | .arr _, .obj _ => isFalse fun h => Json.noConfusion h
  | .obj _, .null => isFalse fun h => Json.noConfusion h
  | .obj _, .bool _ => isFalse fun h => Json.noConfusion h
  | .obj _, .num _ => isFalse fun h => Json.noConfusion h
  | .obj _, .str _ => isFalse fun h => Json.noConfusion h
  | .obj _, .arr _ => isFalse fun h => Json.noConfusion h

def Json.decEqList : (as bs : List Json) → Decidable (as = bs)
  | [], [] => isTrue rfl
  | [], _ :: _ => isFalse fun h => List.noConfusion h
  | _ :: _, [] => isFalse fun h => List.noConfusion h
  | a :: as, b :: bs =>
    match Json.decEq a b, Json.decEqList as bs with
    | isTrue h₁, isTrue h₂ => isTrue (h₁ ▸ h₂ ▸ rfl)
    | isFalse h₁, _ => isFalse fun hc => h₁ (List.cons.inj hc).1
    | _, isFalse h₂ => isFalse fun hc => h₂ (List.cons.inj hc).2

def Json.decEqFields :
    (fs gs : List (String × Json)) → Decidable (fs = gs)
  | [], [] => isTrue rfl
  | [], _ :: _ => isFalse fun h => List.noConfusion h
  | _ :: _, [] => isFalse fun h => List.noConfusion h
  | (ka, va) :: fs, (kb, vb) :: gs =>
    match String.decEq ka kb, Json.decEq va vb, Json.decEqFields fs gs with
    | isTrue h₀, isTrue h₁, isTrue h₂ => isTrue (h₀ ▸ h₁ ▸ h₂ ▸ rfl)
    | isFalse h₀, _, _ =>
      isFalse fun hc => h₀ (congrArg Prod.fst (List.cons.inj hc).1)
    | _, isFalse h₁, _ =>
      isFalse fun hc => h₁ (congrArg Prod.snd (List.cons.inj hc).1)
    | _, _, isFalse h₂ => isFalse fun hc => h₂ (List.cons.inj hc).2

end

instance : DecidableEq Json := Json.decEq

abbrev Payload := List (String × Json)

/-- `TaskKind` from `types.rs`. -/
inductive TaskKind where
  | task | feature | epic
deriving DecidableEq

/-- `TaskStatus` from `types.rs`. -/
inductive TaskStatus where
  | open | in_progress | blocked | closed | canceled | deferred
deriving DecidableEq

/-- `PlanningState` from `types.rs`. -/
inductive PlanningState where
  | needs_planning | planned
deriving DecidableEq

/-- `DependencyType` from `types.rs`. -/
inductive DependencyType where
  | blocks | starts_after
deriving DecidableEq

/-- `RelationType` from `types.rs`. -/
inductive RelationType where
  | relates_to | replies_to | duplicates | supersedes
deriving DecidableEq

/-- `TaskNote` from `types.rs`. -/
structure TaskNote where
  event_id : String
  ts : String
  actor : String
  text : String
deriving DecidableEq

/-- `Task` from `types.rs` (`priority` is a `u8` restricted to 0..3 by
`as_priority`, modelled as `Nat`). -/
structure Task where
  id : String
  kind : TaskKind
  title : String
  description : Option String
  notes : List TaskNote
  spec_path : Option String
  spec_fingerprint : Option String
  spec_attached_at : Option String
  spec_attached_by : Option String
  status : TaskStatus
  priority : Nat
  assignee : Option String
  external_ref : Option String
  discovered_from : Option String
  parent_id : Option String
  superseded_by : Option String
  duplicate_of : Option String
  planning_state : Option PlanningState
  replies_to : Option String
  labels : List String
  created_at : String
  updated_at : String
  closed_at : Option String
deriving DecidableEq

/-- `DependencyEdge` from `types.rs`. -/
structure DependencyEdge where
  blocker : String
  dep_type : DependencyType
deriving DecidableEq

/-- `EventType` from `types.rs`. -/
inductive EventType where
  | task_created | task_updated | task_status_set | task_claimed
  | task_noted | task_spec_attached | task_superseded
  | dep_added | dep_removed | link_added | link_removed
deriving DecidableEq

/-- `EventRecord` from `types.rs`. -/
structure EventRecord where
  id : Option String
  event_id : Option String
  ts : String
  actor : String
  event_type : EventType
  task_id : String
  payload : Payload
deriving DecidableEq

/-- `State` from `types.rs`; the hash maps become association lists. -/
structure State where
  tasks : List (String × Task)
  deps : List (String × List DependencyEdge)
  links : List (String × List (RelationType × List String))
  child_counters : List (String × Nat)
  created_order : List String
  applied_events : Nat
deriving DecidableEq

/-- `Snapshot` from `types.rs`. -/
structure Snapshot where
  taken_at : String
  event_count : Nat
  state : State
deriving DecidableEq

/-- `TsqError` from `errors.rs`: `code` and `exit_code` verbatim; `line`
and `field` record the line number / missing-field name interpolated into
the message (the remaining message text and the `details` value are
abstracted). -/
structure TsqError where
  code : String
  exit_code : Nat
  line : Option Nat := none
  field : Option String := none
deriving DecidableEq

/-- `MergeDriverOutcome` (declared in the repository's `types` module;
fields as used by `merge_driver.rs`). -/
structure MergeDriverOutcome where
  total_events : Nat
  duplicates_removed : Nat
  conflict : Bool
  conflicting_ids : List String
deriving DecidableEq

/-- Association-list update with `HashMap::insert` semantics: replace the
binding if the key is present, append it otherwise. -/
def setAssoc {α β : Type} [DecidableEq α] : List (α × β) → α → β → List (α × β)
  | [], k, v => [(k, v)]
  | (k', v') :: rest, k, v =>
    if k' = k then (k, v) :: rest else (k', v') :: setAssoc rest k v

/-- Association-list in-place modification (`HashMap::get_mut`): apply `f`
to the value bound to `k`, leave the list unchanged if `k` is absent. -/
def modifyAssoc {α β : Type} [DecidableEq α] (l : List (α × β)) (k : α) (f : β → β) :
    List (α × β) :=
  l.map fun p => if p.1 = k then (p.1, f p.2) else p

/-- `HashMap::entry(k).or_insert_with(d)` followed by a modification:
apply `f` to the existing value, or to the default `d` for a fresh key. -/
def upsertAssoc {α β : Type} [DecidableEq α] (l : List (α × β)) (k : α) (d : β) (f : β → β) :
    List (α × β) :=
  if (l.lookup k).isSome then modifyAssoc l k f else l ++ [(k, f d)]

/-! ### Json accessors (`serde_json::Value::as_*`) -/

def Json.as_str : Json → Option String
  | .str s => some s
  | _ => none

def Json.as_i64 : Json → Option Int
  | .num n => some n
  | _ => none

def Json.as_bool : Json → Option Bool
  | .bool b => some b
  | _ => none

def Json.as_array : Json → Option (List Json)
  | .arr elements => some elements
  | _ => none

def Json.as_object : Json → Option (List (String × Json))
  | .obj fields => some fields
  | _ => none

def Json.is_string : Json → Bool
  | .str _ => true
  | _ => false

/-! ### `domain/projector_helpers.rs` -/

/-- `as_string` from `projector_helpers.rs`. -/
def as_string (value : Option Json) : Option String :=
  value.bind Json.as_str

/-- `as_string_array` from `projector_helpers.rs`. -/
def as_string_array (value : Option Json) : Option (List String) := do
  let values ← (← value).as_array
  if ¬ values.all Json.is_string then none
  else some (values.filterMap Json.as_str)

/-- `as_priority` from `projector_helpers.rs` (`i64` in 0..=3, cast to `u8`). -/
def as_priority (value : Option Json) : Option Nat := do
  let raw ← (← value).as_i64
  if raw < 0 ∨ raw > 3 then none else some raw.toNat

/-- `as_bool` from `projector_helpers.rs`. -/
def as_bool (value : Option Json) : Option Bool :=
  value.bind Json.as_bool

/-- `as_task_kind` from `projector_helpers.rs`. -/
def as_task_kind (value : Option Json) : Option TaskKind :=
  match value.bind Json.as_str with
  | some "task" => some .task
  | some "feature" => some .feature
  | some "epic" => some .epic
  | _ => none

/-- `as_task_status` from `projector_helpers.rs`. -/
def as_task_status (value : Option Json) : Option TaskStatus :=
  match value.bind Json.as_str with
  | some "open" => some .open
  | some "in_progress" => some .in_progress
  | some "blocked" => some .blocked
  | some "closed" => some .closed
  | some "canceled" => some .canceled
  | some "deferred" => some .deferred
  | _ => none

/-- `as_planning_state` from `projector_helpers.rs`. -/
def as_planning_state (value : Option Json) : Option PlanningState :=
  match value.bind Json.as_str with
  | some "needs_planning" => some .needs_planning
  | some "planned" => some .planned
  | _ => none

/-- `as_relation_type` from `projector_helpers.rs`. -/
def as_relation_type (value : Option Json) : Option RelationType :=
  match value.bind Json.as_str with
  | some "relates_to" => some .relates_to
  | some "replies_to" => some .replies_to
  | some "duplicates" => some .duplicates
  | some "supersedes" => some .supersedes
  | _ => none

/-- `event_id_value` from `projector_helpers.rs`. -/
def event_id_value (event : EventRecord) : Option String :=
  (event.id.filter (fun value => ¬ value.isEmpty)).orElse
    (fun _ => event.event_id.filter (fun value => ¬ value.isEmpty))

/-- `event_identifier` from `projector_helpers.rs` (the abstracted error
message carries the event type and task id; only the code survives in the
model). -/
def event_identifier (event : EventRecord) : Except TsqError String :=
  match event_id_value event with
  | some id => .ok id
  | none => .error { code := "INVALID_EVENT", exit_code := 1 }

/-! ### `domain/deps.rs` -/

/-- `normalize_dependency_type` from `deps.rs`. -/
def normalize_dependency_type (value : String) : Option DependencyType :=
  match value with
  | "blocks" => some .blocks
  | "starts_after" => some .starts_after
  | _ => none

/-- `edge_key` from `deps.rs`. -/
def edge_key (blocker : String) (dep_type : DependencyType) : String :=
  blocker ++ "\x00" ++
    match dep_type with
    | .blocks => "blocks"
    | .starts_after => "starts_after"

/-- The loop body of `normalize_dependency_edges`; `seen` is the `HashSet`
of edge keys already emitted. -/
def normalize_dep_loop : List DependencyEdge → List String → List DependencyEdge
  | [], _ => []
  | edge :: rest, seen =>
    if edge.blocker.isEmpty then normalize_dep_loop rest seen
    else if seen.contains (edge_key edge.blocker edge.dep_type) then
      normalize_dep_loop rest seen
    else edge :: normalize_dep_loop rest (edge_key edge.blocker edge.dep_type :: seen)

/-- `normalize_dependency_edges` from `deps.rs`: drop edges with an empty
blocker and deduplicate on `(blocker, dep_type)`, keeping first
occurrences in order. -/
def normalize_dependency_edges : Option (List DependencyEdge) → List DependencyEdge
  | none => []
  | some edges => normalize_dep_loop edges []

/-! ### The remaining `projector_helpers.rs` items -/

/-- `clone_state` from `projector_helpers.rs`: every `deps` entry is
re-normalized; cloning `tasks`, `links`, `child_counters`, `created_order`
is the identity in a pure model. -/
def clone_state (state : State) : State :=
  { state with
    deps := state.deps.map fun p => (p.1, normalize_dependency_edges (some p.2)) }

/-- `set_child_counter` from `projector_helpers.rs` (`parse::<u32>()` on an
all-digit segment is modelled by `String.toNat?`; the u32 overflow failure
is not modelled). -/
def set_child_counter (state : State) (parent_id child_id : String) : State :=
  let pre := parent_id ++ "."
  if ¬ child_id.startsWith pre then state
  else
    let segment := child_id.drop pre.length
    if segment.isEmpty ∨ ¬ segment.all Char.isDigit then state
    else
      match segment.toNat? with
      | none => state
      | some counter =>
        let current := (state.child_counters.lookup parent_id).getD 0
        if counter > current then
          { state with child_counters := setAssoc state.child_counters parent_id counter }
        else state

/-- `set_task_closed_state` from `projector_helpers.rs`. -/
def set_task_closed_state (task : Task) (ts : String) : Task :=
  { task with status := .closed, updated_at := ts, closed_at := some ts }

/-- `upsert_directed_link` from `projector_helpers.rs`. -/
def upsert_directed_link (links : List (String × List (RelationType × List String)))
    (src dst : String) (rel_type : RelationType) :
    List (String × List (RelationType × List String)) :=
  upsertAssoc links src [] fun entry =>
    upsertAssoc entry rel_type [] fun targets =>
      if targets.any (fun candidate => candidate == dst) then targets
      else targets ++ [dst]

/-- `remove_directed_link` from `projector_helpers.rs` (absent keys leave
the map untouched, matching the early `return`s). -/
def remove_directed_link (links : List (String × List (RelationType × List String)))
    (src dst : String) (rel_type : RelationType) :
    List (String × List (RelationType × List String)) :=
  modifyAssoc links src fun from_map =>
    modifyAssoc from_map rel_type fun current =>
      current.filter fun candidate => candidate != dst

/-- `require_task` from `projector_helpers.rs`. -/
def require_task (state : State) (task_id : String) : Except TsqError Task :=
  match state.tasks.lookup task_id with
  | some task => .ok task
  | none => .error { code := "TASK_NOT_FOUND", exit_code := 1 }

/-! ### `domain/validate.rs` -/

/-- `blocking_dep_ids` from `validate.rs`. -/
def blocking_dep_ids (state : State) (task_id : String) : List String :=
  ((normalize_dependency_edges (state.deps.lookup task_id)).filter
    (fun edge => edge.dep_type == DependencyType.blocks)).map (·.blocker)

/-- All blocker names mentioned anywhere in `state.deps`; every node the
cycle DFS can ever push is in this list. -/
def dep_universe (state : State) : List String :=
  state.deps.foldr (fun p acc => p.2.map (·.blocker) ++ acc) []

/-- The `while let Some(current) = stack.pop()` loop of
`assert_no_dependency_cycle`.  The Rust loop has no fuel; the `fuel`
parameter is an embedding artifact that makes the recursion structural
(one unit per iteration) and is proven never to run out for the fuel
chosen in `assert_no_dependency_cycle` (`cycle_dfs_ne_none` below).  The
head of the list is the top of the Rust `Vec` stack; pushed successors
are reversed so they pop in the same order. -/
def cycle_dfs (state : State) (child : String) :
    Nat → List String → List String → Option Bool
  | _, [], _ => some false
  | 0, _ :: _, _ => none
  | fuel + 1, current :: rest, visited =>
    if visited.contains current then cycle_dfs state child fuel rest visited
    else if current = child then some true
    else
      let next_visited := current :: visited
      cycle_dfs state child fuel
        (((blocking_dep_ids state current).filter
            (fun next => ¬ next_visited.contains next)).reverse ++ rest)
        next_visited

/-- Fuel that provably suffices for `cycle_dfs` (one more than the
termination measure of the loop). -/
def cycle_check_fuel (state : State) (blocker : String) : Nat :=
  1 + ((blocker :: dep_universe state).dedup.map
    (fun v => 1 + (blocking_dep_ids state v).length)).sum

/-- The `DEPENDENCY_CYCLE` error of `assert_no_dependency_cycle` (its
`details` blob carrying child/blocker is abstracted). -/
def dep_cycle_error : TsqError :=
  { code := "DEPENDENCY_CYCLE", exit_code := 1 }

/-- `assert_no_dependency_cycle` from `validate.rs`. -/
def assert_no_dependency_cycle (state : State) (child blocker : String) :
    Except TsqError Unit :=
  if child = blocker then .error dep_cycle_error
  else
    match cycle_dfs state child (cycle_check_fuel state blocker) [blocker] [] with
    | some true => .error dep_cycle_error
    | _ => .ok ()

/-! ### `domain/projector_tasks.rs` -/

/-- The `INVALID_EVENT` errors of the task handlers (messages abstracted). -/
def invalid_event_error : TsqError :=
  { code := "INVALID_EVENT", exit_code := 1 }

/-- `apply_task_created` from `projector_tasks.rs`. -/
def apply_task_created (state : State) (event : EventRecord) : Except TsqError State := do
  if (state.tasks.lookup event.task_id).isSome then
    throw { code := "TASK_EXISTS", exit_code := 1 }
  let payload := event.payload
  match as_string (payload.lookup "title") with
  | none => throw invalid_event_error
  | some title =>
  if title.isEmpty then throw invalid_event_error
  let kind := (as_task_kind (payload.lookup "kind")).getD .task
  let priority := (as_priority (payload.lookup "priority")).getD 1
  let status := (as_task_status (payload.lookup "status")).getD .open
  let labels := (as_string_array (payload.lookup "labels")).getD []
  let parent_id := as_string (payload.lookup "parent_id")
  let planning_state := (as_planning_state (payload.lookup "planning_state")).getD .needs_planning
  let discovered_from := as_string (payload.lookup "discovered_from")
  match discovered_from with
  | some d =>
    if d = event.task_id then throw invalid_event_error
    let _ ← require_task state d
  | none => pure ()
  let task : Task :=
    { id := event.task_id
      kind := kind
      title := title
      description := as_string (payload.lookup "description")
      notes := []
      spec_path := none
      spec_fingerprint := none
      spec_attached_at := none
      spec_attached_by := none
      status := status
      priority := priority
      assignee := as_string (payload.lookup "assignee")
      external_ref := as_string (payload.lookup "external_ref")
      discovered_from := discovered_from
      parent_id := parent_id
      superseded_by := as_string (payload.lookup "superseded_by")
      duplicate_of := as_string (payload.lookup "duplicate_of")
      planning_state := some planning_state
      replies_to := as_string (payload.lookup "replies_to")
      labels := labels
      created_at := event.ts
      updated_at := event.ts
      closed_at := if status = TaskStatus.closed then some event.ts else none }
  let state' :=
    { state with
      tasks := setAssoc state.tasks event.task_id task
      created_order := state.created_order ++ [event.task_id] }
  match parent_id with
  | some parent => pure (set_child_counter state' parent event.task_id)
  | none => pure state'

/-- The title statement of `apply_task_updated` (`if let Some(title) …`). -/
def updated_title (payload : Payload) (next : Task) : Except TsqError Task :=
  match as_string (payload.lookup "title") with
  | some title =>
    if title.isEmpty then .error invalid_event_error
    else .ok { next with title := title }
  | none => .ok next

/-- The kind statement of `apply_task_updated`. -/
def updated_kind (payload : Payload) (next : Task) : Task :=
  match as_task_kind (payload.lookup "kind") with
  | some kind => { next with kind := kind }
  | none => next

/-- The priority statement of `apply_task_updated`. -/
def updated_priority (payload : Payload) (next : Task) : Task :=
  match as_priority (payload.lookup "priority") with
  | some priority => { next with priority := priority }
  | none => next

/-- The assignee statement of `apply_task_updated`. -/
def updated_assignee (payload : Payload) (next : Task) : Task :=
  match as_string (payload.lookup "assignee") with
  | some assignee => { next with assignee := some assignee }
  | none => next

/-- The labels statement of `apply_task_updated`. -/
def updated_labels (payload : Payload) (next : Task) : Task :=
  match as_string_array (payload.lookup "labels") with
  | some labels => { next with labels := labels }
  | none => next

/-- The duplicate_of statement of `apply_task_updated` (self-reference
fails). -/
def updated_duplicate_of (payload : Payload) (task_id : String) (next : Task) :
    Except TsqError Task :=
  match as_string (payload.lookup "duplicate_of") with
  | some duplicate_of =>
    if duplicate_of = task_id then .error invalid_event_error
    else .ok { next with duplicate_of := some duplicate_of }
  | none => .ok next

/-- The combination guard of `apply_task_updated`, shared by the three
`value`/`clear_value` pairs. -/
def updated_combo_guard (value : Option String) (clear : Option Bool) :
    Except TsqError Unit :=
  if value.isSome ∧ clear = some true then .error invalid_event_error else .ok ()

/-- The description set/clear statements of `apply_task_updated`. -/
def updated_description (payload : Payload) (next : Task) : Task :=
  let next7 :=
    match as_string (payload.lookup "description") with
    | some d => { next with description := some d }
    | none => next
  if as_bool (payload.lookup "clear_description") = some true then
    { next7 with description := none }
  else next7

/-- The external_ref set/clear statements of `apply_task_updated`. -/
def updated_external_ref (payload : Payload) (next : Task) : Task :=
  let next9 :=
    match as_string (payload.lookup "external_ref") with
    | some e => { next with external_ref := some e }
    | none => next
  if as_bool (payload.lookup "clear_external_ref") = some true then
    { next9 with external_ref := none }
  else next9

/-- The planning_state statement of `apply_task_updated`. -/
def updated_planning_state (payload : Payload) (next : Task) : Task :=
  match as_planning_state (payload.lookup "planning_state") with
  | some planning_state => { next with planning_state := some planning_state }
  | none => next

/-- The discovered_from set statement of `apply_task_updated`
(self-reference fails; the referenced task must exist). -/
def updated_discovered_from (state : State) (payload : Payload) (task_id : String)
    (next : Task) : Except TsqError Task :=
  match as_string (payload.lookup "discovered_from") with
  | some d =>
    if d = task_id then .error invalid_event_error
    else
      match require_task state d with
      | .error err => .error err
      | .ok _ => .ok { next with discovered_from := some d }
  | none => .ok next

/-- The clear_discovered_from statement of `apply_task_updated`. -/
def updated_clear_discovered_from (payload : Payload) (next : Task) : Task :=
  if as_bool (payload.lookup "clear_discovered_from") = some true then
    { next with discovered_from := none }
  else next

/-- `apply_task_updated` from `projector_tasks.rs`.  The source's
field-by-field mutation of `next` is split into one definition per source
statement (`updated_*` above); the sequencing and the relative order of
the guards match the source. -/
def apply_task_updated (state : State) (event : EventRecord) : Except TsqError State := do
  let current ← require_task state event.task_id
  let payload := event.payload
  let next0 := { current with updated_at := event.ts }
  let next1 ← updated_title payload next0
  let next2 := updated_kind payload next1
  let next3 := updated_priority payload next2
  let next4 := updated_assignee payload next3
  let next5 := updated_labels payload next4
  let next6 ← updated_duplicate_of payload event.task_id next5
  let _ ← updated_combo_guard (as_string (payload.lookup "description"))
    (as_bool (payload.lookup "clear_description"))
  let next8 := updated_description payload next6
  let _ ← updated_combo_guard (as_string (payload.lookup "external_ref"))
    (as_bool (payload.lookup "clear_external_ref"))
  let next10 := updated_external_ref payload next8
  let next11 := updated_planning_state payload next10
  let _ ← updated_combo_guard (as_string (payload.lookup "discovered_from"))
    (as_bool (payload.lookup "clear_discovered_from"))
  let next12 ← updated_discovered_from state payload event.task_id next11
  let next13 := updated_clear_discovered_from payload next12
  pure { state with tasks := setAssoc state.tasks event.task_id next13 }

/-- `apply_task_status_set` from `projector_tasks.rs`. -/
def apply_task_status_set (state : State) (event : EventRecord) : Except TsqError State := do
  let current ← require_task state event.task_id
  match as_task_status (event.payload.lookup "status") with
  | none => throw invalid_event_error
  | some status =>
  if (current.status = TaskStatus.closed ∨ current.status = TaskStatus.canceled)
      ∧ status = TaskStatus.in_progress then
    throw { code := "INVALID_TRANSITION", exit_code := 1 }
  let closed_at := if status = TaskStatus.closed then some event.ts else none
  pure
    { state with
      tasks := setAssoc state.tasks event.task_id
        { current with status := status, updated_at := event.ts, closed_at := closed_at } }

/-- `apply_task_claimed` from `projector_tasks.rs`. -/
def apply_task_claimed (state : State) (event : EventRecord) : Except TsqError State := do
  let current ← require_task state event.task_id
  if current.status = TaskStatus.closed ∨ current.status = TaskStatus.canceled then
    throw { code := "INVALID_TRANSITION", exit_code := 1 }
  let assignee := (as_string (event.payload.lookup "assignee")).getD event.actor
  let next_status :=
    if current.status = TaskStatus.open then TaskStatus.in_progress else current.status
  pure
    { state with
      tasks := setAssoc state.tasks event.task_id
        { current with
          assignee := some assignee
          status := next_status
          updated_at := event.ts } }

/-- `apply_task_noted` from `projector_tasks.rs`. -/
def apply_task_noted (state : State) (event : EventRecord) : Except TsqError State := do
  let current ← require_task state event.task_id
  match as_string (event.payload.lookup "text") with
  | none => throw invalid_event_error
  | some text =>
  if text.isEmpty then throw invalid_event_error
  let id ← event_identifier event
  let note : TaskNote := { event_id := id, ts := event.ts, actor := event.actor, text := text }
  pure
    { state with
      tasks := setAssoc state.tasks event.task_id
        { current with notes := current.notes ++ [note], updated_at := event.ts } }

/-- `apply_task_spec_attached` from `projector_tasks.rs`. -/
def apply_task_spec_attached (state : State) (event : EventRecord) : Except TsqError State := do
  let current ← require_task state event.task_id
  let payload := event.payload
  let spec_attached_at := (as_string (payload.lookup "spec_attached_at")).getD event.ts
  let spec_attached_by := (as_string (payload.lookup "spec_attached_by")).getD event.actor
  match as_string (payload.lookup "spec_path"), as_string (payload.lookup "spec_fingerprint") with
  | some spec_path, some spec_fingerprint =>
    if spec_path.isEmpty ∨ spec_fingerprint.isEmpty then throw invalid_event_error
    pure
      { state with
        tasks := setAssoc state.tasks event.task_id
          { current with
            spec_path := some spec_path
            spec_fingerprint := some spec_fingerprint
            spec_attached_at := some spec_attached_at
            spec_attached_by := some spec_attached_by
            updated_at := event.ts } }
  | _, _ => throw invalid_event_error

/-- `apply_task_superseded` from `projector_tasks.rs`. -/
def apply_task_superseded (state : State) (event : EventRecord) : Except TsqError State := do
  let source ← require_task state event.task_id
  match as_string (event.payload.lookup "with") with
  | none => throw invalid_event_error
  | some replacement =>
  if replacement.isEmpty then throw invalid_event_error
  if replacement = event.task_id then throw invalid_event_error
  let _ ← require_task state replacement
  let next := { set_task_closed_state source event.ts with superseded_by := some replacement }
  pure { state with tasks := setAssoc state.tasks event.task_id next }

/-! ### `domain/projector_deps_links.rs` -/

/-- `DEFAULT_DEP_TYPE` from `projector_deps_links.rs`. -/
def DEFAULT_DEP_TYPE : DependencyType := .blocks

/-- `apply_dep_added` from `projector_deps_links.rs`. -/
def apply_dep_added (state : State) (event : EventRecord) : Except TsqError State := do
  let payload := event.payload
  match as_string (payload.lookup "blocker") with
  | none => throw invalid_event_error
  | some blocker =>
  if blocker.isEmpty then throw invalid_event_error
  let dep_type :=
    ((as_string (payload.lookup "dep_type")).bind
      (fun value => normalize_dependency_type value)).getD DEFAULT_DEP_TYPE
  let _ ← require_task state event.task_id
  let _ ← require_task state blocker
  if dep_type = DependencyType.blocks then
    assert_no_dependency_cycle state event.task_id blocker
  let deps := normalize_dependency_edges (state.deps.lookup event.task_id)
  let dep_index := deps.map fun edge => edge_key edge.blocker edge.dep_type
  if ¬ dep_index.contains (edge_key blocker dep_type) then
    pure
      { state with
        deps := setAssoc state.deps event.task_id
          (deps ++ [{ blocker := blocker, dep_type := dep_type }]) }
  else
    pure state

/-- `apply_dep_removed` from `projector_deps_links.rs`. -/
def apply_dep_removed (state : State) (event : EventRecord) : Except TsqError State := do
  let payload := event.payload
  match as_string (payload.lookup "blocker") with
  | none => throw invalid_event_error
  | some blocker =>
  if blocker.isEmpty then throw invalid_event_error
  let dep_type :=
    ((as_string (payload.lookup "dep_type")).bind
      (fun value => normalize_dependency_type value)).getD DEFAULT_DEP_TYPE
  let deps := normalize_dependency_edges (state.deps.lookup event.task_id)
  let next := deps.filter fun candidate =>
    ¬ (candidate.blocker = blocker ∧ candidate.dep_type = dep_type)
  pure { state with deps := setAssoc state.deps event.task_id next }

/-- `relation_target` from `projector_deps_links.rs`. -/
def relation_target (payload : Payload) : Option String :=
  as_string (payload.lookup "target")

/-- `apply_link_added` from `projector_deps_links.rs`. -/
def apply_link_added (state : State) (event : EventRecord) : Except TsqError State := do
  let payload := event.payload
  match as_relation_type (payload.lookup "type"), relation_target payload with
  | some rel_type, some target =>
    if target.isEmpty then throw invalid_event_error
    if target = event.task_id then
      throw { code := "RELATION_SELF_EDGE", exit_code := 1 }
    let _ ← require_task state event.task_id
    let _ ← require_task state target
    let links1 := upsert_directed_link state.links event.task_id target rel_type
    let links2 :=
      if rel_type = RelationType.relates_to then
        upsert_directed_link links1 target event.task_id rel_type
      else links1
    pure { state with links := links2 }
  | _, _ => throw invalid_event_error

/-- `apply_link_removed` from `projector_deps_links.rs`. -/
def apply_link_removed (state : State) (event : EventRecord) : Except TsqError State := do
  let payload := event.payload
  match as_relation_type (payload.lookup "type"), relation_target payload with
  | some rel_type, some target =>
    if target.isEmpty then throw invalid_event_error
    let links1 := remove_directed_link state.links event.task_id target rel_type
    let links2 :=
      if rel_type = RelationType.relates_to then
        remove_directed_link links1 target event.task_id rel_type
      else links1
    pure { state with links := links2 }
  | _, _ => throw invalid_event_error

/-! ### `domain/projector.rs` and `domain/state.rs` -/

/-- `apply_event_mut` from `projector.rs` (the `_ => INVALID_EVENT_TYPE`
arm of the Rust match is unreachable for the closed `EventType` enum). -/
def apply_event_mut (state : State) (event : EventRecord) : Except TsqError State := do
  let next ←
    match event.event_type with
    | .task_created => apply_task_created state event
    | .task_updated => apply_task_updated state event
    | .task_status_set => apply_task_status_set state event
    | .task_claimed => apply_task_claimed state event
    | .task_noted => apply_task_noted state event
    | .task_spec_attached => apply_task_spec_attached state event
    | .task_superseded => apply_task_superseded state event
    | .dep_added => apply_dep_added state event
    | .dep_removed => apply_dep_removed state event
    | .link_added => apply_link_added state event
    | .link_removed => apply_link_removed state event
  pure { next with applied_events := next.applied_events + 1 }

/-- `apply_event` from `projector.rs`. -/
def apply_event (state : State) (event : EventRecord) : Except TsqError State :=
  apply_event_mut (clone_state state) event

/-- The `for event in events` loop of `apply_events`. -/
def fold_events : State → List EventRecord → Except TsqError State
  | state, [] => .ok state
  | state, event :: rest => do fold_events (← apply_event_mut state event) rest

/-- `apply_events` from `projector.rs` (`base.clone()` is the identity in
a pure model). -/
def apply_events (base : State) (events : List EventRecord) : Except TsqError State :=
  if events.isEmpty then .ok base else fold_events (clone_state base) events

/-- `create_empty_state` from `domain/state.rs`. -/
def create_empty_state : State :=
  { tasks := [], deps := [], links := [], child_counters := []
    created_order := [], applied_events := 0 }

/-! ### `store/events.rs` — reading and validating the event log -/

/-- `event_type_from_str` from `store/events.rs`. -/
def event_type_from_str (raw : String) : Option EventType :=
  match raw with
  | "task.created" => some .task_created
  | "task.updated" => some .task_updated
  | "task.status_set" => some .task_status_set
  | "task.claimed" => some .task_claimed
  | "task.noted" => some .task_noted
  | "task.spec_attached" => some .task_spec_attached
  | "task.superseded" => some .task_superseded
  | "dep.added" => some .dep_added
  | "dep.removed" => some .dep_removed
  | "link.added" => some .link_added
  | "link.removed" => some .link_removed
  | _ => none

/-- `required_fields` from `store/events.rs`. -/
def required_fields (event_type : EventType) : List (String × String) :=
  match event_type with
  | .task_created => [("title", "string")]
  | .task_updated => []
  | .task_status_set => [("status", "string")]
  | .task_claimed => []
  | .task_noted => [("text", "string")]
  | .task_spec_attached => [("spec_path", "string"), ("spec_fingerprint", "string")]
  | .task_superseded => []
  | .dep_added => [("blocker", "string")]
  | .dep_removed => [("blocker", "string")]
  | .link_added => [("type", "string")]
  | .link_removed => [("type", "string")]

/-- The `for (field, expected)` loop of `validate_event_payload`. -/
def validate_required_fields (fields : List (String × String)) (payload : Payload)
    (line : Nat) : Except TsqError Unit :=
  match fields with
  | [] => .ok ()
  | (field, expected) :: rest =>
    let value := payload.lookup field
    let type_mismatch :=
      match expected with
      | "string" => (value.bind Json.as_str).isNone
      | _ => true
    if value.isNone || type_mismatch then
      .error { code := "EVENTS_CORRUPT", exit_code := 2, line := some line, field := some field }
    else validate_required_fields rest payload line

/-- `validate_event_payload` from `store/events.rs`. -/
def validate_event_payload (event_type : EventType) (payload : Payload) (line : Nat) :
    Except TsqError Unit := do
  validate_required_fields (required_fields event_type) payload line
  if event_type = EventType.dep_added ∨ event_type = EventType.dep_removed then
    match payload.lookup "dep_type" with
    | some dep_type_value =>
      let dep_type_str := dep_type_value.as_str.getD ""
      if dep_type_str ≠ "blocks" ∧ dep_type_str ≠ "starts_after" then
        throw { code := "EVENTS_CORRUPT", exit_code := 2, line := some line
                field := some "dep_type" }
    | none => pure ()

/-- `parse_event_record` from `store/events.rs`.  Each "check then
`unwrap`" pair of the source is collapsed into one `match` whose `none`
arm raises the corresponding error; the `field` component records the
field named by the message. -/
def parse_event_record (value : Json) (line : Nat) : Except TsqError EventRecord := do
  match value.as_object with
  | none => throw { code := "EVENTS_CORRUPT", exit_code := 2, line := some line }
  | some obj =>
  let id := ((obj.lookup "id").bind Json.as_str).filter (fun s => ¬ s.isEmpty)
  let event_id := ((obj.lookup "event_id").bind Json.as_str).filter (fun s => ¬ s.isEmpty)
  if id.isNone ∧ event_id.isNone then
    throw { code := "EVENTS_CORRUPT", exit_code := 2, line := some line, field := some "id" }
  match ((obj.lookup "ts").bind Json.as_str).filter (fun s => ¬ s.isEmpty) with
  | none => throw { code := "EVENTS_CORRUPT", exit_code := 2, line := some line
                    field := some "ts" }
  | some ts =>
  match ((obj.lookup "actor").bind Json.as_str).filter (fun s => ¬ s.isEmpty) with
  | none => throw { code := "EVENTS_CORRUPT", exit_code := 2, line := some line
                    field := some "actor" }
  | some actor =>
  match ((obj.lookup "type").bind Json.as_str).filter (fun s => ¬ s.isEmpty) with
  | none => throw { code := "EVENTS_CORRUPT", exit_code := 2, line := some line
                    field := some "type" }
  | some event_type_raw =>
  match event_type_from_str event_type_raw with
  | none => throw { code := "EVENTS_CORRUPT", exit_code := 2, line := some line
                    field := some "type" }
  | some event_type =>
  match ((obj.lookup "task_id").bind Json.as_str).filter (fun s => ¬ s.isEmpty) with
  | none => throw { code := "EVENTS_CORRUPT", exit_code := 2, line := some line
                    field := some "task_id" }
  | some task_id =>
  match obj.lookup "payload" with
  | none => throw { code := "EVENTS_CORRUPT", exit_code := 2, line := some line
                    field := some "payload" }
  | some payload_value =>
  match payload_value.as_object with
  | none => throw { code := "EVENTS_CORRUPT", exit_code := 2, line := some line }
  | some payload =>
  validate_event_payload event_type payload line
  match id.orElse (fun _ => event_id) with
  | none => throw { code := "EVENTS_CORRUPT", exit_code := 2, line := some line
                    field := some "id" }
  | some normalized_id =>
  pure
    { id := some normalized_id
      event_id := some normalized_id
      ts := ts
      actor := actor
      event_type := event_type
      task_id := task_id
      payload := payload }

/-- One line of `events.jsonl`, after splitting the file on `'\n'` and
popping a single trailing empty line: `blank` is a line whose trimmed text
is empty (skipped before JSON parsing), `malformed` is a line
`serde_json::from_str` rejects, `json v` is a line parsing to `v`.  The
`'\r'` trimming of the source happens inside this abstraction. -/
inductive LogLine where
  | blank : LogLine
  | malformed : LogLine
  | json (value : Json) : LogLine
deriving DecidableEq

/-- The warning produced for a tolerated malformed final line (the source
interpolates the file path into it). -/
def trailing_line_warning : String := "Ignored malformed trailing JSONL line"

/-- The `for (index, line)` loop of `read_events`; `total` is
`lines.len()`. -/
def read_events_loop (total : Nat) :
    List LogLine → Nat → Except TsqError (List EventRecord × Option String)
  | [], _ => .ok ([], none)
  | line :: rest, index =>
    match line with
    | .blank => read_events_loop total rest (index + 1)
    | .json parsed => do
      let record ← parse_event_record parsed (index + 1)
      let (events, warning) ← read_events_loop total rest (index + 1)
      pure (record :: events, warning)
    | .malformed =>
      if index = total - 1 then .ok ([], some trailing_line_warning)
      else .error { code := "EVENTS_CORRUPT", exit_code := 2, line := some (index + 1) }

/-- `read_events` from `store/events.rs`, over the line list of the file
content (an existing file; the absent-file early return yields
`([], none)` upstream). -/
def read_events_lines (lines : List LogLine) :
    Except TsqError (List EventRecord × Option String) :=
  read_events_loop lines.length lines 0

/-- `ReadEventsResult` from `store/events.rs`. -/
structure ReadEventsResult where
  events : List EventRecord
  warning : Option String
deriving DecidableEq

/-! ### `store/merge_driver.rs` -/

/-- `event_id` from `merge_driver.rs` (named `merge_event_id` here to
avoid clashing with the record field). -/
def merge_event_id (record : EventRecord) : Option String :=
  record.id.orElse (fun _ => record.event_id)

/-- A file-system effect, for tracing what the merge driver writes.  The
serialization of a record to its JSON line is abstracted: the record
stands for its line. -/
inductive FsOp where
  | create (path : String) : FsOp
  | write_line (path : String) (record : EventRecord) : FsOp
  | sync (path : String) : FsOp
  | rename (src dst : String) : FsOp
  | unlink (path : String) : FsOp
deriving DecidableEq

/-- `write_events_to_path` from `merge_driver.rs` as its success-path
effect trace: `fs::File::create` on the target itself, one line per
event, then `sync_all`. -/
def write_events_to_path (path : String) (events : List (String × EventRecord)) :
    List FsOp :=
  FsOp.create path :: (events.map fun p => FsOp.write_line path p.2) ++ [FsOp.sync path]

/-- The `for record in events` loop of `merge_events_files`.  `seen` keeps
first occurrences (`HashMap` modelled as an association list in insertion
order; the final sort by the unique ids erases the order difference).
Two records have equal canonical JSON iff they are equal (struct
serialization to a canonical string is injective), so the
`canonical_json` comparison is structural equality. -/
def merge_loop :
    List EventRecord → List (String × EventRecord) → List String → Nat →
    Except TsqError (List (String × EventRecord) × List String × Nat)
  | [], seen, conflicting_ids, total_input => .ok (seen, conflicting_ids, total_input)
  | record :: rest, seen, conflicting_ids, total_input =>
    match merge_event_id record with
    | none => .error { code := "MERGE_MISSING_ID", exit_code := 2 }
    | some id =>
      match seen.lookup id with
      | some existing =>
        merge_loop rest seen
          (if existing ≠ record ∧ ¬ conflicting_ids.contains id then
            conflicting_ids ++ [id]
          else conflicting_ids)
          (total_input + 1)
      | none => merge_loop rest (seen ++ [(id, record)]) conflicting_ids (total_input + 1)

/-- Rust `str` ordering (byte-lexicographic on UTF-8, which coincides with
code-point-lexicographic ordering of the character lists). -/
def str_lex_le (a b : String) : Prop := a.data ≤ b.data

instance : DecidableRel str_lex_le := fun a b => inferInstanceAs (Decidable (a.data ≤ b.data))

instance : IsTotal String str_lex_le := ⟨fun a b => le_total a.data b.data⟩

instance : IsTrans String str_lex_le := ⟨fun _ _ _ h1 h2 => le_trans h1 h2⟩

instance : IsAntisymm String str_lex_le := ⟨fun _ _ h1 h2 => String.ext (le_antisymm h1 h2)⟩

/-- Rust strict `str` ordering, on the first components of keyed records. -/
def key_lt (p q : String × EventRecord) : Prop := p.1.data < q.1.data

instance : IsAntisymm (String × EventRecord) key_lt :=
  ⟨fun _ _ h1 h2 => absurd (lt_trans h1 h2) (lt_irrefl _)⟩

instance : IsAntisymm String (fun a b => a.data < b.data) :=
  ⟨fun _ _ h1 h2 => absurd (lt_trans h1 h2) (lt_irrefl _)⟩

/-- `conflicting_ids.sort()`: a stable sort is modelled by insertion sort
(on the unique conflict ids every correct sort agrees). -/
def sort_strings (l : List String) : List String :=
  l.insertionSort str_lex_le

/-- `merged.sort_by(|(a, _), (b, _)| a.cmp(b))`, same modelling. -/
def sort_by_id (l : List (String × EventRecord)) : List (String × EventRecord) :=
  l.insertionSort (fun p q => str_lex_le p.1 q.1)

/-- `merge_events_files` from `merge_driver.rs`, over the parsed event
lists of the three files (`read_events_from_path` applies the
`read_events` line parsing to the given path) and returning the
`MergeDriverOutcome` together with the trace of file-system effects on
the "ours" path (empty on conflict: the ours file is left untouched). -/
def merge_events_files (ours_path : String)
    (ancestor ours theirs : List EventRecord) :
    Except TsqError (MergeDriverOutcome × List FsOp) := do
  let (seen, raw_conflicting_ids, total_input) ←
    merge_loop (ancestor ++ ours ++ theirs) [] [] 0
  let conflicting_ids := sort_strings raw_conflicting_ids
  if ¬ conflicting_ids.isEmpty then
    pure
      ({ total_events := seen.length
         duplicates_removed := total_input - seen.length
         conflict := true
         conflicting_ids := conflicting_ids }, [])
  else
    let merged := sort_by_id seen
    pure
      ({ total_events := merged.length
         duplicates_removed := total_input - merged.length
         conflict := false
         conflicting_ids := [] },
       write_events_to_path ours_path merged)

/-! ### `store/state.rs` and `app/state.rs` — state cache and load -/

/-- The outcome of `read_to_string` followed by `serde_json::from_str` on
one state-cache candidate file: the file may be absent, fail with a
non-NotFound I/O error, or have content whose parse as a `State` either
succeeds or fails. -/
inductive FileRead where
  | absent : FileRead
  | io_error : FileRead
  | content (parsed : Option State) : FileRead
deriving DecidableEq

/-- The `for state_file in candidates` loop of `read_state_cache`. -/
def read_state_cache_loop : List FileRead → Except TsqError (Option State)
  | [] => .ok none
  | candidate :: rest =>
    match candidate with
    | .content (some state) => .ok (some state)
    | .content none => .ok none
    | .absent => read_state_cache_loop rest
    | .io_error => .error { code := "STATE_READ_FAILED", exit_code := 2 }

/-- `read_state_cache` from `store/state.rs`: candidates are `state.json`
then the legacy `tasks.jsonl`. -/
def read_state_cache (state_file legacy_file : FileRead) : Except TsqError (Option State) :=
  read_state_cache_loop [state_file, legacy_file]

/-- The result of `load_latest_snapshot_with_warning`
(`store/snapshots.rs`), abstracted. -/
structure SnapshotLoadResult where
  snapshot : Option Snapshot
  warning : Option String
deriving DecidableEq

/-- `LoadedState` from `app/state.rs`. -/
structure LoadedState where
  state : State
  all_events : List EventRecord
  warning : Option String
  snapshot : Option Snapshot
deriving DecidableEq

/-- `combine_warnings` from `app/state.rs`. -/
def combine_warnings (warnings other : Option String) : Option String :=
  let combined :=
    (match warnings with
      | some value => if ¬ value.isEmpty then [value] else []
      | none => []) ++
    (match other with
      | some value => if ¬ value.isEmpty then [value] else []
      | none => [])
  if combined.isEmpty then none else some (String.intercalate " | " combined)

/-- The snapshot-plus-replay second half of `load_projected_state`. -/
def load_from_snapshot (events : List EventRecord) (event_warning : Option String)
    (loaded : SnapshotLoadResult) : Except TsqError LoadedState := do
  let base := (loaded.snapshot.map (·.state)).getD create_empty_state
  let start_offset :=
    (loaded.snapshot.map fun snapshot => min snapshot.event_count events.length).getD 0
  let projected ← apply_events base (events.drop start_offset)
  pure
    { state := { projected with applied_events := events.length }
      all_events := events
      warning := combine_warnings event_warning loaded.warning
      snapshot := loaded.snapshot }

/-- `load_projected_state` from `app/state.rs`.  The file reads are
abstracted into parameters: `read` is the `read_events` result, `cache`
the `read_state_cache` result and `snapshot_read` the
`load_latest_snapshot_with_warning` result (consulted only on the
fallback path, as in the source). -/
def load_projected_state (read : ReadEventsResult)
    (cache : Except TsqError (Option State))
    (snapshot_read : Except TsqError SnapshotLoadResult) :
    Except TsqError LoadedState := do
  let events := read.events
  let event_warning := read.warning
  match ← cache with
  | some from_cache =>
    if from_cache.applied_events ≤ events.length then
      if from_cache.applied_events = events.length then
        pure
          { state := from_cache, all_events := events
            warning := event_warning, snapshot := none }
      else do
        let st ← apply_events from_cache (events.drop from_cache.applied_events)
        pure
          { state := { st with applied_events := events.length }
            all_events := events
            warning := event_warning
            snapshot := none }
    else
      load_from_snapshot events event_warning (← snapshot_read)
  | none => load_from_snapshot events event_warning (← snapshot_read)

/-! ### Specification-side predicates used by the theorems -/

/-- The step relation of the `blocks` dependency subgraph: `dep_step s a b`
holds when `b` is a `blocks`-blocker of `a` (an outgoing edge `a → b` of
the forward traversal of the cycle check). -/
def dep_step (s : State) (a b : String) : Prop :=
  b ∈ blocking_dep_ids s a

/-- The `blocks` subgraph has no directed cycle. -/
def BlocksAcyclic (s : State) : Prop :=
  ∀ a, ¬ Relation.TransGen (dep_step s) a a

/-- The targets stored under `links[src][rel]`. -/
def link_targets (links : List (String × List (RelationType × List String)))
    (src : String) (rel : RelationType) : List String :=
  (((links.lookup src).getD []).lookup rel).getD []

/-- Every `relates_to` edge has its reverse edge. -/
def LinksSymmetric (links : List (String × List (RelationType × List String))) : Prop :=
  ∀ a b, b ∈ link_targets links a .relates_to ↔ a ∈ link_targets links b .relates_to

/-- `closed_at` is set iff the status is `closed` (invariant 7 of the
specification). -/
def TaskClosedConsistent (t : Task) : Prop :=
  t.closed_at.isSome ↔ t.status = TaskStatus.closed

/-- Every task of the state satisfies `TaskClosedConsistent`. -/
def StateClosedConsistent (s : State) : Prop :=
  ∀ id t, s.tasks.lookup id = some t → TaskClosedConsistent t

/-- Every `deps` entry is already in the normal form produced by
`normalize_dependency_edges` (so `clone_state` is the identity). -/
def DepsNormalized (s : State) : Prop :=
  ∀ p ∈ s.deps, normalize_dependency_edges (some p.2) = p.2

/-- Modelled from the spec: the atomic-write contract of §4.1 — write to
a unique sibling temp file distinct from the target, write the lines,
fsync the temp file, then rename it over the target (the commit point).
Declared only to compare the merge driver's actual write trace against
it. -/
def atomic_write_contract (ops : List FsOp) (target : String) : Prop :=
  ∃ (temp : String) (lines : List EventRecord), temp ≠ target ∧
    ops = FsOp.create temp :: (lines.map (FsOp.write_line temp)) ++
      [FsOp.sync temp, FsOp.rename temp target]

/-- All records of an event-log file carry an id. -/
def AllIdsPresent (l : List EventRecord) : Prop :=
  ∀ r ∈ l, (merge_event_id r).isSome

/-- The first record of `l` carrying the id `x`. -/
def first_with_id (l : List EventRecord) (x : String) : Option EventRecord :=
  l.find? fun r => merge_event_id r == some x

/-- Two records of `l` carry the same id `x` but differ: the merge driver
reports `x` as conflicting exactly in this case. -/
def PairConflict (l : List EventRecord) (x : String) : Prop :=
  ∃ r ∈ l, ∃ u ∈ l, merge_event_id r = some x ∧ merge_event_id u = some x ∧ r ≠ u

/-- The file is in the canonical form the merge driver itself produces:
every record has an id and the ids are strictly increasing in Rust string
order (hence pairwise distinct). -/
def CanonicalEventLog (l : List EventRecord) : Prop :=
  AllIdsPresent l ∧
    l.Pairwise fun r s => ∀ a b,
      merge_event_id r = some a → merge_event_id s = some b → a.data < b.data

/-! ### Concrete sample data for the witnesses -/

/-- An event with fixed bookkeeping fields, for concrete test logs. -/
def sample_event (event_type : EventType) (task_id : String) (payload : Payload) :
    EventRecord :=
  { id := some "01SAMPLE", event_id := some "01SAMPLE"
    ts := "2026-01-01T00:00:00.000Z", actor := "tester"
    event_type := event_type, task_id := task_id, payload := payload }

/-- Two tasks and the dependency `A --blocks--> B`. -/
def sample_log_dep : List EventRecord :=
  [ sample_event .task_created "A" [("title", .str "a")],
    sample_event .task_created "B" [("title", .str "b")],
    sample_event .dep_added "A" [("blocker", .str "B")] ]

/-- The state projected from `sample_log_dep`. -/
def sample_state_dep : State :=
  match apply_events create_empty_state sample_log_dep with
  | .ok s => s
  | .error _ => create_empty_state

/-- Two tasks linked by `relates_to`. -/
def sample_log_link : List EventRecord :=
  [ sample_event .task_created "X" [("title", .str "x")],
    sample_event .task_created "Y" [("title", .str "y")],
    sample_event .link_added "X" [("type", .str "relates_to"), ("target", .str "Y")] ]

/-- One task created and then closed. -/
def sample_log_close : List EventRecord :=
  [ sample_event .task_created "T" [("title", .str "t")],
    sample_event .task_status_set "T" [("status", .str "closed")] ]

/-- A single task, for the self-edge counterexample. -/
def sample_state_single : State :=
  match apply_events create_empty_state
      [sample_event .task_created "A" [("title", .str "a")]] with
  | .ok s => s
  | .error _ => create_empty_state

/-- A complete, valid `task.updated` log line. -/
def sample_json_line : Json :=
  .obj
    [("id", .str "01E"), ("ts", .str "2026-01-01T00:00:00.000Z"),
     ("actor", .str "tester"), ("type", .str "task.updated"),
     ("task_id", .str "T"), ("payload", .obj [])]

/-- A `link.added` log line whose payload has `type` but no `target`. -/
def sample_link_line_no_target : Json :=
  .obj
    [("id", .str "01E"), ("ts", .str "2026-01-01T00:00:00.000Z"),
     ("actor", .str "tester"), ("type", .str "link.added"),
     ("task_id", .str "T"), ("payload", .obj [("type", .str "relates_to")])]

/-- A `task.superseded` log line with an empty payload. -/
def sample_superseded_line_no_with : Json :=
  .obj
    [("id", .str "01E"), ("ts", .str "2026-01-01T00:00:00.000Z"),
     ("actor", .str "tester"), ("type", .str "task.superseded"),
     ("task_id", .str "T"), ("payload", .obj [])]

/-- A closed task, for invariant witnesses. -/
def sample_closed_task : Task :=
  { id := "T", kind := .task, title := "t", description := none, notes := []
    spec_path := none, spec_fingerprint := none, spec_attached_at := none
    spec_attached_by := none, status := .closed, priority := 1, assignee := none
    external_ref := none, discovered_from := none, parent_id := none
    superseded_by := none, duplicate_of := none, planning_state := none
    replies_to := none, labels := [], created_at := "2026-01-01T00:00:00.000Z"
    updated_at := "2026-01-01T00:00:00.000Z"
    closed_at := some "2026-01-01T00:00:00.000Z" }

/-- A state holding only the closed task. -/
def sample_state_closed : State :=
  { tasks := [("T", sample_closed_task)], deps := [], links := []
    child_counters := [], created_order := ["T"], applied_events := 1 }

/-- Sample merge-driver records with distinct ids. -/
def sample_merge_a : EventRecord :=
  { id := some "01A", event_id := some "01A", ts := "t", actor := "m"
    event_type := .task_created, task_id := "x", payload := [("title", .str "x")] }

def sample_merge_b : EventRecord :=
  { sample_merge_a with id := some "01B", event_id := some "01B" }

def sample_merge_c : EventRecord :=
  { sample_merge_a with id := some "01C", event_id := some "01C" }

/-! ## Theorems -/

/-! ### Association-list lemmas -/

theorem lookup_cons {α β : Type} [DecidableEq α] (a : α) (b : β) (l : List (α × β)) (k : α) :
    ((a, b) :: l).lookup k = if k = a then some b else l.lookup k := by
  by_cases h : k = a
  · subst h; simp [List.lookup]
  · simp only [List.lookup]
    rw [show (k == a) = false from by simp [h]]
    simp [h]

theorem lookup_setAssoc {α β : Type} [DecidableEq α] (l : List (α × β)) (k k' : α) (v : β) :
    (setAssoc l k v).lookup k' = if k' = k then some v else l.lookup k' := by
  induction l with
  | nil =>
    show List.lookup k' [(k, v)] = _
    rw [lookup_cons]
  | cons p rest ih =>
    obtain ⟨a, b⟩ := p
    by_cases hak : a = k
    · subst hak
      rw [show setAssoc ((a, b) :: rest) a v = (a, v) :: rest by simp [setAssoc]]
      rw [lookup_cons, lookup_cons]
      by_cases hk' : k' = a <;> simp [hk']
    · rw [show setAssoc ((a, b) :: rest) k v = (a, b) :: setAssoc rest k v by
        simp [setAssoc, hak]]
      rw [lookup_cons, lookup_cons, ih]
      by_cases hk' : k' = a
      · subst hk'
        simp [hak]
      · simp [hk']

theorem lookup_modifyAssoc {α β : Type} [DecidableEq α] (l : List (α × β)) (k k' : α)
    (f : β → β) :
    (modifyAssoc l k f).lookup k' =
      if k' = k then (l.lookup k').map f else l.lookup k' := by
  induction l with
  | nil => simp [modifyAssoc, List.lookup]
  | cons p rest ih =>
    obtain ⟨a, b⟩ := p
    by_cases hak : a = k
    · subst hak
      rw [show modifyAssoc ((a, b) :: rest) a f = (a, f b) :: modifyAssoc rest a f by
        simp [modifyAssoc]]
      rw [lookup_cons, lookup_cons, ih]
      by_cases hk' : k' = a <;> simp [hk']
    · rw [show modifyAssoc ((a, b) :: rest) k f = (a, b) :: modifyAssoc rest k f by
        simp [modifyAssoc, hak]]
      rw [lookup_cons, lookup_cons, ih]
      by_cases hk' : k' = a
      · subst hk'
        simp [hak]
      · simp [hk']

theorem lookup_append_left {α β : Type} [DecidableEq α] (l₁ l₂ : List (α × β)) (k : α)
    (h : (l₁.lookup k).isSome) : (l₁ ++ l₂).lookup k = l₁.lookup k := by
  induction l₁ with
  | nil => simp [List.lookup] at h
  | cons p rest ih =>
    obtain ⟨a, b⟩ := p
    rw [List.cons_append, lookup_cons, lookup_cons]
    rw [lookup_cons] at h
    by_cases hk : k = a
    · simp [hk]
    · simp only [if_neg hk] at h ⊢
      exact ih h

theorem lookup_append_right {α β : Type} [DecidableEq α] (l₁ l₂ : List (α × β)) (k : α)
    (h : l₁.lookup k = none) : (l₁ ++ l₂).lookup k = l₂.lookup k := by
  induction l₁ with
  | nil => simp
  | cons p rest ih =>
    obtain ⟨a, b⟩ := p
    rw [List.cons_append, lookup_cons]
    rw [lookup_cons] at h
    by_cases hk : k = a
    · simp [hk] at h
    · simp only [if_neg hk] at h ⊢
      exact ih h

theorem lookup_upsertAssoc {α β : Type} [DecidableEq α] (l : List (α × β)) (k k' : α)
    (d : β) (f : β → β) :
    (upsertAssoc l k d f).lookup k' =
      if k' = k then some (f ((l.lookup k).getD d)) else l.lookup k' := by
  unfold upsertAssoc
  by_cases hs : (l.lookup k).isSome
  · rw [if_pos hs, lookup_modifyAssoc]
    by_cases hk : k' = k
    · subst hk
      obtain ⟨v, hv⟩ := Option.isSome_iff_exists.mp hs
      simp [hv]
    · simp [hk]
  · have hnone : l.lookup k = none := Option.not_isSome_iff_eq_none.mp hs
    rw [if_neg hs]
    by_cases hk : k' = k
    · subst hk
      rw [lookup_append_right _ _ _ hnone, lookup_cons]
      simp [hnone]
    · by_cases hl : (l.lookup k').isSome
      · rw [lookup_append_left _ _ _ hl, if_neg hk]
      · have h' : l.lookup k' = none := Option.not_isSome_iff_eq_none.mp hl
        rw [lookup_append_right _ _ _ h', if_neg hk, h', lookup_cons]
        simp [hk, List.lookup]

theorem mem_setAssoc {α β : Type} [DecidableEq α] (l : List (α × β)) (k : α) (v : β)
    (p : α × β) (h : p ∈ setAssoc l k v) : p ∈ l ∨ p = (k, v) := by
  induction l with
  | nil =>
    simp [setAssoc] at h
    simp [h]
  | cons q rest ih =>
    obtain ⟨a, b⟩ := q
    by_cases hak : a = k
    · subst hak
      simp [setAssoc] at h
      rcases h with h | h
      · right; simp [h]
      · left; simp [h]
    · simp [setAssoc, hak] at h
      rcases h with h | h
      · left; simp [h]
      · rcases ih h with h' | h'
        · left; simp [h']
        · right; exact h'

theorem lookup_map_values {α β γ : Type} [DecidableEq α] (l : List (α × β)) (f : β → γ)
    (k : α) :
    (l.map fun p => (p.1, f p.2)).lookup k = (l.lookup k).map f := by
  induction l with
  | nil => simp [List.lookup]
  | cons p rest ih =>
    obtain ⟨a, b⟩ := p
    rw [List.map_cons, lookup_cons, lookup_cons]
    by_cases hk : k = a <;> simp [hk, ih]

theorem contains_iff_mem {l : List String} {a : String} :
    l.contains a = true ↔ a ∈ l := by
  induction l with
  | nil => simp
  | cons b rest ih => simp [List.contains] at ih ⊢

theorem contains_false_of_cons {b : String} {l : List String} {a : String}
    (h : (b :: l).contains a = false) : l.contains a = false ∧ a ≠ b := by
  constructor
  · by_contra hc
    have : l.contains a = true := by
      cases hl : l.contains a
      · exact absurd hl hc
      · rfl
    have : a ∈ b :: l := List.mem_cons_of_mem _ (contains_iff_mem.mp this)
    rw [show (b :: l).contains a = true from contains_iff_mem.mpr this] at h
    cases h
  · intro hab
    subst hab
    rw [show (a :: l).contains a = true from contains_iff_mem.mpr (List.mem_cons_self a l)]
      at h
    cases h

/-! ### Lemmas about `normalize_dependency_edges` -/

theorem mem_normalize_dep_loop :
    ∀ (l : List DependencyEdge) (seen : List String) (e : DependencyEdge),
      e ∈ normalize_dep_loop l seen → e ∈ l
  | [], _, _, h => by simp [normalize_dep_loop] at h
  | edge :: rest, seen, e, h => by
    unfold normalize_dep_loop at h
    split at h
    · exact List.mem_cons_of_mem _ (mem_normalize_dep_loop rest seen e h)
    · split at h
      · exact List.mem_cons_of_mem _ (mem_normalize_dep_loop rest seen e h)
      · rcases List.mem_cons.mp h with h' | h'
        · exact h' ▸ List.mem_cons_self _ _
        · exact List.mem_cons_of_mem _ (mem_normalize_dep_loop rest _ e h')

theorem normalize_dep_loop_eq_self :
    ∀ (l : List DependencyEdge) (seen : List String),
      (∀ e ∈ l, ¬ e.blocker.isEmpty = true) →
      (∀ e ∈ l, seen.contains (edge_key e.blocker e.dep_type) = false) →
      l.Pairwise
        (fun a b => edge_key a.blocker a.dep_type ≠ edge_key b.blocker b.dep_type) →
      normalize_dep_loop l seen = l
  | [], _, _, _, _ => rfl
  | edge :: rest, seen, hne, hseen, hpair => by
    have h₁ : ¬ edge.blocker.isEmpty = true := hne edge (List.mem_cons_self _ _)
    have h₂ : seen.contains (edge_key edge.blocker edge.dep_type) = false :=
      hseen edge (List.mem_cons_self _ _)
    unfold normalize_dep_loop
    rw [if_neg h₁, if_neg (by rw [h₂]; exact Bool.false_ne_true)]
    congr 1
    apply normalize_dep_loop_eq_self rest
    · exact fun e he => hne e (List.mem_cons_of_mem _ he)
    · intro e he
      have hkey : edge_key e.blocker e.dep_type ≠ edge_key edge.blocker edge.dep_type :=
        fun hk => (List.pairwise_cons.mp hpair).1 e he hk.symm
      have hs : seen.contains (edge_key e.blocker e.dep_type) = false :=
        hseen e (List.mem_cons_of_mem _ he)
      cases hc : (edge_key edge.blocker edge.dep_type :: seen).contains
          (edge_key e.blocker e.dep_type) with
      | false => rfl
      | true =>
        rcases List.mem_cons.mp (contains_iff_mem.mp hc) with h' | h'
        · exact absurd h' hkey
        · rw [contains_iff_mem.mpr h'] at hs
          cases hs
    · exact (List.pairwise_cons.mp hpair).2

theorem normalize_dep_loop_props :
    ∀ (l : List DependencyEdge) (seen : List String),
      (∀ e ∈ normalize_dep_loop l seen, ¬ e.blocker.isEmpty = true ∧
        seen.contains (edge_key e.blocker e.dep_type) = false) ∧
      (normalize_dep_loop l seen).Pairwise
        (fun a b => edge_key a.blocker a.dep_type ≠ edge_key b.blocker b.dep_type)
  | [], seen => by simp [normalize_dep_loop]
  | edge :: rest, seen => by
    unfold normalize_dep_loop
    split
    · exact normalize_dep_loop_props rest seen
    · split
      · exact normalize_dep_loop_props rest seen
      · rename_i hne hseen
        obtain ⟨ihmem, ihpair⟩ :=
          normalize_dep_loop_props rest (edge_key edge.blocker edge.dep_type :: seen)
        constructor
        · intro e he
          rcases List.mem_cons.mp he with h' | h'
          · subst h'
            refine ⟨hne, ?_⟩
            cases hc : seen.contains (edge_key e.blocker e.dep_type) with
            | false => rfl
            | true => exact absurd hc hseen
          · obtain ⟨hn, hc⟩ := ihmem e h'
            exact ⟨hn, (contains_false_of_cons hc).1⟩
        · rw [List.pairwise_cons]
          refine ⟨fun e he hk => ?_, ihpair⟩
          obtain ⟨_, hc⟩ := ihmem e he
          exact absurd hk.symm (contains_false_of_cons hc).2

theorem normalize_edges_idem (l : List DependencyEdge) :
    normalize_dependency_edges (some (normalize_dependency_edges (some l))) =
      normalize_dependency_edges (some l) := by
  show normalize_dep_loop (normalize_dep_loop l []) [] = normalize_dep_loop l []
  obtain ⟨hmem, hpair⟩ := normalize_dep_loop_props l []
  exact normalize_dep_loop_eq_self _ _ (fun e he => (hmem e he).1)
    (fun e he => (hmem e he).2) hpair

theorem normalize_edges_filter (l : List DependencyEdge) (p : DependencyEdge → Bool) :
    normalize_dependency_edges (some ((normalize_dependency_edges (some l)).filter p)) =
      (normalize_dependency_edges (some l)).filter p := by
  show normalize_dep_loop ((normalize_dep_loop l []).filter p) [] = _
  obtain ⟨hmem, hpair⟩ := normalize_dep_loop_props l []
  exact normalize_dep_loop_eq_self _ _
    (fun e he => (hmem e (List.mem_of_mem_filter he)).1)
    (fun e he => (hmem e (List.mem_of_mem_filter he)).2)
    (hpair.sublist (List.filter_sublist _))

theorem normalize_edges_append_fresh (l : List DependencyEdge) (edge : DependencyEdge)
    (hne : ¬ edge.blocker.isEmpty = true)
    (hfresh : ((normalize_dependency_edges (some l)).map
        (fun e => edge_key e.blocker e.dep_type)).contains
        (edge_key edge.blocker edge.dep_type) = false) :
    normalize_dependency_edges (some (normalize_dependency_edges (some l) ++ [edge])) =
      normalize_dependency_edges (some l) ++ [edge] := by
  show normalize_dep_loop (normalize_dep_loop l [] ++ [edge]) [] = _
  rw [show normalize_dependency_edges (some l) = normalize_dep_loop l [] from rfl] at hfresh
  obtain ⟨hmem, hpair⟩ := normalize_dep_loop_props l []
  have hfresh' : ∀ e ∈ normalize_dep_loop l [],
      edge_key e.blocker e.dep_type ≠ edge_key edge.blocker edge.dep_type := by
    intro e he hk
    have : edge_key edge.blocker edge.dep_type ∈
        (normalize_dep_loop l []).map (fun e => edge_key e.blocker e.dep_type) :=
      hk ▸ List.mem_map_of_mem _ he
    rw [show ((normalize_dep_loop l []).map
        (fun e => edge_key e.blocker e.dep_type)).contains
        (edge_key edge.blocker edge.dep_type) = true from contains_iff_mem.mpr this]
      at hfresh
    cases hfresh
  apply normalize_dep_loop_eq_self
  · intro e he
    rcases List.mem_append.mp he with h' | h'
    · exact (hmem e h').1
    · rw [List.mem_singleton.mp h']
      exact hne
  · intro e he
    rcases List.mem_append.mp he with h' | h'
    · exact (hmem e h').2
    · rfl
  · rw [List.pairwise_append]
    refine ⟨hpair, List.pairwise_singleton _ _, ?_⟩
    intro a ha b hb
    rw [List.mem_singleton.mp hb]
    exact hfresh' a ha

/-! ### Generic stepping lemmas -/

theorem bind_ok_iff {ε α β : Type} {ma : Except ε α} {f : α → Except ε β} {b : β} :
    (ma >>= f) = .ok b ↔ ∃ a, ma = .ok a ∧ f a = .ok b := by
  cases ma <;> simp [Bind.bind, Except.bind]

theorem option_match_prop {α β : Type} (o : Option α) (f : α → β) (d : β) (Q : β → Prop)
    (hs : ∀ x, Q (f x)) (hn : Q d) :
    Q (match o with | some x => f x | none => d) := by
  cases o with
  | none => exact hn
  | some x => exact hs x

/-! ### `clone_state`, `set_child_counter` and friends -/

theorem set_child_counter_fields (st : State) (p c : String) :
    (set_child_counter st p c).tasks = st.tasks ∧
    (set_child_counter st p c).deps = st.deps ∧
    (set_child_counter st p c).links = st.links ∧
    (set_child_counter st p c).applied_events = st.applied_events := by
  unfold set_child_counter
  dsimp only
  repeat' split
  all_goals exact ⟨rfl, rfl, rfl, rfl⟩

theorem clone_state_fields (s : State) :
    (clone_state s).tasks = s.tasks ∧ (clone_state s).links = s.links ∧
    (clone_state s).child_counters = s.child_counters ∧
    (clone_state s).created_order = s.created_order ∧
    (clone_state s).applied_events = s.applied_events :=
  ⟨rfl, rfl, rfl, rfl, rfl⟩

theorem clone_state_deps_lookup (s : State) (t : String) :
    (clone_state s).deps.lookup t =
      (s.deps.lookup t).map fun l => normalize_dependency_edges (some l) := by
  show (s.deps.map fun p => (p.1, normalize_dependency_edges (some p.2))).lookup t = _
  exact lookup_map_values s.deps (fun l => normalize_dependency_edges (some l)) t

theorem blocking_dep_ids_clone (s : State) (t : String) :
    blocking_dep_ids (clone_state s) t = blocking_dep_ids s t := by
  unfold blocking_dep_ids
  rw [clone_state_deps_lookup]
  cases hl : s.deps.lookup t with
  | none => rfl
  | some l =>
    rw [show ((some l).map fun l => normalize_dependency_edges (some l)) =
      some (normalize_dependency_edges (some l)) from rfl]
    rw [normalize_edges_idem l]

theorem blocking_dep_ids_congr {s s' : State} (h : s'.deps = s.deps) (t : String) :
    blocking_dep_ids s' t = blocking_dep_ids s t := by
  unfold blocking_dep_ids
  rw [h]

theorem clone_state_normalized (s : State) : DepsNormalized (clone_state s) := by
  intro p hp
  have hp' : p ∈ s.deps.map fun q => (q.1, normalize_dependency_edges (some q.2)) := hp
  obtain ⟨q, _, rfl⟩ := List.mem_map.mp hp'
  exact normalize_edges_idem q.2

theorem clone_state_eq_self {s : State} (h : DepsNormalized s) : clone_state s = s := by
  unfold clone_state
  have : s.deps.map (fun p => (p.1, normalize_dependency_edges (some p.2))) = s.deps := by
    have hcg : s.deps.map (fun p => (p.1, normalize_dependency_edges (some p.2)))
        = s.deps.map id :=
      List.map_congr_left (fun p hp => by simp [h p hp])
    simpa using hcg
  rw [this]

theorem empty_state_normalized : DepsNormalized create_empty_state := by
  intro p hp
  simp [create_empty_state] at hp

/-! ### Per-handler structure lemmas -/

theorem state_closed_insert {tasks : List (String × Task)} {key : String} {next : Task}
    (hs : ∀ id t, tasks.lookup id = some t → TaskClosedConsistent t)
    (hn : TaskClosedConsistent next) :
    ∀ id t, (setAssoc tasks key next).lookup id = some t → TaskClosedConsistent t := by
  intro id t ht
  rw [lookup_setAssoc] at ht
  by_cases hid : id = key
  · rw [if_pos hid] at ht
    cases ht
    exact hn
  · rw [if_neg hid] at ht
    exact hs id t ht

theorem apply_task_status_set_ok {s : State} {e : EventRecord} {s' : State}
    (h : apply_task_status_set s e = .ok s') :
    s'.deps = s.deps ∧ s'.links = s.links ∧
    ∃ current status,
      s.tasks.lookup e.task_id = some current ∧
      as_task_status (e.payload.lookup "status") = some status ∧
      ¬((current.status = TaskStatus.closed ∨ current.status = TaskStatus.canceled)
          ∧ status = TaskStatus.in_progress) ∧
      s'.tasks = setAssoc s.tasks e.task_id
        { current with
            status := status
            updated_at := e.ts
            closed_at := if status = TaskStatus.closed then some e.ts else none } := by
  unfold apply_task_status_set require_task at h
  simp only [bind, Except.bind, pure, Except.pure] at h
  split at h
  · simp at h
  · rename_i v hcur
    split at hcur
    · rename_i task hlook
      cases hcur
      split at h
      · simp at h
      · rename_i status hst
        split at h
        · simp at h
        · rename_i hguard
          cases h
          exact ⟨rfl, rfl, _, _, hlook, hst, hguard, rfl⟩
    · simp at hcur

theorem apply_task_claimed_ok {s : State} {e : EventRecord} {s' : State}
    (h : apply_task_claimed s e = .ok s') :
    s'.deps = s.deps ∧ s'.links = s.links ∧
    ∃ current, s.tasks.lookup e.task_id = some current ∧
      ¬(current.status = TaskStatus.closed ∨ current.status = TaskStatus.canceled) ∧
      ∃ next,
        s'.tasks = setAssoc s.tasks e.task_id next ∧
        next.status =
          (if current.status = TaskStatus.open then TaskStatus.in_progress
           else current.status) ∧
        next.closed_at = current.closed_at := by
  unfold apply_task_claimed require_task at h
  simp only [bind, Except.bind, pure, Except.pure] at h
  split at h
  · simp at h
  · rename_i v hcur
    split at hcur
    · rename_i task hlook
      cases hcur
      split at h
      · simp at h
      · rename_i hguard
        cases h
        exact ⟨rfl, rfl, _, hlook, hguard, _, rfl, rfl, rfl⟩
    · simp at hcur

theorem apply_task_noted_ok {s : State} {e : EventRecord} {s' : State}
    (h : apply_task_noted s e = .ok s') :
    s'.deps = s.deps ∧ s'.links = s.links ∧
    ∃ current next, s.tasks.lookup e.task_id = some current ∧
      s'.tasks = setAssoc s.tasks e.task_id next ∧
      next.status = current.status ∧ next.closed_at = current.closed_at := by
  unfold apply_task_noted require_task event_identifier at h
  simp only [bind, Except.bind, pure, Except.pure] at h
  split at h
  · simp at h
  · rename_i v hcur
    split at hcur
    · rename_i task hlook
      cases hcur
      repeat' split at h
      all_goals first
        | (cases h; exact ⟨rfl, rfl, _, _, hlook, rfl, rfl, rfl⟩)
        | simp at h
    · simp at hcur

theorem apply_task_spec_attached_ok {s : State} {e : EventRecord} {s' : State}
    (h : apply_task_spec_attached s e = .ok s') :
    s'.deps = s.deps ∧ s'.links = s.links ∧
    ∃ current next, s.tasks.lookup e.task_id = some current ∧
      s'.tasks = setAssoc s.tasks e.task_id next ∧
      next.status = current.status ∧ next.closed_at = current.closed_at := by
  unfold apply_task_spec_attached require_task at h
  simp only [bind, Except.bind, pure, Except.pure] at h
  split at h
  · simp at h
  · rename_i v hcur
    split at hcur
    · rename_i task hlook
      cases hcur
      repeat' split at h
      all_goals first
        | (cases h; exact ⟨rfl, rfl, _, _, hlook, rfl, rfl, rfl⟩)
        | simp at h
    · simp at hcur

theorem apply_task_superseded_ok {s : State} {e : EventRecord} {s' : State}
    (h : apply_task_superseded s e = .ok s') :
    s'.deps = s.deps ∧ s'.links = s.links ∧
    ∃ current next, s.tasks.lookup e.task_id = some current ∧
      s'.tasks = setAssoc s.tasks e.task_id next ∧
      next.status = TaskStatus.closed ∧ next.closed_at = some e.ts := by
  unfold apply_task_superseded require_task set_task_closed_state at h
  simp only [bind, Except.bind, pure, Except.pure] at h
  split at h
  · simp at h
  · rename_i v hcur
    split at hcur
    · rename_i task hlook
      cases hcur
      repeat' split at h
      all_goals first
        | (cases h; exact ⟨rfl, rfl, _, _, hlook, rfl, rfl, rfl⟩)
        | simp at h
    · simp at hcur

theorem apply_task_created_ok {s : State} {e : EventRecord} {s' : State}
    (h : apply_task_created s e = .ok s') :
    s'.deps = s.deps ∧ s'.links = s.links ∧
    ∃ task, s'.tasks = setAssoc s.tasks e.task_id task ∧ TaskClosedConsistent task := by
  unfold apply_task_created require_task at h
  simp only [bind, Except.bind, pure, Except.pure] at h
  repeat' split at h
  all_goals first
    | (cases h; refine ⟨rfl, rfl, _, rfl, ?_⟩; simp_all [TaskClosedConsistent])
    | (cases h;
       refine ⟨(set_child_counter_fields _ _ _).2.1, (set_child_counter_fields _ _ _).2.2.1,
         _, (set_child_counter_fields _ _ _).1, ?_⟩
       simp_all [TaskClosedConsistent])
    | simp at h

theorem updated_title_ok {p : Payload} {t t' : Task} (h : updated_title p t = .ok t') :
    t'.status = t.status ∧ t'.closed_at = t.closed_at := by
  unfold updated_title at h
  repeat' split at h
  all_goals first | (cases h; exact ⟨rfl, rfl⟩) | simp at h

theorem updated_duplicate_of_ok {p : Payload} {id : String} {t t' : Task}
    (h : updated_duplicate_of p id t = .ok t') :
    t'.status = t.status ∧ t'.closed_at = t.closed_at := by
  unfold updated_duplicate_of at h
  repeat' split at h
  all_goals first | (cases h; exact ⟨rfl, rfl⟩) | simp at h

theorem updated_discovered_from_ok {s : State} {p : Payload} {id : String} {t t' : Task}
    (h : updated_discovered_from s p id t = .ok t') :
    t'.status = t.status ∧ t'.closed_at = t.closed_at := by
  unfold updated_discovered_from at h
  repeat' split at h
  all_goals first | (cases h; exact ⟨rfl, rfl⟩) | simp at h

theorem updated_kind_fields (p : Payload) (t : Task) :
    (updated_kind p t).status = t.status ∧ (updated_kind p t).closed_at = t.closed_at := by
  unfold updated_kind
  split <;> exact ⟨rfl, rfl⟩

theorem updated_priority_fields (p : Payload) (t : Task) :
    (updated_priority p t).status = t.status ∧
    (updated_priority p t).closed_at = t.closed_at := by
  unfold updated_priority
  split <;> exact ⟨rfl, rfl⟩

theorem updated_assignee_fields (p : Payload) (t : Task) :
    (updated_assignee p t).status = t.status ∧
    (updated_assignee p t).closed_at = t.closed_at := by
  unfold updated_assignee
  split <;> exact ⟨rfl, rfl⟩

theorem updated_labels_fields (p : Payload) (t : Task) :
    (updated_labels p t).status = t.status ∧
    (updated_labels p t).closed_at = t.closed_at := by
  unfold updated_labels
  split <;> exact ⟨rfl, rfl⟩

theorem updated_planning_state_fields (p : Payload) (t : Task) :
    (updated_planning_state p t).status = t.status ∧
    (updated_planning_state p t).closed_at = t.closed_at := by
  unfold updated_planning_state
  split <;> exact ⟨rfl, rfl⟩

theorem updated_description_fields (p : Payload) (t : Task) :
    (updated_description p t).status = t.status ∧
    (updated_description p t).closed_at = t.closed_at := by
  unfold updated_description
  repeat' split
  all_goals exact ⟨rfl, rfl⟩

theorem updated_external_ref_fields (p : Payload) (t : Task) :
    (updated_external_ref p t).status = t.status ∧
    (updated_external_ref p t).closed_at = t.closed_at := by
  unfold updated_external_ref
  repeat' split
  all_goals exact ⟨rfl, rfl⟩

theorem updated_clear_discovered_from_fields (p : Payload) (t : Task) :
    (updated_clear_discovered_from p t).status = t.status ∧
    (updated_clear_discovered_from p t).closed_at = t.closed_at := by
  unfold updated_clear_discovered_from
  split <;> exact ⟨rfl, rfl⟩

theorem apply_task_updated_ok {s : State} {e : EventRecord} {s' : State}
    (h : apply_task_updated s e = .ok s') :
    s'.deps = s.deps ∧ s'.links = s.links ∧
    ∃ current next, s.tasks.lookup e.task_id = some current ∧
      s'.tasks = setAssoc s.tasks e.task_id next ∧
      next.status = current.status ∧ next.closed_at = current.closed_at := by
  unfold apply_task_updated require_task at h
  simp only [bind_ok_iff, pure, Except.pure, Except.ok.injEq] at h
  obtain ⟨current, hcur, next1, h1, next6, h6, u1, hg1, u2, hg2, u3, hg3,
    next12, h12, hfin⟩ := h
  split at hcur
  · rename_i task hlook
    cases hcur
    obtain ⟨hs1, hc1⟩ := updated_title_ok h1
    obtain ⟨hs6, hc6⟩ := updated_duplicate_of_ok h6
    obtain ⟨hs12, hc12⟩ := updated_discovered_from_ok h12
    subst hfin
    refine ⟨rfl, rfl, _, _, hlook, rfl, ?_, ?_⟩
    · rw [(updated_clear_discovered_from_fields _ _).1, hs12,
        (updated_planning_state_fields _ _).1, (updated_external_ref_fields _ _).1,
        (updated_description_fields _ _).1, hs6,
        (updated_labels_fields _ _).1, (updated_assignee_fields _ _).1,
        (updated_priority_fields _ _).1, (updated_kind_fields _ _).1, hs1]
    · rw [(updated_clear_discovered_from_fields _ _).2, hc12,
        (updated_planning_state_fields _ _).2, (updated_external_ref_fields _ _).2,
        (updated_description_fields _ _).2, hc6,
        (updated_labels_fields _ _).2, (updated_assignee_fields _ _).2,
        (updated_priority_fields _ _).2, (updated_kind_fields _ _).2, hc1]
  · simp at hcur

theorem normalize_filter_general (o : Option (List DependencyEdge))
    (p : DependencyEdge → Bool) :
    normalize_dependency_edges (some ((normalize_dependency_edges o).filter p)) =
      (normalize_dependency_edges o).filter p := by
  cases o with
  | none => rfl
  | some l => exact normalize_edges_filter l p

theorem normalize_append_fresh_general (o : Option (List DependencyEdge))
    (edge : DependencyEdge)
    (hne : ¬ edge.blocker.isEmpty = true)
    (hfresh : ((normalize_dependency_edges o).map
        (fun e => edge_key e.blocker e.dep_type)).contains
        (edge_key edge.blocker edge.dep_type) = false) :
    normalize_dependency_edges (some (normalize_dependency_edges o ++ [edge])) =
      normalize_dependency_edges o ++ [edge] := by
  cases o with
  | none =>
    show normalize_dep_loop [edge] [] = [edge]
    unfold normalize_dep_loop
    rw [if_neg hne]
    simp [normalize_dep_loop]
  | some l => exact normalize_edges_append_fresh l edge hne hfresh

theorem apply_dep_removed_ok {s : State} {e : EventRecord} {s' : State}
    (h : apply_dep_removed s e = .ok s') :
    s'.tasks = s.tasks ∧ s'.links = s.links ∧
    ∃ next, s'.deps = setAssoc s.deps e.task_id next ∧
      (∀ x ∈ next, x ∈ normalize_dependency_edges (s.deps.lookup e.task_id)) ∧
      normalize_dependency_edges (some next) = next := by
  unfold apply_dep_removed at h
  simp only [bind, Except.bind, pure, Except.pure] at h
  repeat' split at h
  all_goals first
    | (cases h;
       exact ⟨rfl, rfl, _, rfl, fun x hx => List.mem_of_mem_filter hx,
         normalize_filter_general _ _⟩)
    | simp at h

theorem apply_dep_added_ok {s : State} {e : EventRecord} {s' : State}
    (h : apply_dep_added s e = .ok s') :
    s'.tasks = s.tasks ∧ s'.links = s.links ∧
    (s'.deps = s.deps ∨
      ∃ blocker dep_type,
        ¬ blocker.isEmpty = true ∧
        (dep_type = DependencyType.blocks →
          assert_no_dependency_cycle s e.task_id blocker = .ok ()) ∧
        ((normalize_dependency_edges (s.deps.lookup e.task_id)).map
            (fun edge => edge_key edge.blocker edge.dep_type)).contains
            (edge_key blocker dep_type) = false ∧
        s'.deps = setAssoc s.deps e.task_id
          (normalize_dependency_edges (s.deps.lookup e.task_id) ++
            [{ blocker := blocker, dep_type := dep_type }])) := by
  unfold apply_dep_added require_task at h
  simp only [bind, Except.bind, pure, Except.pure] at h
  repeat' split at h
  all_goals first
    | (cases h; exact ⟨rfl, rfl, .inl rfl⟩)
    | (cases h;
       refine ⟨rfl, rfl, .inr ⟨_, _, by assumption, ?_, ?_, rfl⟩⟩ <;> simp_all)
    | simp at h

theorem apply_link_added_ok {s : State} {e : EventRecord} {s' : State}
    (h : apply_link_added s e = .ok s') :
    s'.tasks = s.tasks ∧ s'.deps = s.deps ∧
    ∃ rel_type target,
      as_relation_type (e.payload.lookup "type") = some rel_type ∧
      relation_target e.payload = some target ∧
      ¬ target = e.task_id ∧
      s'.links =
        (if rel_type = RelationType.relates_to then
          upsert_directed_link (upsert_directed_link s.links e.task_id target rel_type)
            target e.task_id rel_type
        else upsert_directed_link s.links e.task_id target rel_type) := by
  unfold apply_link_added require_task at h
  simp only [bind, Except.bind, pure, Except.pure] at h
  split at h
  case h_2 => simp at h
  case h_1 rel_type target hrel htarget =>
    repeat' split at h
    all_goals first
      | (cases h;
         refine ⟨rfl, rfl, rel_type, target, hrel, htarget, by assumption, ?_⟩
         simp_all)
      | simp at h

theorem apply_link_removed_ok {s : State} {e : EventRecord} {s' : State}
    (h : apply_link_removed s e = .ok s') :
    s'.tasks = s.tasks ∧ s'.deps = s.deps ∧
    ∃ rel_type target,
      as_relation_type (e.payload.lookup "type") = some rel_type ∧
      relation_target e.payload = some target ∧
      s'.links =
        (if rel_type = RelationType.relates_to then
          remove_directed_link (remove_directed_link s.links e.task_id target rel_type)
            target e.task_id rel_type
        else remove_directed_link s.links e.task_id target rel_type) := by
  unfold apply_link_removed at h
  simp only [bind, Except.bind, pure, Except.pure] at h
  split at h
  case h_2 => simp at h
  case h_1 rel_type target hrel htarget =>
    repeat' split at h
    all_goals first
      | (cases h;
         refine ⟨rfl, rfl, rel_type, target, hrel, htarget, ?_⟩
         simp_all)
      | simp at h

/-! ### Graph lemmas for the cycle check -/

theorem acyclic_subgraph {step step' : String → String → Prop}
    (hsub : ∀ a b, step' a b → step a b)
    (hac : ∀ a, ¬ Relation.TransGen step a a) :
    ∀ a, ¬ Relation.TransGen step' a a :=
  fun a h => hac a (h.mono hsub)

theorem reach_with_new_edge {step step' : String → String → Prop} {child blocker : String}
    (hsub : ∀ a b, step' a b → step a b ∨ (a = child ∧ b = blocker)) :
    ∀ x y, Relation.ReflTransGen step' x y →
      Relation.ReflTransGen step x y ∨
        (Relation.ReflTransGen step x child ∧
          Relation.ReflTransGen step' blocker y) := by
  intro x y h
  induction h with
  | refl => exact .inl .refl
  | tail hxy hyz ih =>
    rcases hsub _ _ hyz with hstep | ⟨rfl, rfl⟩
    · rcases ih with ih | ⟨ih₁, ih₂⟩
      · exact .inl (ih.tail hstep)
      · exact .inr ⟨ih₁, ih₂.tail hyz⟩
    · rcases ih with ih | ⟨ih₁, _⟩
      · exact .inr ⟨ih, .refl⟩
      · exact .inr ⟨ih₁, .refl⟩

theorem acyclic_add_edge {step step' : String → String → Prop} {child blocker : String}
    (hac : ∀ a, ¬ Relation.TransGen step a a)
    (hnr : ¬ Relation.ReflTransGen step blocker child)
    (hsub : ∀ a b, step' a b → step a b ∨ (a = child ∧ b = blocker))
    (hsup : ∀ a b, step a b → step' a b) :
    ∀ a, ¬ Relation.TransGen step' a a := by
  have hnr' : ¬ Relation.ReflTransGen step' blocker child := by
    intro hr
    rcases reach_with_new_edge hsub _ _ hr with h1 | ⟨h1, _⟩ <;> exact hnr h1
  intro a hcyc
  obtain ⟨b, hab, hba⟩ := Relation.TransGen.head'_iff.mp hcyc
  rcases hsub _ _ hab with hstep | ⟨rfl, rfl⟩
  · rcases reach_with_new_edge hsub _ _ hba with hba' | ⟨hbc, hra⟩
    · exact hac a (Relation.TransGen.head' hstep hba')
    · exact hnr' (Relation.ReflTransGen.trans hra
        (Relation.ReflTransGen.head (hsup _ _ hstep) (hbc.mono hsup)))
  · exact hnr' hba

/-! ### Correctness of the cycle-check DFS -/

theorem closed_visited_no_reach {step : String → String → Prop} {child : String}
    {visited : List String}
    (hnc : ∀ v ∈ visited, v ≠ child)
    (hclosed : ∀ v ∈ visited, ∀ w, step v w → w ∈ visited) :
    ∀ u ∈ visited, ¬ Relation.ReflTransGen step u child := by
  intro u hu hreach
  have key : ∀ a, Relation.ReflTransGen step a child → a ∈ visited → False := by
    intro a ha
    induction ha using Relation.ReflTransGen.head_induction_on with
    | refl => exact fun hmem => hnc _ hmem rfl
    | head hstep _ ih => exact fun hmem => ih (hclosed _ hmem _ hstep)
  exact key u hreach hu

theorem cycle_dfs_not_found (state : State) (child : String) :
    ∀ (fuel : Nat) (stack visited : List String),
      (∀ v ∈ visited, v ≠ child) →
      (∀ v ∈ visited, ∀ w, dep_step state v w → w ∈ visited ∨ w ∈ stack) →
      cycle_dfs state child fuel stack visited = some false →
      ∀ u, u ∈ stack ∨ u ∈ visited →
        ¬ Relation.ReflTransGen (dep_step state) u child := by
  intro fuel
  induction fuel with
  | zero =>
    intro stack visited hnc hclosed hres u hu
    cases stack with
    | nil =>
      rcases hu with hu | hu
      · simp at hu
      · exact closed_visited_no_reach hnc
          (fun v hv w hw => (hclosed v hv w hw).resolve_right (by simp)) u hu
    | cons current rest => simp [cycle_dfs] at hres
  | succ fuel ih =>
    intro stack visited hnc hclosed hres u hu
    cases stack with
    | nil =>
      rcases hu with hu | hu
      · simp at hu
      · exact closed_visited_no_reach hnc
          (fun v hv w hw => (hclosed v hv w hw).resolve_right (by simp)) u hu
    | cons current rest =>
      unfold cycle_dfs at hres
      by_cases hv : visited.contains current = true
      · rw [if_pos hv] at hres
        have hcur : current ∈ visited := contains_iff_mem.mp hv
        have hclosed' : ∀ v ∈ visited, ∀ w, dep_step state v w → w ∈ visited ∨ w ∈ rest := by
          intro v hvin w hw
          rcases hclosed v hvin w hw with h | h
          · exact .inl h
          · rcases List.mem_cons.mp h with rfl | h
            · exact .inl hcur
            · exact .inr h
        have hconcl := ih rest visited hnc hclosed' hres
        rcases hu with hu | hu
        · rcases List.mem_cons.mp hu with rfl | hu
          · exact hconcl u (.inr hcur)
          · exact hconcl u (.inl hu)
        · exact hconcl u (.inr hu)
      · rw [if_neg hv] at hres
        by_cases hc : current = child
        · rw [if_pos hc] at hres
          simp at hres
        · rw [if_neg hc] at hres
          have hnc' : ∀ v ∈ current :: visited, v ≠ child := by
            intro v hvin
            rcases List.mem_cons.mp hvin with rfl | hvin
            · exact hc
            · exact hnc v hvin
          have hclosed' : ∀ v ∈ current :: visited, ∀ w, dep_step state v w →
              w ∈ current :: visited ∨
                w ∈ ((blocking_dep_ids state current).filter
                  (fun next => ¬ (current :: visited).contains next)).reverse ++ rest := by
            intro v hvin w hw
            rcases List.mem_cons.mp hvin with hveq | hvin
            · subst hveq
              by_cases hwv : (v :: visited).contains w = true
              · exact .inl (contains_iff_mem.mp hwv)
              · refine .inr (List.mem_append.mpr (.inl ?_))
                rw [List.mem_reverse]
                refine List.mem_filter.mpr ⟨hw, ?_⟩
                simp only [decide_eq_true_eq]
                exact hwv
            · rcases hclosed v hvin w hw with h | h
              · exact .inl (List.mem_cons_of_mem _ h)
              · rcases List.mem_cons.mp h with heq | h
                · exact heq ▸ .inl (List.mem_cons_self _ _)
                · exact .inr (List.mem_append.mpr (.inr h))
          have hconcl := ih _ _ hnc' hclosed' hres
          rcases hu with hu | hu
          · rcases List.mem_cons.mp hu with rfl | hu
            · exact hconcl u (.inr (List.mem_cons_self _ _))
            · exact hconcl u (.inl (List.mem_append.mpr (.inr hu)))
          · exact hconcl u (.inr (List.mem_cons_of_mem _ hu))

theorem mem_of_lookup {α β : Type} [DecidableEq α] {l : List (α × β)} {k : α} {v : β}
    (h : l.lookup k = some v) : (k, v) ∈ l := by
  induction l with
  | nil => simp [List.lookup] at h
  | cons p rest ih =>
    obtain ⟨a, b⟩ := p
    rw [lookup_cons] at h
    by_cases hk : k = a
    · rw [if_pos hk] at h
      cases h
      subst hk
      exact List.mem_cons_self _ _
    · rw [if_neg hk] at h
      exact List.mem_cons_of_mem _ (ih h)

theorem mem_dep_universe_aux :
    ∀ (deps : List (String × List DependencyEdge)) (k : String)
      (l : List DependencyEdge) (e : DependencyEdge),
      (k, l) ∈ deps → e ∈ l →
      e.blocker ∈ deps.foldr (fun p acc => p.2.map (·.blocker) ++ acc) []
  | [], _, _, _, hm, _ => by simp at hm
  | p :: rest, k, l, e, hm, he => by
    rcases List.mem_cons.mp hm with heq | hm'
    · subst heq
      exact List.mem_append.mpr (.inl (List.mem_map_of_mem _ he))
    · exact List.mem_append.mpr (.inr (mem_dep_universe_aux rest k l e hm' he))

theorem blocking_sub_universe (state : State) (v : String) :
    ∀ x ∈ blocking_dep_ids state v, x ∈ dep_universe state := by
  intro x hx
  unfold blocking_dep_ids at hx
  obtain ⟨e, he, rfl⟩ := List.mem_map.mp hx
  have he' := List.mem_of_mem_filter he
  cases hl : state.deps.lookup v with
  | none =>
    rw [hl] at he'
    simp [normalize_dependency_edges] at he'
  | some l =>
    rw [hl] at he'
    have hel : e ∈ l := mem_normalize_dep_loop l [] e he'
    exact mem_dep_universe_aux state.deps v l e (mem_of_lookup hl) hel

theorem contains_cons_ne {a x : String} (vis : List String) (hne : x ≠ a) :
    (a :: vis).contains x = vis.contains x := by
  cases hv : vis.contains x with
  | true => exact contains_iff_mem.mpr (List.mem_cons_of_mem _ (contains_iff_mem.mp hv))
  | false =>
    cases hv' : (a :: vis).contains x with
    | false => rfl
    | true =>
      rcases List.mem_cons.mp (contains_iff_mem.mp hv') with heq | hmem
      · exact absurd heq hne
      · rw [contains_iff_mem.mpr hmem] at hv
        cases hv

theorem sum_filter_erase (term : String → Nat) :
    ∀ (l : List String) (visited : List String) (current : String),
      l.Nodup → current ∈ l → visited.contains current = false →
      ((l.filter (fun v => ¬ visited.contains v)).map term).sum
        = ((l.filter (fun v => ¬ (current :: visited).contains v)).map term).sum
          + term current
  | [], _, _, _, hm, _ => by simp at hm
  | a :: rest, visited, current, hnd, hm, hvc => by
    obtain ⟨ha, hrest⟩ := List.nodup_cons.mp hnd
    rcases List.mem_cons.mp hm with heq | hmem
    · subst heq
      have hfeq : rest.filter (fun v => ¬ visited.contains v)
          = rest.filter (fun v => ¬ (current :: visited).contains v) := by
        apply List.filter_congr
        intro x hx
        have : x ≠ current := fun hxc => ha (hxc ▸ hx)
        rw [contains_cons_ne visited this]
      rw [List.filter_cons, List.filter_cons]
      have h1 : (decide ¬ visited.contains current = true) = true := by
        simp only [decide_eq_true_eq, hvc]
        exact Bool.false_ne_true
      have h2 : ¬ ((decide ¬ (current :: visited).contains current = true) = true) := by
        simp [contains_iff_mem.mpr (List.mem_cons_self current visited)]
      rw [if_pos h1, if_neg h2]
      rw [List.map_cons, List.sum_cons, hfeq]
      omega
    · have hac : a ≠ current := fun haec => ha (haec ▸ hmem)
      have ih := sum_filter_erase term rest visited current hrest hmem hvc
      rw [List.filter_cons, List.filter_cons]
      rw [contains_cons_ne visited hac]
      by_cases hka : (decide ¬ visited.contains a = true) = true
      · rw [if_pos hka, if_pos hka]
        rw [List.map_cons, List.sum_cons, List.map_cons, List.sum_cons, ih]
        omega
      · rw [if_neg hka, if_neg hka]
        exact ih

theorem cycle_dfs_ne_none (state : State) (child : String) (univ : List String)
    (hU : ∀ v x, x ∈ blocking_dep_ids state v → x ∈ univ) :
    ∀ (fuel : Nat) (stack visited : List String),
      (∀ v ∈ stack, v ∈ univ) →
      stack.length +
        ((univ.dedup.filter (fun v => ¬ visited.contains v)).map
          (fun v => 1 + (blocking_dep_ids state v).length)).sum ≤ fuel →
      cycle_dfs state child fuel stack visited ≠ none := by
  intro fuel
  induction fuel with
  | zero =>
    intro stack visited hsub hms
    cases stack with
    | nil => simp [cycle_dfs]
    | cons current rest => simp at hms
  | succ fuel ih =>
    intro stack visited hsub hms
    cases stack with
    | nil => simp [cycle_dfs]
    | cons current rest =>
      unfold cycle_dfs
      by_cases hv : visited.contains current = true
      · rw [if_pos hv]
        apply ih rest visited (fun v hvr => hsub v (List.mem_cons_of_mem _ hvr))
        simp only [List.length_cons] at hms
        omega
      · rw [if_neg hv]
        by_cases hc : current = child
        · rw [if_pos hc]
          simp
        · rw [if_neg hc]
          set pushed := ((blocking_dep_ids state current).filter
            (fun next => ¬ (current :: visited).contains next)).reverse with hpushed
          apply ih (pushed ++ rest) (current :: visited)
          · intro v hvm
            rcases List.mem_append.mp hvm with hvp | hvr
            · rw [hpushed, List.mem_reverse] at hvp
              exact hU current v (List.mem_of_mem_filter hvp)
            · exact hsub v (List.mem_cons_of_mem _ hvr)
          · have hvf : visited.contains current = false := by
              cases hvv : visited.contains current
              · rfl
              · exact absurd hvv hv
            have hsum := sum_filter_erase (fun v => 1 + (blocking_dep_ids state v).length)
              univ.dedup visited current univ.nodup_dedup
              (List.mem_dedup.mpr (hsub current (List.mem_cons_self _ _))) hvf
            have hplen : pushed.length ≤ (blocking_dep_ids state current).length := by
              rw [hpushed, List.length_reverse]
              exact List.length_filter_le _ _
            simp only at hsum
            simp only [List.length_append, List.length_cons] at hms ⊢
            omega

theorem filter_contains_nil (l : List String) :
    l.filter (fun v => ¬ ([] : List String).contains v) = l := by
  induction l with
  | nil => rfl
  | cons a rest ih => simp [List.filter_cons, List.contains, List.elem, ih]

theorem assert_no_dependency_cycle_ok {state : State} {child blocker : String}
    (h : assert_no_dependency_cycle state child blocker = .ok ()) :
    child ≠ blocker ∧ ¬ Relation.ReflTransGen (dep_step state) blocker child := by
  unfold assert_no_dependency_cycle at h
  split at h
  · simp at h
  · rename_i hne
    refine ⟨hne, ?_⟩
    have hUniv : ∀ v x, x ∈ blocking_dep_ids state v →
        x ∈ blocker :: dep_universe state :=
      fun v x hx => List.mem_cons_of_mem _ (blocking_sub_universe state v x hx)
    have hfuel : cycle_dfs state child (cycle_check_fuel state blocker) [blocker] []
        ≠ none := by
      apply cycle_dfs_ne_none state child (blocker :: dep_universe state) hUniv
      · intro v hvm
        rw [List.mem_singleton] at hvm
        exact hvm ▸ List.mem_cons_self _ _
      · unfold cycle_check_fuel
        rw [filter_contains_nil]
        simp
    cases hres : cycle_dfs state child (cycle_check_fuel state blocker) [blocker] [] with
    | none => exact absurd hres hfuel
    | some found =>
      cases found with
      | true =>
        rw [hres] at h
        simp at h
      | false =>
        exact cycle_dfs_not_found state child _ [blocker] []
          (by simp) (by simp) hres blocker (.inl (List.mem_cons_self _ _))

theorem assert_no_dependency_cycle_cases (state : State) (child blocker : String) :
    assert_no_dependency_cycle state child blocker = .ok () ∨
    assert_no_dependency_cycle state child blocker = .error dep_cycle_error := by
  unfold assert_no_dependency_cycle
  split
  · exact .inr rfl
  · split
    · exact .inr rfl
    · exact .inl rfl

theorem blocks_acyclic_congr {s s' : State} (h : s'.deps = s.deps)
    (hac : BlocksAcyclic s) : BlocksAcyclic s' := by
  intro a hcyc
  refine hac a (hcyc.mono (fun x y hxy => ?_))
  unfold dep_step at hxy ⊢
  rwa [blocking_dep_ids_congr h] at hxy

theorem clone_acyclic {s : State} (hac : BlocksAcyclic s) :
    BlocksAcyclic (clone_state s) := by
  intro a hcyc
  refine hac a (hcyc.mono (fun x y hxy => ?_))
  unfold dep_step at hxy ⊢
  rwa [blocking_dep_ids_clone] at hxy

theorem dep_step_of_sub {s s' : State} {key : String} {next : List DependencyEdge}
    (hdeps : s'.deps = setAssoc s.deps key next)
    (hsub : ∀ x ∈ next, x ∈ normalize_dependency_edges (s.deps.lookup key))
    (hnorm : normalize_dependency_edges (some next) = next) :
    ∀ a b, dep_step s' a b → dep_step s a b := by
  intro a b hab
  unfold dep_step blocking_dep_ids at hab ⊢
  rw [hdeps, lookup_setAssoc] at hab
  by_cases ha : a = key
  · rw [if_pos ha, hnorm] at hab
    obtain ⟨x, hxf, rfl⟩ := List.mem_map.mp hab
    obtain ⟨hx, hxb⟩ := List.mem_filter.mp hxf
    subst ha
    exact List.mem_map_of_mem _ (List.mem_filter.mpr ⟨hsub x hx, hxb⟩)
  · rw [if_neg ha] at hab
    exact hab

theorem dep_removed_preserves_acyclic {s s' : State} {e : EventRecord}
    (h : apply_dep_removed s e = .ok s') (hac : BlocksAcyclic s) : BlocksAcyclic s' := by
  obtain ⟨-, -, next, hdeps, hsub, hnorm⟩ := apply_dep_removed_ok h
  exact acyclic_subgraph (dep_step_of_sub hdeps hsub hnorm) hac

theorem blocking_after_append {s s' : State} {key blocker : String}
    {dep_type : DependencyType}
    (hdeps : s'.deps = setAssoc s.deps key
      (normalize_dependency_edges (s.deps.lookup key) ++
        [{ blocker := blocker, dep_type := dep_type }]))
    (hnorm : normalize_dependency_edges
        (some (normalize_dependency_edges (s.deps.lookup key) ++
          [{ blocker := blocker, dep_type := dep_type }]))
      = normalize_dependency_edges (s.deps.lookup key) ++
          [{ blocker := blocker, dep_type := dep_type }]) :
    ∀ t, blocking_dep_ids s' t =
      if t = key then
        blocking_dep_ids s t ++
          (if dep_type = DependencyType.blocks then [blocker] else [])
      else blocking_dep_ids s t := by
  intro t
  by_cases ht : t = key
  · subst ht
    rw [if_pos rfl]
    unfold blocking_dep_ids
    rw [hdeps, lookup_setAssoc, if_pos rfl, hnorm, List.filter_append, List.map_append]
    congr 1
    by_cases hdt : dep_type = DependencyType.blocks
    · rw [if_pos hdt]
      simp [List.filter, hdt]
    · rw [if_neg hdt]
      have hbeq : (({ blocker := blocker, dep_type := dep_type } :
          DependencyEdge).dep_type == DependencyType.blocks) = false := by
        simp [hdt]
      simp [List.filter, hbeq]
  · rw [if_neg ht]
    unfold blocking_dep_ids
    rw [hdeps, lookup_setAssoc, if_neg ht]

theorem dep_added_preserves_acyclic {s s' : State} {e : EventRecord}
    (h : apply_dep_added s e = .ok s') (hac : BlocksAcyclic s) : BlocksAcyclic s' := by
  obtain ⟨-, -, hcase⟩ := apply_dep_added_ok h
  rcases hcase with hdeps | ⟨blocker, dep_type, hne, hassert, hfresh, hdeps⟩
  · exact blocks_acyclic_congr hdeps hac
  · have hnorm := normalize_append_fresh_general (s.deps.lookup e.task_id)
      { blocker := blocker, dep_type := dep_type } hne hfresh
    have hblocking := blocking_after_append hdeps hnorm
    by_cases hdt : dep_type = DependencyType.blocks
    · obtain ⟨hneq, hnr⟩ := assert_no_dependency_cycle_ok (hassert hdt)
      apply acyclic_add_edge hac hnr
      · intro a b hab
        unfold dep_step at hab
        rw [hblocking a] at hab
        by_cases ha : a = e.task_id
        · rw [if_pos ha, if_pos hdt] at hab
          rcases List.mem_append.mp hab with h1 | h2
          · exact .inl h1
          · rw [List.mem_singleton] at h2
            exact .inr ⟨ha, h2⟩
        · rw [if_neg ha] at hab
          exact .inl hab
      · intro a b hab
        unfold dep_step
        rw [hblocking a]
        by_cases ha : a = e.task_id
        · rw [if_pos ha]
          exact List.mem_append_left _ hab
        · rw [if_neg ha]
          exact hab
    · apply acyclic_subgraph _ hac
      intro a b hab
      unfold dep_step at hab ⊢
      rw [hblocking a] at hab
      by_cases ha : a = e.task_id
      · rw [if_pos ha, if_neg hdt, List.append_nil] at hab
        exact hab
      · rwa [if_neg ha] at hab

theorem apply_event_mut_ok {s : State} {e : EventRecord} {s' : State}
    (h : apply_event_mut s e = .ok s') :
    ∃ next, s'.tasks = next.tasks ∧ s'.deps = next.deps ∧ s'.links = next.links ∧
      s'.applied_events = next.applied_events + 1 ∧
      match e.event_type with
      | .task_created => apply_task_created s e = .ok next
      | .task_updated => apply_task_updated s e = .ok next
      | .task_status_set => apply_task_status_set s e = .ok next
      | .task_claimed => apply_task_claimed s e = .ok next
      | .task_noted => apply_task_noted s e = .ok next
      | .task_spec_attached => apply_task_spec_attached s e = .ok next
      | .task_superseded => apply_task_superseded s e = .ok next
      | .dep_added => apply_dep_added s e = .ok next
      | .dep_removed => apply_dep_removed s e = .ok next
      | .link_added => apply_link_added s e = .ok next
      | .link_removed => apply_link_removed s e = .ok next := by
  unfold apply_event_mut at h
  simp only [bind, Except.bind, pure, Except.pure] at h
  split at h <;> split at h
  all_goals
    first
      | (rename_i y hy
         cases h
         exact ⟨y, rfl, rfl, rfl, rfl, hy⟩)
      | simp at h

theorem apply_event_mut_preserves_acyclic {s s' : State} {e : EventRecord}
    (h : apply_event_mut s e = .ok s') (hac : BlocksAcyclic s) : BlocksAcyclic s' := by
  obtain ⟨next, -, hdeps, -, -, hmatch⟩ := apply_event_mut_ok h
  have hnext : BlocksAcyclic next := by
    cases he : e.event_type <;> rw [he] at hmatch
    case task_created => exact blocks_acyclic_congr (apply_task_created_ok hmatch).1 hac
    case task_updated => exact blocks_acyclic_congr (apply_task_updated_ok hmatch).1 hac
    case task_status_set =>
      exact blocks_acyclic_congr (apply_task_status_set_ok hmatch).1 hac
    case task_claimed => exact blocks_acyclic_congr (apply_task_claimed_ok hmatch).1 hac
    case task_noted => exact blocks_acyclic_congr (apply_task_noted_ok hmatch).1 hac
    case task_spec_attached =>
      exact blocks_acyclic_congr (apply_task_spec_attached_ok hmatch).1 hac
    case task_superseded =>
      exact blocks_acyclic_congr (apply_task_superseded_ok hmatch).1 hac
    case dep_added => exact dep_added_preserves_acyclic hmatch hac
    case dep_removed => exact dep_removed_preserves_acyclic hmatch hac
    case link_added => exact blocks_acyclic_congr (apply_link_added_ok hmatch).2.1 hac
    case link_removed => exact blocks_acyclic_congr (apply_link_removed_ok hmatch).2.1 hac
  exact blocks_acyclic_congr hdeps hnext

theorem fold_events_preserves_acyclic :
    ∀ (events : List EventRecord) (s s' : State),
      fold_events s events = .ok s' → BlocksAcyclic s → BlocksAcyclic s'
  | [], _, _, h, hac => by cases h; exact hac
  | e :: rest, s, s', h, hac => by
    unfold fold_events at h
    rw [bind_ok_iff] at h
    obtain ⟨m, hm, hrest⟩ := h
    exact fold_events_preserves_acyclic rest m s' hrest
      (apply_event_mut_preserves_acyclic hm hac)

theorem empty_state_acyclic : BlocksAcyclic create_empty_state := by
  intro a hcyc
  obtain ⟨b, hab, -⟩ := Relation.TransGen.head'_iff.mp hcyc
  have : blocking_dep_ids create_empty_state a = [] := rfl
  unfold dep_step at hab
  rw [this] at hab
  cases hab

theorem apply_events_preserves_acyclic {base : State} {events : List EventRecord}
    {s' : State} (h : apply_events base events = .ok s') (hac : BlocksAcyclic base) :
    BlocksAcyclic s' := by
  unfold apply_events at h
  split at h
  · cases h; exact hac
  · exact fold_events_preserves_acyclic events _ s' h (clone_acyclic hac)

theorem apply_dep_added_assert_error {s : State} {e : EventRecord} {blocker : String}
    {t1 t2 : Task} {err : TsqError}
    (hblocker : as_string (e.payload.lookup "blocker") = some blocker)
    (hne : ¬ blocker.isEmpty = true)
    (hdt : ((as_string (e.payload.lookup "dep_type")).bind
        (fun value => normalize_dependency_type value)).getD DEFAULT_DEP_TYPE
      = DependencyType.blocks)
    (ht1 : s.tasks.lookup e.task_id = some t1)
    (ht2 : s.tasks.lookup blocker = some t2)
    (hassert : assert_no_dependency_cycle s e.task_id blocker = .error err) :
    apply_dep_added s e = .error err := by
  unfold apply_dep_added require_task
  simp only [bind, Except.bind, pure, Except.pure, hblocker, ht1, ht2]
  rw [if_neg hne, hdt, if_pos rfl, hassert]

/-- **C1.** For every event sequence accepted by the projector starting from
the empty state, the dependency subgraph restricted to `blocks` edges has no
directed cycle; and applying a `dep.added` event that resolves to
`dep_type = blocks` (well-formed blocker, both tasks present) fails with
`DEPENDENCY_CYCLE` whenever the blocker equals the child or a forward
traversal from the blocker over outgoing `blocks` edges reaches the child. -/
theorem C1_blocks_cycle_freedom :
    (∀ (events : List EventRecord) (s' : State),
        apply_events create_empty_state events = .ok s' → BlocksAcyclic s') ∧
    (∀ (s : State) (e : EventRecord) (blocker : String),
        e.event_type = .dep_added →
        as_string (e.payload.lookup "blocker") = some blocker →
        ¬ blocker.isEmpty = true →
        ((as_string (e.payload.lookup "dep_type")).bind
            (fun value => normalize_dependency_type value)).getD DEFAULT_DEP_TYPE
          = DependencyType.blocks →
        (s.tasks.lookup e.task_id).isSome = true →
        (s.tasks.lookup blocker).isSome = true →
        (blocker = e.task_id ∨
          Relation.ReflTransGen (dep_step s) blocker e.task_id) →
        apply_event_mut s e = .error dep_cycle_error) := by
  constructor
  · intro events s' h
    exact apply_events_preserves_acyclic h empty_state_acyclic
  · intro s e blocker hetype hblocker hne hdt ht1 ht2 hreach
    obtain ⟨t1, ht1'⟩ := Option.isSome_iff_exists.mp ht1
    obtain ⟨t2, ht2'⟩ := Option.isSome_iff_exists.mp ht2
    have herr : assert_no_dependency_cycle s e.task_id blocker
        = .error dep_cycle_error := by
      rcases assert_no_dependency_cycle_cases s e.task_id blocker with hok | herr
      · obtain ⟨hneq, hnr⟩ := assert_no_dependency_cycle_ok hok
        rcases hreach with heq | hr
        · exact absurd heq.symm hneq
        · exact absurd hr hnr
      · exact herr
    have hdep : apply_dep_added s e = .error dep_cycle_error :=
      apply_dep_added_assert_error hblocker hne hdt ht1' ht2' herr
    unfold apply_event_mut
    simp only [bind, Except.bind, pure, Except.pure, hetype, hdep]

/-- Witness for C1: the empty log is accepted and leaves the acyclic empty
state, and a concrete self-edge `dep.added` fails with `DEPENDENCY_CYCLE`. -/
theorem C1_blocks_cycle_freedom_witness :
    BlocksAcyclic create_empty_state ∧
    apply_event_mut sample_state_single
        (sample_event .dep_added "A" [("blocker", .str "A")])
      = .error dep_cycle_error :=
  ⟨C1_blocks_cycle_freedom.1 [] create_empty_state rfl,
   C1_blocks_cycle_freedom.2 sample_state_single
     (sample_event .dep_added "A" [("blocker", .str "A")]) "A"
     rfl (by decide) (by decide) (by decide) (by decide) (by decide) (Or.inl rfl)⟩

theorem mem_link_targets_upsert
    (links : List (String × List (RelationType × List String)))
    (src dst : String) (rel : RelationType) (a : String) (r : RelationType)
    (x : String) :
    x ∈ link_targets (upsert_directed_link links src dst rel) a r ↔
      (x ∈ link_targets links a r ∨ (a = src ∧ r = rel ∧ x = dst)) := by
  unfold link_targets upsert_directed_link
  rw [lookup_upsertAssoc]
  by_cases ha : a = src
  · rw [if_pos ha, Option.getD_some]
    subst ha
    simp only []
    rw [lookup_upsertAssoc]
    by_cases hr : r = rel
    · rw [if_pos hr, Option.getD_some]
      subst hr
      simp only []
      set T := (((links.lookup a).getD []).lookup r).getD [] with hT
      by_cases hany : T.any (fun c => c == dst) = true
      · rw [if_pos hany]
        have hdst : dst ∈ T := by
          obtain ⟨c, hc, hcd⟩ := List.any_eq_true.mp hany
          rw [beq_iff_eq] at hcd
          exact hcd ▸ hc
        constructor
        · exact fun h => .inl h
        · rintro (h | ⟨-, -, rfl⟩)
          · exact h
          · exact hdst
      · rw [if_neg hany]
        rw [List.mem_append, List.mem_singleton]
        constructor
        · rintro (h | h)
          · exact .inl h
          · exact .inr ⟨by trivial, by trivial, h⟩
        · rintro (h | ⟨-, -, h⟩)
          · exact .inl h
          · exact .inr h
    · rw [if_neg hr]
      simp [hr]
  · rw [if_neg ha]
    simp [ha]

theorem mem_link_targets_remove
    (links : List (String × List (RelationType × List String)))
    (src dst : String) (rel : RelationType) (a : String) (r : RelationType)
    (x : String) :
    x ∈ link_targets (remove_directed_link links src dst rel) a r ↔
      (x ∈ link_targets links a r ∧ ¬(a = src ∧ r = rel ∧ x = dst)) := by
  unfold link_targets remove_directed_link
  rw [lookup_modifyAssoc]
  by_cases ha : a = src
  · subst ha
    rw [if_pos rfl]
    cases hm : links.lookup a with
    | none => simp
    | some m =>
      simp only [Option.map_some', Option.getD_some]
      rw [lookup_modifyAssoc]
      by_cases hr : r = rel
      · subst hr
        rw [if_pos rfl]
        cases hc : m.lookup r with
        | none => simp
        | some cur =>
          simp only [Option.map_some', Option.getD_some, List.mem_filter,
            bne_iff_ne, ne_eq, decide_eq_true_eq, eq_self_iff_true, true_and]
      · rw [if_neg hr]
        simp [hr]
  · rw [if_neg ha]
    simp [ha]

theorem links_symm_upsert_pair
    {links : List (String × List (RelationType × List String))}
    (hsym : LinksSymmetric links) (a b : String) :
    LinksSymmetric (upsert_directed_link
      (upsert_directed_link links a b .relates_to) b a .relates_to) := by
  intro x y
  simp only [LinksSymmetric] at hsym
  simp only [mem_link_targets_upsert, eq_self_iff_true, true_and]
  have := hsym x y
  tauto

theorem links_symm_upsert_other
    {links : List (String × List (RelationType × List String))}
    (hsym : LinksSymmetric links) (a b : String) {rel : RelationType}
    (hrel : ¬ rel = RelationType.relates_to) :
    LinksSymmetric (upsert_directed_link links a b rel) := by
  intro x y
  have hrel' : ¬ RelationType.relates_to = rel := fun h => hrel h.symm
  simp only [mem_link_targets_upsert, hrel', false_and, and_false, or_false]
  exact hsym x y

theorem links_symm_remove_pair
    {links : List (String × List (RelationType × List String))}
    (hsym : LinksSymmetric links) (a b : String) :
    LinksSymmetric (remove_directed_link
      (remove_directed_link links a b .relates_to) b a .relates_to) := by
  intro x y
  simp only [LinksSymmetric] at hsym
  simp only [mem_link_targets_remove, eq_self_iff_true, true_and]
  have := hsym x y
  tauto

theorem links_symm_remove_other
    {links : List (String × List (RelationType × List String))}
    (hsym : LinksSymmetric links) (a b : String) {rel : RelationType}
    (hrel : ¬ rel = RelationType.relates_to) :
    LinksSymmetric (remove_directed_link links a b rel) := by
  intro x y
  have hrel' : ¬ RelationType.relates_to = rel := fun h => hrel h.symm
  simp only [mem_link_targets_remove, hrel', false_and, and_false, not_false_iff,
    and_true]
  exact hsym x y

theorem link_added_preserves_symm {s s' : State} {e : EventRecord}
    (h : apply_link_added s e = .ok s') (hsym : LinksSymmetric s.links) :
    LinksSymmetric s'.links := by
  obtain ⟨-, -, rel, target, -, -, -, hlinks⟩ := apply_link_added_ok h
  rw [hlinks]
  by_cases hrel : rel = RelationType.relates_to
  · rw [if_pos hrel]
    subst hrel
    exact links_symm_upsert_pair hsym _ _
  · rw [if_neg hrel]
    exact links_symm_upsert_other hsym _ _ hrel

theorem link_removed_preserves_symm {s s' : State} {e : EventRecord}
    (h : apply_link_removed s e = .ok s') (hsym : LinksSymmetric s.links) :
    LinksSymmetric s'.links := by
  obtain ⟨-, -, rel, target, -, -, hlinks⟩ := apply_link_removed_ok h
  rw [hlinks]
  by_cases hrel : rel = RelationType.relates_to
  · rw [if_pos hrel]
    subst hrel
    exact links_symm_remove_pair hsym _ _
  · rw [if_neg hrel]
    exact links_symm_remove_other hsym _ _ hrel

theorem apply_event_mut_preserves_symm {s s' : State} {e : EventRecord}
    (h : apply_event_mut s e = .ok s') (hsym : LinksSymmetric s.links) :
    LinksSymmetric s'.links := by
  obtain ⟨next, -, -, hlinks, -, hmatch⟩ := apply_event_mut_ok h
  rw [hlinks]
  cases he : e.event_type <;> rw [he] at hmatch
  case task_created => exact (apply_task_created_ok hmatch).2.1 ▸ hsym
  case task_updated => exact (apply_task_updated_ok hmatch).2.1 ▸ hsym
  case task_status_set => exact (apply_task_status_set_ok hmatch).2.1 ▸ hsym
  case task_claimed => exact (apply_task_claimed_ok hmatch).2.1 ▸ hsym
  case task_noted => exact (apply_task_noted_ok hmatch).2.1 ▸ hsym
  case task_spec_attached => exact (apply_task_spec_attached_ok hmatch).2.1 ▸ hsym
  case task_superseded => exact (apply_task_superseded_ok hmatch).2.1 ▸ hsym
  case dep_added => exact (apply_dep_added_ok hmatch).2.1 ▸ hsym
  case dep_removed => exact (apply_dep_removed_ok hmatch).2.1 ▸ hsym
  case link_added => exact link_added_preserves_symm hmatch hsym
  case link_removed => exact link_removed_preserves_symm hmatch hsym

theorem fold_events_preserves_symm :
    ∀ (events : List EventRecord) (s s' : State),
      fold_events s events = .ok s' → LinksSymmetric s.links → LinksSymmetric s'.links
  | [], _, _, h, hsym => by cases h; exact hsym
  | e :: rest, s, s', h, hsym => by
    unfold fold_events at h
    rw [bind_ok_iff] at h
    obtain ⟨m, hm, hrest⟩ := h
    exact fold_events_preserves_symm rest m s' hrest
      (apply_event_mut_preserves_symm hm hsym)

theorem empty_links_symm : LinksSymmetric create_empty_state.links := by
  intro a b
  constructor <;> intro h <;> cases h

theorem apply_events_preserves_symm {base : State} {events : List EventRecord}
    {s' : State} (h : apply_events base events = .ok s')
    (hsym : LinksSymmetric base.links) : LinksSymmetric s'.links := by
  unfold apply_events at h
  split at h
  · cases h; exact hsym
  · exact fold_events_preserves_symm events _ s' h hsym

/-- **C2.** After every accepted event sequence from the empty state, every
`relates_to` edge has its mirror edge; `link.added` with `relates_to` upserts
both directions and `link.removed` with `relates_to` removes both directions,
while the other relation kinds touch only the one direction. -/
theorem C2_link_symmetry :
    (∀ (events : List EventRecord) (s' : State),
        apply_events create_empty_state events = .ok s' →
        LinksSymmetric s'.links) ∧
    (∀ (s : State) (e : EventRecord) (s' : State) (rel : RelationType)
        (target : String),
        as_relation_type (e.payload.lookup "type") = some rel →
        relation_target e.payload = some target →
        (apply_link_added s e = .ok s' →
          s'.links =
            (if rel = RelationType.relates_to then
              upsert_directed_link
                (upsert_directed_link s.links e.task_id target rel)
                target e.task_id rel
            else upsert_directed_link s.links e.task_id target rel)) ∧
        (apply_link_removed s e = .ok s' →
          s'.links =
            (if rel = RelationType.relates_to then
              remove_directed_link
                (remove_directed_link s.links e.task_id target rel)
                target e.task_id rel
            else remove_directed_link s.links e.task_id target rel))) := by
  constructor
  · intro events s' h
    exact apply_events_preserves_symm h empty_links_symm
  · intro s e s' rel target hrel htarget
    constructor
    · intro h
      obtain ⟨-, -, rel', target', hrel', htarget', -, hlinks⟩ := apply_link_added_ok h
      rw [hrel'] at hrel
      rw [htarget'] at htarget
      cases hrel
      cases htarget
      exact hlinks
    · intro h
      obtain ⟨-, -, rel', target', hrel', htarget', hlinks⟩ := apply_link_removed_ok h
      rw [hrel'] at hrel
      rw [htarget'] at htarget
      cases hrel
      cases htarget
      exact hlinks

/-- Witness for C2: the empty log gives a symmetric (empty) link map, and the
per-operation characterization applies to a concrete `relates_to` event. -/
theorem C2_link_symmetry_witness :
    LinksSymmetric create_empty_state.links ∧
    ((apply_link_added create_empty_state
        (sample_event .link_added "X"
          [("type", .str "relates_to"), ("target", .str "Y")]) = .ok create_empty_state →
      create_empty_state.links =
        upsert_directed_link
          (upsert_directed_link create_empty_state.links "X" "Y"
            RelationType.relates_to) "Y" "X" RelationType.relates_to) ∧
    (apply_link_removed create_empty_state
        (sample_event .link_added "X"
          [("type", .str "relates_to"), ("target", .str "Y")]) = .ok create_empty_state →
      create_empty_state.links =
        remove_directed_link
          (remove_directed_link create_empty_state.links "X" "Y"
            RelationType.relates_to) "Y" "X" RelationType.relates_to)) := by
  refine ⟨C2_link_symmetry.1 [] create_empty_state rfl, ?_⟩
  have h := C2_link_symmetry.2 create_empty_state
    (sample_event .link_added "X" [("type", .str "relates_to"), ("target", .str "Y")])
    create_empty_state RelationType.relates_to "Y" (by decide) (by decide)
  simpa using h

theorem preserve_closed_of_same {s s' : State} {key : String} {current next : Task}
    (hcur : s.tasks.lookup key = some current)
    (htasks : s'.tasks = setAssoc s.tasks key next)
    (hst : next.status = current.status) (hca : next.closed_at = current.closed_at)
    (hc : StateClosedConsistent s) : StateClosedConsistent s' := by
  intro id t ht
  rw [htasks] at ht
  refine state_closed_insert hc ?_ id t ht
  unfold TaskClosedConsistent
  rw [hst, hca]
  exact hc key current hcur

theorem task_status_set_preserves_closed {s s' : State} {e : EventRecord}
    (h : apply_task_status_set s e = .ok s') (hc : StateClosedConsistent s) :
    StateClosedConsistent s' := by
  obtain ⟨-, -, current, status, hcur, -, -, htasks⟩ := apply_task_status_set_ok h
  intro id t ht
  rw [htasks] at ht
  refine state_closed_insert hc ?_ id t ht
  unfold TaskClosedConsistent
  by_cases hcl : status = TaskStatus.closed
  · simp [hcl]
  · simp [hcl]

theorem task_claimed_preserves_closed {s s' : State} {e : EventRecord}
    (h : apply_task_claimed s e = .ok s') (hc : StateClosedConsistent s) :
    StateClosedConsistent s' := by
  obtain ⟨-, -, current, hcur, hguard, next, htasks, hst, hca⟩ :=
    apply_task_claimed_ok h
  intro id t ht
  rw [htasks] at ht
  refine state_closed_insert hc ?_ id t ht
  have hcc := hc _ _ hcur
  unfold TaskClosedConsistent at hcc ⊢
  rw [hst, hca]
  by_cases ho : current.status = TaskStatus.open
  · rw [if_pos ho]
    constructor
    · intro hsome
      have := hcc.mp hsome
      rw [this] at ho
      cases ho
    · intro hip
      cases hip
  · rw [if_neg ho]
    exact hcc

theorem task_superseded_preserves_closed {s s' : State} {e : EventRecord}
    (h : apply_task_superseded s e = .ok s') (hc : StateClosedConsistent s) :
    StateClosedConsistent s' := by
  obtain ⟨-, -, current, next, hcur, htasks, hst, hca⟩ := apply_task_superseded_ok h
  intro id t ht
  rw [htasks] at ht
  refine state_closed_insert hc ?_ id t ht
  unfold TaskClosedConsistent
  rw [hst, hca]
  simp

theorem apply_event_mut_preserves_closed {s s' : State} {e : EventRecord}
    (h : apply_event_mut s e = .ok s') (hc : StateClosedConsistent s) :
    StateClosedConsistent s' := by
  obtain ⟨next, htasks, -, -, -, hmatch⟩ := apply_event_mut_ok h
  have hn : StateClosedConsistent next := by
    cases he : e.event_type <;> rw [he] at hmatch
    case task_created =>
      obtain ⟨-, -, task, ht, htc⟩ := apply_task_created_ok hmatch
      intro id t hlt
      rw [ht] at hlt
      exact state_closed_insert hc htc id t hlt
    case task_updated =>
      obtain ⟨-, -, current, nx, hcur, ht, hst, hca⟩ := apply_task_updated_ok hmatch
      exact preserve_closed_of_same hcur ht hst hca hc
    case task_status_set => exact task_status_set_preserves_closed hmatch hc
    case task_claimed => exact task_claimed_preserves_closed hmatch hc
    case task_noted =>
      obtain ⟨-, -, current, nx, hcur, ht, hst, hca⟩ := apply_task_noted_ok hmatch
      exact preserve_closed_of_same hcur ht hst hca hc
    case task_spec_attached =>
      obtain ⟨-, -, current, nx, hcur, ht, hst, hca⟩ :=
        apply_task_spec_attached_ok hmatch
      exact preserve_closed_of_same hcur ht hst hca hc
    case task_superseded => exact task_superseded_preserves_closed hmatch hc
    case dep_added =>
      intro id t hlt
      rw [(apply_dep_added_ok hmatch).1] at hlt
      exact hc id t hlt
    case dep_removed =>
      intro id t hlt
      rw [(apply_dep_removed_ok hmatch).1] at hlt
      exact hc id t hlt
    case link_added =>
      intro id t hlt
      rw [(apply_link_added_ok hmatch).1] at hlt
      exact hc id t hlt
    case link_removed =>
      intro id t hlt
      rw [(apply_link_removed_ok hmatch).1] at hlt
      exact hc id t hlt
  intro id t hlt
  rw [htasks] at hlt
  exact hn id t hlt

theorem fold_events_preserves_closed :
    ∀ (events : List EventRecord) (s s' : State),
      fold_events s events = .ok s' → StateClosedConsistent s →
      StateClosedConsistent s'
  | [], _, _, h, hc => by cases h; exact hc
  | e :: rest, s, s', h, hc => by
    unfold fold_events at h
    rw [bind_ok_iff] at h
    obtain ⟨m, hm, hrest⟩ := h
    exact fold_events_preserves_closed rest m s' hrest
      (apply_event_mut_preserves_closed hm hc)

theorem empty_state_closed : StateClosedConsistent create_empty_state := by
  intro id t ht
  cases ht

theorem apply_events_preserves_closed {base : State} {events : List EventRecord}
    {s' : State} (h : apply_events base events = .ok s')
    (hc : StateClosedConsistent base) : StateClosedConsistent s' := by
  unfold apply_events at h
  split at h
  · cases h; exact hc
  · refine fold_events_preserves_closed events _ s' h ?_
    intro id t ht
    exact hc id t ht

theorem apply_task_status_set_invalid {s : State} {e : EventRecord} {current : Task}
    (hcur : s.tasks.lookup e.task_id = some current)
    (hst : as_task_status (e.payload.lookup "status") = some TaskStatus.in_progress)
    (hclosed : current.status = TaskStatus.closed ∨
      current.status = TaskStatus.canceled) :
    apply_task_status_set s e
      = .error { code := "INVALID_TRANSITION", exit_code := 1 } := by
  unfold apply_task_status_set require_task
  simp only [bind, Except.bind, pure, Except.pure, hcur, hst]
  rw [if_pos ⟨hclosed, by trivial⟩]

/-- **C5.** Every state reachable from the empty state by accepted events has
`closed_at` set on a task exactly when its status is `closed`; a successful
`task.status_set` writes `closed_at = ts` iff the target status is `closed`
(and clears it otherwise), and `task.status_set` fails `INVALID_TRANSITION`
when the current status is `closed` or `canceled` and the target is
`in_progress`. -/
theorem C5_closed_at_consistency :
    (∀ (events : List EventRecord) (s' : State),
        apply_events create_empty_state events = .ok s' →
        StateClosedConsistent s') ∧
    (∀ (s : State) (e : EventRecord) (s' : State),
        apply_task_status_set s e = .ok s' →
        ∃ current status,
          s.tasks.lookup e.task_id = some current ∧
          as_task_status (e.payload.lookup "status") = some status ∧
          s'.tasks = setAssoc s.tasks e.task_id
            { current with
                status := status
                updated_at := e.ts
                closed_at :=
                  if status = TaskStatus.closed then some e.ts else none }) ∧
    (∀ (s : State) (e : EventRecord) (current : Task),
        s.tasks.lookup e.task_id = some current →
        as_task_status (e.payload.lookup "status") = some TaskStatus.in_progress →
        (current.status = TaskStatus.closed ∨
          current.status = TaskStatus.canceled) →
        apply_task_status_set s e
          = .error { code := "INVALID_TRANSITION", exit_code := 1 }) := by
  refine ⟨?_, ?_, ?_⟩
  · intro events s' h
    exact apply_events_preserves_closed h empty_state_closed
  · intro s e s' h
    obtain ⟨-, -, current, status, hcur, hst, -, htasks⟩ :=
      apply_task_status_set_ok h
    exact ⟨current, status, hcur, hst, htasks⟩
  · intro s e current hcur hst hclosed
    exact apply_task_status_set_invalid hcur hst hclosed

/-- Witness for C5: the empty log yields a consistent state, and setting a
closed task to `in_progress` fails with `INVALID_TRANSITION`. -/
theorem C5_closed_at_consistency_witness :
    StateClosedConsistent create_empty_state ∧
    apply_task_status_set sample_state_closed
        (sample_event .task_status_set "T" [("status", .str "in_progress")])
      = .error { code := "INVALID_TRANSITION", exit_code := 1 } :=
  ⟨C5_closed_at_consistency.1 [] create_empty_state rfl,
   C5_closed_at_consistency.2.2 sample_state_closed
     (sample_event .task_status_set "T" [("status", .str "in_progress")])
     sample_closed_task rfl rfl (Or.inl rfl)⟩

theorem apply_task_created_applied {s : State} {e : EventRecord} {s' : State}
    (h : apply_task_created s e = .ok s') : s'.applied_events = s.applied_events := by
  unfold apply_task_created require_task at h
  simp only [bind, Except.bind, pure, Except.pure] at h
  repeat' split at h
  all_goals first
    | (cases h; exact (set_child_counter_fields _ _ _).2.2.2)
    | (cases h; rfl)
    | simp at h

theorem apply_task_updated_applied {s : State} {e : EventRecord} {s' : State}
    (h : apply_task_updated s e = .ok s') : s'.applied_events = s.applied_events := by
  unfold apply_task_updated require_task at h
  simp only [bind_ok_iff, pure, Except.pure, Except.ok.injEq] at h
  obtain ⟨current, hcur, next1, h1, next6, h6, u1, hg1, u2, hg2, u3, hg3,
    next12, h12, hfin⟩ := h
  rw [← hfin]

theorem apply_task_status_set_applied {s : State} {e : EventRecord} {s' : State}
    (h : apply_task_status_set s e = .ok s') :
    s'.applied_events = s.applied_events := by
  unfold apply_task_status_set require_task at h
  simp only [bind, Except.bind, pure, Except.pure] at h
  repeat' split at h
  all_goals first | (cases h; rfl) | simp at h

theorem apply_task_claimed_applied {s : State} {e : EventRecord} {s' : State}
    (h : apply_task_claimed s e = .ok s') :
    s'.applied_events = s.applied_events := by
  unfold apply_task_claimed require_task at h
  simp only [bind, Except.bind, pure, Except.pure] at h
  repeat' split at h
  all_goals first | (cases h; rfl) | simp at h

theorem apply_task_noted_applied {s : State} {e : EventRecord} {s' : State}
    (h : apply_task_noted s e = .ok s') :
    s'.applied_events = s.applied_events := by
  unfold apply_task_noted require_task event_identifier at h
  simp only [bind, Except.bind, pure, Except.pure] at h
  repeat' split at h
  all_goals first | (cases h; rfl) | simp at h

theorem apply_task_spec_attached_applied {s : State} {e : EventRecord} {s' : State}
    (h : apply_task_spec_attached s e = .ok s') :
    s'.applied_events = s.applied_events := by
  unfold apply_task_spec_attached require_task at h
  simp only [bind, Except.bind, pure, Except.pure] at h
  repeat' split at h
  all_goals first | (cases h; rfl) | simp at h

theorem apply_task_superseded_applied {s : State} {e : EventRecord} {s' : State}
    (h : apply_task_superseded s e = .ok s') :
    s'.applied_events = s.applied_events := by
  unfold apply_task_superseded require_task at h
  simp only [bind, Except.bind, pure, Except.pure] at h
  repeat' split at h
  all_goals first | (cases h; rfl) | simp at h

theorem apply_dep_added_applied {s : State} {e : EventRecord} {s' : State}
    (h : apply_dep_added s e = .ok s') :
    s'.applied_events = s.applied_events := by
  unfold apply_dep_added require_task at h
  simp only [bind, Except.bind, pure, Except.pure] at h
  repeat' split at h
  all_goals first | (cases h; rfl) | simp at h

theorem apply_dep_removed_applied {s : State} {e : EventRecord} {s' : State}
    (h : apply_dep_removed s e = .ok s') :
    s'.applied_events = s.applied_events := by
  unfold apply_dep_removed at h
  simp only [bind, Except.bind, pure, Except.pure] at h
  repeat' split at h
  all_goals first | (cases h; rfl) | simp at h

theorem apply_link_added_applied {s : State} {e : EventRecord} {s' : State}
    (h : apply_link_added s e = .ok s') :
    s'.applied_events = s.applied_events := by
  unfold apply_link_added require_task at h
  simp only [bind, Except.bind, pure, Except.pure] at h
  repeat' split at h
  all_goals first | (cases h; rfl) | simp at h

theorem apply_link_removed_applied {s : State} {e : EventRecord} {s' : State}
    (h : apply_link_removed s e = .ok s') :
    s'.applied_events = s.applied_events := by
  unfold apply_link_removed at h
  simp only [bind, Except.bind, pure, Except.pure] at h
  repeat' split at h
  all_goals first | (cases h; rfl) | simp at h

theorem apply_event_mut_applied {s : State} {e : EventRecord} {s' : State}
    (h : apply_event_mut s e = .ok s') :
    s'.applied_events = s.applied_events + 1 := by
  obtain ⟨next, -, -, -, happ, hmatch⟩ := apply_event_mut_ok h
  rw [happ]
  congr 1
  cases he : e.event_type <;> rw [he] at hmatch
  case task_created => exact apply_task_created_applied hmatch
  case task_updated => exact apply_task_updated_applied hmatch
  case task_status_set => exact apply_task_status_set_applied hmatch
  case task_claimed => exact apply_task_claimed_applied hmatch
  case task_noted => exact apply_task_noted_applied hmatch
  case task_spec_attached => exact apply_task_spec_attached_applied hmatch
  case task_superseded => exact apply_task_superseded_applied hmatch
  case dep_added => exact apply_dep_added_applied hmatch
  case dep_removed => exact apply_dep_removed_applied hmatch
  case link_added => exact apply_link_added_applied hmatch
  case link_removed => exact apply_link_removed_applied hmatch

theorem fold_events_applied :
    ∀ (events : List EventRecord) (s s' : State),
      fold_events s events = .ok s' →
      s'.applied_events = s.applied_events + events.length
  | [], _, _, h => by cases h; simp
  | e :: rest, s, s', h => by
    unfold fold_events at h
    rw [bind_ok_iff] at h
    obtain ⟨m, hm, hrest⟩ := h
    have h1 := apply_event_mut_applied hm
    have h2 := fold_events_applied rest m s' hrest
    rw [h2, h1, List.length_cons]
    omega

theorem deps_normalized_congr {s s' : State} (h : s'.deps = s.deps)
    (hn : DepsNormalized s) : DepsNormalized s' := by
  intro p hp
  rw [h] at hp
  exact hn p hp

theorem deps_normalized_set {s s' : State} {key : String} {v : List DependencyEdge}
    (hdeps : s'.deps = setAssoc s.deps key v) (hn : DepsNormalized s)
    (hv : normalize_dependency_edges (some v) = v) : DepsNormalized s' := by
  intro p hp
  rw [hdeps] at hp
  rcases mem_setAssoc s.deps key v p hp with hmem | heq
  · exact hn p hmem
  · rw [heq]
    exact hv

theorem apply_event_mut_preserves_normalized {s s' : State} {e : EventRecord}
    (h : apply_event_mut s e = .ok s') (hn : DepsNormalized s) : DepsNormalized s' := by
  obtain ⟨next, -, hdeps, -, -, hmatch⟩ := apply_event_mut_ok h
  refine deps_normalized_congr hdeps ?_
  cases he : e.event_type <;> rw [he] at hmatch
  case task_created => exact deps_normalized_congr (apply_task_created_ok hmatch).1 hn
  case task_updated => exact deps_normalized_congr (apply_task_updated_ok hmatch).1 hn
  case task_status_set =>
    exact deps_normalized_congr (apply_task_status_set_ok hmatch).1 hn
  case task_claimed => exact deps_normalized_congr (apply_task_claimed_ok hmatch).1 hn
  case task_noted => exact deps_normalized_congr (apply_task_noted_ok hmatch).1 hn
  case task_spec_attached =>
    exact deps_normalized_congr (apply_task_spec_attached_ok hmatch).1 hn
  case task_superseded =>
    exact deps_normalized_congr (apply_task_superseded_ok hmatch).1 hn
  case dep_added =>
    obtain ⟨-, -, hcase⟩ := apply_dep_added_ok hmatch
    rcases hcase with hd | ⟨blocker, dep_type, hne, -, hfresh, hd⟩
    · exact deps_normalized_congr hd hn
    · exact deps_normalized_set hd hn
        (normalize_append_fresh_general _ _ hne hfresh)
  case dep_removed =>
    obtain ⟨-, -, nx, hd, -, hnorm⟩ := apply_dep_removed_ok hmatch
    exact deps_normalized_set hd hn hnorm
  case link_added => exact deps_normalized_congr (apply_link_added_ok hmatch).2.1 hn
  case link_removed => exact deps_normalized_congr (apply_link_removed_ok hmatch).2.1 hn

theorem fold_events_preserves_normalized :
    ∀ (events : List EventRecord) (s s' : State),
      fold_events s events = .ok s' → DepsNormalized s → DepsNormalized s'
  | [], _, _, h, hn => by cases h; exact hn
  | e :: rest, s, s', h, hn => by
    unfold fold_events at h
    rw [bind_ok_iff] at h
    obtain ⟨m, hm, hrest⟩ := h
    exact fold_events_preserves_normalized rest m s' hrest
      (apply_event_mut_preserves_normalized hm hn)

theorem apply_events_preserves_normalized {base : State} {events : List EventRecord}
    {s' : State} (h : apply_events base events = .ok s') (hn : DepsNormalized base) :
    DepsNormalized s' := by
  unfold apply_events at h
  split at h
  · cases h; exact hn
  · exact fold_events_preserves_normalized events _ s' h (clone_state_normalized base)

theorem fold_events_append (l1 l2 : List EventRecord) :
    ∀ s : State, fold_events s (l1 ++ l2)
      = (fold_events s l1) >>= fun m => fold_events m l2 := by
  induction l1 with
  | nil => intro s; rfl
  | cons e rest ih =>
    intro s
    cases happ : apply_event_mut s e with
    | error err =>
      show (apply_event_mut s e >>= fun m => fold_events m (rest ++ l2))
        = ((apply_event_mut s e >>= fun m => fold_events m rest) >>=
            fun m => fold_events m l2)
      rw [happ]
      rfl
    | ok m =>
      show (apply_event_mut s e >>= fun m => fold_events m (rest ++ l2))
        = ((apply_event_mut s e >>= fun m => fold_events m rest) >>=
            fun m => fold_events m l2)
      rw [happ]
      show fold_events m (rest ++ l2) = fold_events m rest >>= fun v => fold_events v l2
      exact ih m

theorem apply_events_eq_fold {base : State} {events : List EventRecord}
    (hn : DepsNormalized base) :
    apply_events base events = fold_events base events := by
  unfold apply_events
  split
  · rename_i hemp
    rw [List.isEmpty_iff.mp hemp]
    rfl
  · rw [clone_state_eq_self hn]

theorem replay_decompose {E : List EventRecord} {k : Nat} {c full : State}
    (hk : k ≤ E.length)
    (hc : apply_events create_empty_state (E.take k) = .ok c)
    (hfull : apply_events create_empty_state E = .ok full) :
    apply_events c (E.drop k) = .ok full ∧ c.applied_events = k ∧
    full.applied_events = E.length := by
  rw [apply_events_eq_fold empty_state_normalized] at hc hfull
  have hcnorm : DepsNormalized c :=
    fold_events_preserves_normalized _ _ _ hc empty_state_normalized
  have hdecomp := fold_events_append (E.take k) (E.drop k) create_empty_state
  rw [List.take_append_drop, hfull, hc] at hdecomp
  have hdrop : fold_events c (E.drop k) = .ok full := by
    have : ((Except.ok c : Except TsqError State) >>= fun m =>
        fold_events m (E.drop k)) = fold_events c (E.drop k) := rfl
    rw [this] at hdecomp
    exact hdecomp.symm
  refine ⟨?_, ?_, ?_⟩
  · rw [apply_events_eq_fold hcnorm]
    exact hdrop
  · have := fold_events_applied (E.take k) _ _ hc
    rw [List.length_take] at this
    simp only [create_empty_state] at this
    omega
  · have := fold_events_applied E _ _ hfull
    simp only [create_empty_state] at this
    omega

theorem load_cache_path {E : List EventRecord} {w : Option String} {c full : State}
    (snap : Except TsqError SnapshotLoadResult)
    (hle : c.applied_events ≤ E.length)
    (hdrop : apply_events c (E.drop c.applied_events) = .ok full)
    (hfullapp : full.applied_events = E.length) :
    load_projected_state ⟨E, w⟩ (.ok (some c)) snap
      = .ok { state := full, all_events := E, warning := w, snapshot := none } := by
  have hfuleta : ({ full with applied_events := E.length } : State) = full := by
    rw [← hfullapp]
  unfold load_projected_state
  simp only [bind, Except.bind, pure, Except.pure]
  rw [if_pos hle]
  by_cases hk : c.applied_events = E.length
  · rw [if_pos hk]
    have hceq : full = c := by
      rw [hk, List.drop_length] at hdrop
      unfold apply_events at hdrop
      simp at hdrop
      exact hdrop.symm
    rw [hceq]
  · rw [if_neg hk, hdrop]
    show Except.ok
        ({ state := { full with applied_events := E.length }
           all_events := E
           warning := w
           snapshot := none } : LoadedState) = _
    rw [hfuleta]

theorem load_from_snapshot_eq {E : List EventRecord} {k : Nat} {c full : State}
    {ts : String} {w w2 : Option String}
    (hk : k ≤ E.length)
    (hdrop : apply_events c (E.drop k) = .ok full)
    (hfullapp : full.applied_events = E.length) :
    load_from_snapshot E w ⟨some ⟨ts, k, c⟩, w2⟩
      = .ok { state := full, all_events := E
              warning := combine_warnings w w2, snapshot := some ⟨ts, k, c⟩ } := by
  have hfuleta : ({ full with applied_events := E.length } : State) = full := by
    rw [← hfullapp]
  unfold load_from_snapshot
  simp only [bind, Except.bind, pure, Except.pure, Option.map_some', Option.getD_some]
  rw [Nat.min_eq_left hk, hdrop]
  show Except.ok
      ({ state := { full with applied_events := E.length }
         all_events := E
         warning := combine_warnings w w2
         snapshot := some ⟨ts, k, c⟩ } : LoadedState) = _
  rw [hfuleta]

/-- **C3.** The load fast paths are equivalent to a full replay: when the
state cache equals the fold of a log prefix, `load` returns exactly the state
of the full fold; and for a snapshot taken at event count `k` whose state is
the fold of the first `k` events, replaying the suffix onto the snapshot
state (as the snapshot path of `load` does) again yields the full fold. -/
theorem C3_load_equivalence :
    (∀ (E : List EventRecord) (k : Nat) (c full : State) (w : Option String)
        (snap : Except TsqError SnapshotLoadResult),
        k ≤ E.length →
        apply_events create_empty_state (E.take k) = .ok c →
        apply_events create_empty_state E = .ok full →
        load_projected_state ⟨E, w⟩ (.ok (some c)) snap
          = .ok { state := full, all_events := E, warning := w, snapshot := none }) ∧
    (∀ (E : List EventRecord) (k : Nat) (c full : State) (ts : String)
        (w w2 : Option String),
        k ≤ E.length →
        apply_events create_empty_state (E.take k) = .ok c →
        apply_events create_empty_state E = .ok full →
        apply_events c (E.drop k) = .ok full ∧
        load_from_snapshot E w ⟨some ⟨ts, k, c⟩, w2⟩
          = .ok { state := full, all_events := E
                  warning := combine_warnings w w2
                  snapshot := some ⟨ts, k, c⟩ }) := by
  constructor
  · intro E k c full w snap hk hc hfull
    obtain ⟨hdrop, hck, hfl⟩ := replay_decompose hk hc hfull
    refine load_cache_path snap ?_ ?_ hfl
    · rw [hck]; exact hk
    · rw [hck]; exact hdrop
  · intro E k c full ts w w2 hk hc hfull
    obtain ⟨hdrop, -, hfl⟩ := replay_decompose hk hc hfull
    exact ⟨hdrop, load_from_snapshot_eq hk hdrop hfl⟩

/-- Witness for C3: both fast paths agree with the (empty-log) full fold. -/
theorem C3_load_equivalence_witness :
    load_projected_state ⟨[], none⟩ (.ok (some create_empty_state))
        (.ok ⟨none, none⟩)
      = .ok { state := create_empty_state, all_events := [], warning := none
              snapshot := none } ∧
    (apply_events create_empty_state (List.drop 0 []) = .ok create_empty_state ∧
      load_from_snapshot [] none ⟨some ⟨"t", 0, create_empty_state⟩, none⟩
        = .ok { state := create_empty_state, all_events := []
                warning := combine_warnings none none
                snapshot := some ⟨"t", 0, create_empty_state⟩ }) :=
  ⟨C3_load_equivalence.1 [] 0 create_empty_state create_empty_state none
      (.ok ⟨none, none⟩) (by decide) rfl rfl,
   C3_load_equivalence.2 [] 0 create_empty_state create_empty_state "t" none none
      (by decide) rfl rfl⟩

theorem validate_required_fields_error :
    ∀ (fields : List (String × String)) (payload : Payload) (line : Nat)
      (err : TsqError),
      validate_required_fields fields payload line = .error err →
      err.code = "EVENTS_CORRUPT" ∧ err.line = some line ∧ err.field.isSome = true
  | [], _, _, _, h => by simp [validate_required_fields] at h
  | (field, expected) :: rest, payload, line, err, h => by
    unfold validate_required_fields at h
    dsimp only at h
    split at h
    · cases h
      exact ⟨rfl, rfl, rfl⟩
    · exact validate_required_fields_error rest payload line err h

theorem validate_event_payload_error {et : EventType} {payload : Payload} {line : Nat}
    {err : TsqError} (h : validate_event_payload et payload line = .error err) :
    err.code = "EVENTS_CORRUPT" ∧ err.line = some line := by
  unfold validate_event_payload at h
  simp only [bind, Except.bind, pure, Except.pure] at h
  split at h
  · rename_i e he
    cases h
    obtain ⟨h1, h2, -⟩ := validate_required_fields_error _ _ _ _ he
    exact ⟨h1, h2⟩
  · repeat' split at h
    all_goals first | (cases h; exact ⟨rfl, rfl⟩) | simp at h

theorem parse_event_record_error {v : Json} {n : Nat} {err : TsqError}
    (h : parse_event_record v n = .error err) :
    err.code = "EVENTS_CORRUPT" ∧ err.line = some n := by
  unfold parse_event_record at h
  simp only [bind, Except.bind, pure, Except.pure, throw, throwThe, ExceptT.mk] at h
  repeat' split at h
  all_goals first
    | (cases h; exact ⟨rfl, rfl⟩)
    | (rename_i hval; cases h; exact validate_event_payload_error hval)
    | simp at h

theorem read_loop_malformed_error :
    ∀ (lines : List LogLine) (idx total : Nat),
      idx + lines.length = total →
      (∃ i, ∃ hi : i < lines.length,
        lines.get ⟨i, hi⟩ = .malformed ∧ idx + i < total - 1) →
      ∃ err, read_events_loop total lines idx = .error err ∧
        err.code = "EVENTS_CORRUPT" ∧ ∃ m, err.line = some m
  | [], idx, total, hinv, hex => by
    obtain ⟨i, hi, -, -⟩ := hex
    simp at hi
  | l :: rest, idx, total, hinv, hex => by
    obtain ⟨i, hi, hget, hlt⟩ := hex
    rw [List.length_cons] at hinv
    cases l with
    | blank =>
      cases i with
      | zero => simp [List.get] at hget
      | succ j =>
        refine read_loop_malformed_error rest (idx + 1) total (by omega)
          ⟨j, by simpa using hi, ?_, by omega⟩
        simpa using hget
    | malformed =>
      have hne : ¬ idx = total - 1 := by
        have hi' : i < rest.length + 1 := by simpa using hi
        omega
      show ∃ err,
        (if idx = total - 1 then
          Except.ok ([], some trailing_line_warning)
        else Except.error ({ code := "EVENTS_CORRUPT", exit_code := 2
                             line := some (idx + 1) } : TsqError))
          = Except.error err ∧
          err.code = "EVENTS_CORRUPT" ∧ ∃ m, err.line = some m
      rw [if_neg hne]
      exact ⟨_, rfl, rfl, idx + 1, rfl⟩
    | json v =>
      cases hp : parse_event_record v (idx + 1) with
      | error e =>
        obtain ⟨h1, h2⟩ := parse_event_record_error hp
        refine ⟨e, ?_, h1, idx + 1, h2⟩
        show (parse_event_record v (idx + 1) >>= fun record =>
          read_events_loop total rest (idx + 1) >>= fun x =>
            match x with
            | (events, warning) => pure (record :: events, warning)) = .error e
        rw [hp]
        rfl
      | ok r =>
        cases i with
        | zero => simp [List.get] at hget
        | succ j =>
          obtain ⟨err, herr, hc, m, hm⟩ :=
            read_loop_malformed_error rest (idx + 1) total (by omega)
              ⟨j, by simpa using hi, by simpa using hget, by omega⟩
          refine ⟨err, ?_, hc, m, hm⟩
          show (parse_event_record v (idx + 1) >>= fun record =>
            read_events_loop total rest (idx + 1) >>= fun x =>
              match x with
              | (events, warning) => pure (record :: events, warning)) = .error err
          rw [hp]
          show (read_events_loop total rest (idx + 1) >>= fun x =>
            match x with
            | (events, warning) => pure (r :: events, warning)) = .error err
          rw [herr]
          rfl

theorem read_loop_trailing :
    ∀ (lines : List LogLine) (idx total : Nat) (events : List EventRecord),
      idx + lines.length = total →
      read_events_loop total lines idx = .ok (events, none) →
      read_events_loop (total + 1) (lines ++ [.malformed]) idx
        = .ok (events, some trailing_line_warning)
  | [], idx, total, events, hinv, h => by
    rw [List.length_nil] at hinv
    cases h
    show (if idx = total + 1 - 1 then
        Except.ok ([], some trailing_line_warning)
      else Except.error ({ code := "EVENTS_CORRUPT", exit_code := 2
                           line := some (idx + 1) } : TsqError))
      = Except.ok (([] : List EventRecord), some trailing_line_warning)
    rw [if_pos (by omega)]
  | l :: rest, idx, total, events, hinv, h => by
    rw [List.length_cons] at hinv
    cases l with
    | blank =>
      exact read_loop_trailing rest (idx + 1) total events (by omega) h
    | malformed =>
      revert h
      show (if idx = total - 1 then Except.ok ([], some trailing_line_warning)
        else Except.error ({ code := "EVENTS_CORRUPT", exit_code := 2
                             line := some (idx + 1) } : TsqError))
          = .ok (events, none) → _
      split <;> intro h <;> cases h
    | json v =>
      revert h
      show (parse_event_record v (idx + 1) >>= fun record =>
        read_events_loop total rest (idx + 1) >>= fun x =>
          match x with
          | (events, warning) => pure (record :: events, warning))
        = .ok (events, none) → _
      intro h
      rw [bind_ok_iff] at h
      obtain ⟨r, hr, h⟩ := h
      rw [bind_ok_iff] at h
      obtain ⟨⟨es, w⟩, hes, h⟩ := h
      simp only [pure, Except.pure, Except.ok.injEq, Prod.mk.injEq] at h
      obtain ⟨hevents, hw⟩ := h
      subst hw
      have hrec := read_loop_trailing rest (idx + 1) total es (by omega) hes
      show (parse_event_record v (idx + 1) >>= fun record =>
        read_events_loop (total + 1) (rest ++ [.malformed]) (idx + 1) >>= fun x =>
          match x with
          | (events, warning) => pure (record :: events, warning)) = _
      rw [hr, ← hevents]
      show (read_events_loop (total + 1) (rest ++ [.malformed]) (idx + 1) >>=
        fun x =>
          match x with
          | (events, warning) => pure (r :: events, warning)) = _
      rw [hrec]
      rfl

/-- **C4.** A malformed non-final line (or a line failing record
validation) makes `read_events` fail with `EVENTS_CORRUPT` carrying a line
number, while a malformed line that is only at the very end is tolerated:
the preceding events are returned together with the non-fatal trailing-line
warning. -/
theorem C4_read_corrupt_and_trailing :
    (∀ (lines : List LogLine) (i : Nat) (hi : i < lines.length),
        lines.get ⟨i, hi⟩ = .malformed → i < lines.length - 1 →
        ∃ err, read_events_lines lines = .error err ∧
          err.code = "EVENTS_CORRUPT" ∧ ∃ m, err.line = some m) ∧
    (∀ (lines : List LogLine) (events : List EventRecord),
        read_events_lines lines = .ok (events, none) →
        read_events_lines (lines ++ [.malformed])
          = .ok (events, some trailing_line_warning)) ∧
    (∀ (v : Json) (n : Nat) (err : TsqError),
        parse_event_record v n = .error err →
        err.code = "EVENTS_CORRUPT" ∧ err.line = some n) := by
  refine ⟨?_, ?_, ?_⟩
  · intro lines i hi hget hlt
    exact read_loop_malformed_error lines 0 lines.length (by omega)
      ⟨i, hi, hget, by omega⟩
  · intro lines events h
    have := read_loop_trailing lines 0 lines.length events (by omega) h
    unfold read_events_lines
    rw [List.length_append]
    simpa using this
  · intro v n err h
    exact parse_event_record_error h

/-- Witness for C4: a malformed first line of two is a hard error, a
malformed second line after one good line is tolerated, and a non-object
line yields `EVENTS_CORRUPT` at its line number. -/
theorem C4_read_corrupt_and_trailing_witness :
    (∃ err, read_events_lines [.malformed, .blank] = .error err ∧
      err.code = "EVENTS_CORRUPT" ∧ ∃ m, err.line = some m) ∧
    read_events_lines ([.json sample_json_line] ++ [.malformed])
      = .ok ([{ id := some "01E", event_id := some "01E"
                ts := "2026-01-01T00:00:00.000Z", actor := "tester"
                event_type := .task_updated, task_id := "T", payload := [] }],
             some trailing_line_warning) ∧
    ({ code := "EVENTS_CORRUPT", exit_code := 2, line := some 5 } : TsqError).code
        = "EVENTS_CORRUPT" ∧
      ({ code := "EVENTS_CORRUPT", exit_code := 2, line := some 5 } : TsqError).line
        = some 5 :=
  ⟨C4_read_corrupt_and_trailing.1 [.malformed, .blank] 0 (by decide) rfl (by decide),
   C4_read_corrupt_and_trailing.2.1 [.json sample_json_line]
     [{ id := some "01E", event_id := some "01E"
        ts := "2026-01-01T00:00:00.000Z", actor := "tester"
        event_type := .task_updated, task_id := "T", payload := [] }] rfl,
   C4_read_corrupt_and_trailing.2.2 (.str "x") 5
     { code := "EVENTS_CORRUPT", exit_code := 2, line := some 5 } rfl⟩

theorem validate_required_fields_missing :
    ∀ (fields : List (String × String)) (payload : Payload) (line : Nat)
      (field expected : String),
      (field, expected) ∈ fields → payload.lookup field = none →
      ∃ err, validate_required_fields fields payload line = .error err ∧
        err.code = "EVENTS_CORRUPT" ∧ err.line = some line ∧
        err.field.isSome = true
  | [], _, _, _, _, hmem, _ => by simp at hmem
  | (f0, e0) :: rest, payload, line, field, expected, hmem, hlook => by
    unfold validate_required_fields
    dsimp only
    split
    · exact ⟨_, rfl, rfl, rfl, rfl⟩
    · rename_i hcond
      rcases List.mem_cons.mp hmem with heq | hrest
      · injection heq with h1 h2
        subst h1
        rw [hlook] at hcond
        simp at hcond
      · exact validate_required_fields_missing rest payload line field expected
          hrest hlook

theorem validate_event_payload_missing {et : EventType} {payload : Payload}
    {line : Nat} {field expected : String}
    (hmem : (field, expected) ∈ required_fields et)
    (hlook : payload.lookup field = none) :
    ∃ err, validate_event_payload et payload line = .error err ∧
      err.code = "EVENTS_CORRUPT" ∧ err.line = some line ∧
      err.field.isSome = true := by
  obtain ⟨err, herr, h1, h2, h3⟩ :=
    validate_required_fields_missing (required_fields et) payload line field expected
      hmem hlook
  refine ⟨err, ?_, h1, h2, h3⟩
  unfold validate_event_payload
  simp only [bind, Except.bind, pure, Except.pure]
  rw [herr]

/-- **C6 (counterexample).** Contrary to the read-validation table of the
specification, `link.added`/`link.removed` require only `type` (not
`target`) and `task.superseded` requires nothing: log lines missing
`target` resp. `with` parse successfully. -/
theorem C6_required_fields_counterexample :
    required_fields .link_added = [("type", "string")] ∧
    required_fields .link_removed = [("type", "string")] ∧
    required_fields .task_superseded = [] ∧
    (∃ r, parse_event_record sample_link_line_no_target 1 = .ok r) ∧
    (∃ r, parse_event_record sample_superseded_line_no_with 1 = .ok r) :=
  ⟨rfl, rfl, rfl, ⟨_, rfl⟩, ⟨_, rfl⟩⟩

/-- **C6 (amended).** The read-time required keys per kind are: `title` for
`task.created`, `status` for `task.status_set`, `text` for `task.noted`,
`spec_path`+`spec_fingerprint` for `task.spec_attached`, `blocker` for the
`dep.*` events and `type` (only) for the `link.*` events — nothing for
`task.updated`, `task.claimed` and `task.superseded`; a payload missing a
required key is rejected with `EVENTS_CORRUPT` carrying the line number and
a field name. -/
theorem C6_required_fields_amended :
    required_fields .task_created = [("title", "string")] ∧
    required_fields .task_updated = [] ∧
    required_fields .task_status_set = [("status", "string")] ∧
    required_fields .task_claimed = [] ∧
    required_fields .task_noted = [("text", "string")] ∧
    required_fields .task_spec_attached
      = [("spec_path", "string"), ("spec_fingerprint", "string")] ∧
    required_fields .task_superseded = [] ∧
    required_fields .dep_added = [("blocker", "string")] ∧
    required_fields .dep_removed = [("blocker", "string")] ∧
    required_fields .link_added = [("type", "string")] ∧
    required_fields .link_removed = [("type", "string")] ∧
    (∀ (et : EventType) (payload : Payload) (line : Nat)
        (field expected : String),
        (field, expected) ∈ required_fields et →
        payload.lookup field = none →
        ∃ err, validate_event_payload et payload line = .error err ∧
          err.code = "EVENTS_CORRUPT" ∧ err.line = some line ∧
          err.field.isSome = true) := by
  refine ⟨rfl, rfl, rfl, rfl, rfl, rfl, rfl, rfl, rfl, rfl, rfl, ?_⟩
  intro et payload line field expected hmem hlook
  exact validate_event_payload_missing hmem hlook

/-- Witness for the amended C6: a `link.added` payload without `type` is
rejected with `EVENTS_CORRUPT` at its line. -/
theorem C6_required_fields_amended_witness :
    ∃ err, validate_event_payload .link_added [] 3 = .error err ∧
      err.code = "EVENTS_CORRUPT" ∧ err.line = some 3 ∧
      err.field.isSome = true :=
  C6_required_fields_amended.2.2.2.2.2.2.2.2.2.2.2 .link_added [] 3 "type" "string"
    (by decide) rfl

theorem apply_dep_added_child_missing {s : State} {e : EventRecord} {blocker : String}
    (hblocker : as_string (e.payload.lookup "blocker") = some blocker)
    (hne : ¬ blocker.isEmpty = true)
    (hmiss : s.tasks.lookup e.task_id = none) :
    apply_dep_added s e = .error { code := "TASK_NOT_FOUND", exit_code := 1 } := by
  unfold apply_dep_added require_task
  simp only [bind, Except.bind, pure, Except.pure, hblocker, hmiss]
  rw [if_neg hne]

theorem apply_dep_added_blocker_missing {s : State} {e : EventRecord}
    {blocker : String} {t : Task}
    (hblocker : as_string (e.payload.lookup "blocker") = some blocker)
    (hne : ¬ blocker.isEmpty = true)
    (hchild : s.tasks.lookup e.task_id = some t)
    (hmiss : s.tasks.lookup blocker = none) :
    apply_dep_added s e = .error { code := "TASK_NOT_FOUND", exit_code := 1 } := by
  unfold apply_dep_added require_task
  simp only [bind, Except.bind, pure, Except.pure, hblocker, hchild, hmiss]
  rw [if_neg hne]

/-- **C7 (counterexample).** Contrary to the claim that a `dep.added`
self-edge fails for every dep_type, the projector accepts a `starts_after`
self-edge and records it in `deps`. -/
theorem C7_self_edge_counterexample :
    ∃ s', apply_dep_added sample_state_single
        (sample_event .dep_added "A"
          [("blocker", .str "A"), ("dep_type", .str "starts_after")]) = .ok s' ∧
      ({ blocker := "A", dep_type := DependencyType.starts_after } : DependencyEdge)
        ∈ ((s'.deps.lookup "A").getD []) :=
  ⟨_, rfl, by decide⟩

/-- **C7 (amended).** In the projector, a `dep.added` self-edge fails only
when the edge resolves to `dep_type = blocks` (as a `DEPENDENCY_CYCLE`,
via the cycle check); and `dep.added` requires both the child and the
blocker task to exist, failing `TASK_NOT_FOUND` otherwise. -/
theorem C7_dep_added_amended :
    (∀ (s : State) (e : EventRecord),
        as_string (e.payload.lookup "blocker") = some e.task_id →
        ¬ (e.task_id).isEmpty = true →
        ((as_string (e.payload.lookup "dep_type")).bind
            (fun value => normalize_dependency_type value)).getD DEFAULT_DEP_TYPE
          = DependencyType.blocks →
        (s.tasks.lookup e.task_id).isSome = true →
        apply_dep_added s e = .error dep_cycle_error) ∧
    (∀ (s : State) (e : EventRecord) (blocker : String),
        as_string (e.payload.lookup "blocker") = some blocker →
        ¬ blocker.isEmpty = true →
        s.tasks.lookup e.task_id = none →
        apply_dep_added s e = .error { code := "TASK_NOT_FOUND", exit_code := 1 }) ∧
    (∀ (s : State) (e : EventRecord) (blocker : String) (t : Task),
        as_string (e.payload.lookup "blocker") = some blocker →
        ¬ blocker.isEmpty = true →
        s.tasks.lookup e.task_id = some t →
        s.tasks.lookup blocker = none →
        apply_dep_added s e
          = .error { code := "TASK_NOT_FOUND", exit_code := 1 }) := by
  refine ⟨?_, ?_, ?_⟩
  · intro s e hblocker hne hdt hsome
    obtain ⟨t, ht⟩ := Option.isSome_iff_exists.mp hsome
    refine apply_dep_added_assert_error hblocker hne hdt ht ht ?_
    unfold assert_no_dependency_cycle
    rw [if_pos rfl]
  · intro s e blocker hblocker hne hmiss
    exact apply_dep_added_child_missing hblocker hne hmiss
  · intro s e blocker t hblocker hne hchild hmiss
    exact apply_dep_added_blocker_missing hblocker hne hchild hmiss

/-- Witness for the amended C7: a `blocks` self-edge on an existing task
fails with `DEPENDENCY_CYCLE`, and a `dep.added` on a missing child fails
with `TASK_NOT_FOUND`. -/
theorem C7_dep_added_amended_witness :
    apply_dep_added sample_state_single
        (sample_event .dep_added "A" [("blocker", .str "A")])
      = .error dep_cycle_error ∧
    apply_dep_added create_empty_state
        (sample_event .dep_added "A" [("blocker", .str "B")])
      = .error { code := "TASK_NOT_FOUND", exit_code := 1 } :=
  ⟨C7_dep_added_amended.1 sample_state_single
     (sample_event .dep_added "A" [("blocker", .str "A")])
     rfl (by decide) rfl (by decide),
   C7_dep_added_amended.2.1 create_empty_state
     (sample_event .dep_added "A" [("blocker", .str "B")]) "B"
     rfl (by decide) rfl⟩

/-- **C10.** A state-cache file that exists but does not parse as a valid
`State` is silently ignored: `read_state_cache` answers `Ok(None)` (no error,
no warning) whether the corrupt file is `state.json` or the legacy
`tasks.jsonl`, and `load` with an empty cache proceeds to the
snapshot-plus-replay path — a corrupt state cache never fails a load. -/
theorem C10_corrupt_cache_ignored :
    (∀ legacy : FileRead, read_state_cache (.content none) legacy = .ok none) ∧
    read_state_cache .absent (.content none) = .ok none ∧
    (∀ (read : ReadEventsResult) (snap : Except TsqError SnapshotLoadResult),
        load_projected_state read (.ok none) snap
          = snap >>= fun loaded =>
              load_from_snapshot read.events read.warning loaded) :=
  ⟨fun _ => rfl, rfl, fun _ _ => rfl⟩

theorem first_with_id_cons (r : EventRecord) (rest : List EventRecord) (x : String) :
    first_with_id (r :: rest) x =
      if merge_event_id r = some x then some r else first_with_id rest x := by
  unfold first_with_id
  rw [List.find?_cons]
  by_cases h : merge_event_id r = some x
  · rw [if_pos h]
    rw [show (merge_event_id r == some x) = true from by simp [h]]
  · rw [if_neg h]
    rw [show (merge_event_id r == some x) = false from by simp [h]]

theorem merge_loop_cons (r : EventRecord) (rest : List EventRecord)
    (seen : List (String × EventRecord)) (ci : List String) (n : Nat) :
    merge_loop (r :: rest) seen ci n =
      (match merge_event_id r with
        | none => Except.error ({ code := "MERGE_MISSING_ID", exit_code := 2 } : TsqError)
        | some i =>
          match seen.lookup i with
          | some existing =>
            merge_loop rest seen
              (if existing ≠ r ∧ ¬ ci.contains i then ci ++ [i] else ci) (n + 1)
          | none => merge_loop rest (seen ++ [(i, r)]) ci (n + 1)) := rfl

theorem merge_loop_missing_id :
    ∀ (L : List EventRecord) (seen : List (String × EventRecord))
      (ci : List String) (n : Nat),
      ¬ AllIdsPresent L →
      merge_loop L seen ci n = .error { code := "MERGE_MISSING_ID", exit_code := 2 }
  | [], _, _, _, h => by
    exact absurd (fun r hr => absurd hr (List.not_mem_nil r)) h
  | r :: rest, seen, ci, n, h => by
    rw [merge_loop_cons]
    cases hid : merge_event_id r with
    | none => rfl
    | some i =>
      have hrest : ¬ AllIdsPresent rest := by
        intro hall
        refine h (fun u hu => ?_)
        rcases List.mem_cons.mp hu with rfl | hm
        · rw [hid]; rfl
        · exact hall u hm
      show (match seen.lookup i with
        | some existing =>
          merge_loop rest seen
            (if existing ≠ r ∧ ¬ ci.contains i then ci ++ [i] else ci) (n + 1)
        | none => merge_loop rest (seen ++ [(i, r)]) ci (n + 1))
        = Except.error ({ code := "MERGE_MISSING_ID", exit_code := 2 } : TsqError)
      cases hs : seen.lookup i with
      | some e => exact merge_loop_missing_id rest seen _ (n + 1) hrest
      | none => exact merge_loop_missing_id rest (seen ++ [(i, r)]) ci (n + 1) hrest

theorem merge_loop_ok :
    ∀ (L : List EventRecord) (seen : List (String × EventRecord))
      (ci : List String) (n : Nat),
      AllIdsPresent L →
      ∃ out, merge_loop L seen ci n = .ok out
  | [], seen, ci, n, _ => ⟨(seen, ci, n), rfl⟩
  | r :: rest, seen, ci, n, h => by
    have hrest : AllIdsPresent rest := fun u hu => h u (List.mem_cons_of_mem _ hu)
    obtain ⟨i, hid⟩ := Option.isSome_iff_exists.mp (h r (List.mem_cons_self _ _))
    rw [merge_loop_cons, hid]
    show ∃ out, (match seen.lookup i with
      | some existing =>
        merge_loop rest seen
          (if existing ≠ r ∧ ¬ ci.contains i then ci ++ [i] else ci) (n + 1)
      | none => merge_loop rest (seen ++ [(i, r)]) ci (n + 1)) = Except.ok out
    cases hs : seen.lookup i with
    | some e => exact merge_loop_ok rest seen _ (n + 1) hrest
    | none => exact merge_loop_ok rest (seen ++ [(i, r)]) ci (n + 1) hrest

theorem merge_loop_total :
    ∀ (L : List EventRecord) (seen : List (String × EventRecord))
      (ci : List String) (n : Nat) (s' : List (String × EventRecord))
      (c' : List String) (t' : Nat),
      merge_loop L seen ci n = .ok (s', c', t') → t' = n + L.length
  | [], seen, ci, n, s', c', t', h => by
    cases h
    simp
  | r :: rest, seen, ci, n, s', c', t', h => by
    rw [merge_loop_cons] at h
    cases hid : merge_event_id r with
    | none => rw [hid] at h; cases h
    | some i =>
      rw [hid] at h
      have h' : (match seen.lookup i with
        | some existing =>
          merge_loop rest seen
            (if existing ≠ r ∧ ¬ ci.contains i then ci ++ [i] else ci) (n + 1)
        | none => merge_loop rest (seen ++ [(i, r)]) ci (n + 1))
        = Except.ok (s', c', t') := h
      cases hs : seen.lookup i with
      | some e =>
        rw [hs] at h'
        have := merge_loop_total rest seen _ (n + 1) s' c' t' h'
        rw [this, List.length_cons]
        omega
      | none =>
        rw [hs] at h'
        have := merge_loop_total rest (seen ++ [(i, r)]) ci (n + 1) s' c' t' h'
        rw [this, List.length_cons]
        omega

theorem merge_loop_seen_lookup :
    ∀ (L : List EventRecord) (seen : List (String × EventRecord))
      (ci : List String) (n : Nat) (s' : List (String × EventRecord))
      (c' : List String) (t' : Nat),
      merge_loop L seen ci n = .ok (s', c', t') →
      ∀ x, s'.lookup x = (seen.lookup x).orElse (fun _ => first_with_id L x)
  | [], seen, ci, n, s', c', t', h => by
    cases h
    intro x
    cases hx : seen.lookup x <;> rfl
  | r :: rest, seen, ci, n, s', c', t', h => by
    rw [merge_loop_cons] at h
    cases hid : merge_event_id r with
    | none => rw [hid] at h; cases h
    | some i =>
      rw [hid] at h
      have h' : (match seen.lookup i with
        | some existing =>
          merge_loop rest seen
            (if existing ≠ r ∧ ¬ ci.contains i then ci ++ [i] else ci) (n + 1)
        | none => merge_loop rest (seen ++ [(i, r)]) ci (n + 1))
        = Except.ok (s', c', t') := h
      intro x
      cases hs : seen.lookup i with
      | some e =>
        rw [hs] at h'
        have ih := merge_loop_seen_lookup rest seen _ (n + 1) s' c' t' h' x
        rw [ih, first_with_id_cons]
        by_cases hx : x = i
        · subst hx
          rw [hs]
          rfl
        · rw [if_neg (by rw [hid]; exact fun hc => hx (by cases hc; rfl))]
      | none =>
        rw [hs] at h'
        have ih := merge_loop_seen_lookup rest (seen ++ [(i, r)]) ci (n + 1) s' c' t' h' x
        rw [ih, first_with_id_cons]
        by_cases hx : x = i
        · subst hx
          rw [lookup_append_right seen [(x, r)] x hs, hs]
          rw [if_pos (by rw [hid])]
          rw [lookup_cons, if_pos rfl]
          rfl
        · have happ : (seen ++ [(i, r)]).lookup x = seen.lookup x := by
            cases hsx : seen.lookup x with
            | some v =>
              rw [lookup_append_left seen [(i, r)] x (by rw [hsx]; rfl), hsx]
            | none =>
              rw [lookup_append_right seen [(i, r)] x hsx]
              rw [lookup_cons, if_neg hx]
              rfl
          rw [happ]
          rw [if_neg (by rw [hid]; exact fun hc => hx (by cases hc; rfl))]
theorem lookup_isSome_iff {α β : Type} [DecidableEq α] :
    ∀ (l : List (α × β)) (k : α), (l.lookup k).isSome = true ↔ k ∈ l.map Prod.fst
  | [], k => by simp [List.lookup]
  | (a, b) :: rest, k => by
    rw [lookup_cons]
    by_cases h : k = a
    · subst h
      simp
    · rw [if_neg h]
      simp only [List.map_cons, List.mem_cons]
      rw [lookup_isSome_iff rest k]
      simp [h]

theorem mem_iff_lookup {α β : Type} [DecidableEq α] :
    ∀ (l : List (α × β)), (l.map Prod.fst).Nodup →
      ∀ (p1 : α) (p2 : β), (p1, p2) ∈ l ↔ l.lookup p1 = some p2
  | [], _, p1, p2 => by simp [List.lookup]
  | (a, b) :: rest, hnd, p1, p2 => by
    rw [List.map_cons, List.nodup_cons] at hnd
    obtain ⟨ha, hrest⟩ := hnd
    rw [lookup_cons]
    constructor
    · intro hp
      rcases List.mem_cons.mp hp with heq | hm
      · injection heq with h1 h2
        subst h1
        subst h2
        rw [if_pos rfl]
      · have hne : ¬ p1 = a := by
          intro he
          apply ha
          rw [← he]
          exact List.mem_map.mpr ⟨(p1, p2), hm, rfl⟩
        rw [if_neg hne]
        exact (mem_iff_lookup rest hrest p1 p2).mp hm
    · intro hl
      by_cases hpa : p1 = a
      · rw [if_pos hpa] at hl
        cases hl
        subst hpa
        exact List.mem_cons_self _ _
      · rw [if_neg hpa] at hl
        exact List.mem_cons_of_mem _ ((mem_iff_lookup rest hrest p1 p2).mpr hl)

theorem merge_loop_keys_nodup :
    ∀ (L : List EventRecord) (seen : List (String × EventRecord))
      (ci : List String) (n : Nat) (s' : List (String × EventRecord))
      (c' : List String) (t' : Nat),
      merge_loop L seen ci n = .ok (s', c', t') →
      (seen.map Prod.fst).Nodup → (s'.map Prod.fst).Nodup
  | [], seen, ci, n, s', c', t', h, hnd => by
    cases h
    exact hnd
  | r :: rest, seen, ci, n, s', c', t', h, hnd => by
    rw [merge_loop_cons] at h
    cases hid : merge_event_id r with
    | none => rw [hid] at h; cases h
    | some i =>
      rw [hid] at h
      have h' : (match seen.lookup i with
        | some existing =>
          merge_loop rest seen
            (if existing ≠ r ∧ ¬ ci.contains i then ci ++ [i] else ci) (n + 1)
        | none => merge_loop rest (seen ++ [(i, r)]) ci (n + 1))
        = Except.ok (s', c', t') := h
      cases hs : seen.lookup i with
      | some e =>
        rw [hs] at h'
        exact merge_loop_keys_nodup rest seen _ (n + 1) s' c' t' h' hnd
      | none =>
        rw [hs] at h'
        refine merge_loop_keys_nodup rest (seen ++ [(i, r)]) ci (n + 1) s' c' t' h' ?_
        rw [List.map_append]
        rw [List.nodup_append]
        refine ⟨hnd, List.nodup_singleton _, ?_⟩
        intro a hmem hsing
        simp only [List.map_cons, List.map_nil, List.mem_singleton] at hsing
        subst hsing
        have : (seen.lookup a).isSome = true := (lookup_isSome_iff seen a).mpr hmem
        rw [hs] at this
        cases this

theorem pair_conflict_cons_ne {r : EventRecord} {rest : List EventRecord} {x : String}
    (hid : ¬ merge_event_id r = some x) :
    PairConflict (r :: rest) x ↔ PairConflict rest x := by
  unfold PairConflict
  constructor
  · rintro ⟨a, ha, b, hb, hida, hidb, hne⟩
    rcases List.mem_cons.mp ha with rfl | ha'
    · exact absurd hida hid
    rcases List.mem_cons.mp hb with rfl | hb'
    · exact absurd hidb hid
    exact ⟨a, ha', b, hb', hida, hidb, hne⟩
  · rintro ⟨a, ha, b, hb, hida, hidb, hne⟩
    exact ⟨a, List.mem_cons_of_mem _ ha, b, List.mem_cons_of_mem _ hb, hida, hidb, hne⟩

theorem pair_conflict_cons_first {r : EventRecord} {rest : List EventRecord} {x : String}
    (hid : merge_event_id r = some x) :
    PairConflict (r :: rest) x ↔
      ∃ u ∈ rest, merge_event_id u = some x ∧ u ≠ r := by
  unfold PairConflict
  constructor
  · rintro ⟨a, ha, b, hb, hida, hidb, hne⟩
    rcases List.mem_cons.mp ha with rfl | ha'
    · rcases List.mem_cons.mp hb with rfl | hb'
      · exact absurd rfl hne
      · exact ⟨b, hb', hidb, Ne.symm hne⟩
    · rcases List.mem_cons.mp hb with rfl | hb'
      · exact ⟨a, ha', hida, hne⟩
      · by_cases har : a = r
        · subst har
          exact ⟨b, hb', hidb, Ne.symm hne⟩
        · exact ⟨a, ha', hida, har⟩
  · rintro ⟨u, hu, hidu, hur⟩
    exact ⟨u, List.mem_cons_of_mem _ hu, r, List.mem_cons_self _ _, hidu, hid, hur⟩

theorem merge_loop_conflicts :
    ∀ (L : List EventRecord) (seen : List (String × EventRecord))
      (ci : List String) (n : Nat) (s' : List (String × EventRecord))
      (c' : List String) (t' : Nat),
      merge_loop L seen ci n = .ok (s', c', t') →
      ∀ x, x ∈ c' ↔ x ∈ ci ∨
        (match seen.lookup x with
          | some e => ∃ u ∈ L, merge_event_id u = some x ∧ u ≠ e
          | none => PairConflict L x)
  | [], seen, ci, n, s', c', t', h => by
    cases h
    intro x
    cases hx : seen.lookup x with
    | some e => simp
    | none => simp [PairConflict]
  | r :: rest, seen, ci, n, s', c', t', h => by
    rw [merge_loop_cons] at h
    cases hid : merge_event_id r with
    | none => rw [hid] at h; cases h
    | some i =>
      rw [hid] at h
      have h' : (match seen.lookup i with
        | some existing =>
          merge_loop rest seen
            (if existing ≠ r ∧ ¬ ci.contains i then ci ++ [i] else ci) (n + 1)
        | none => merge_loop rest (seen ++ [(i, r)]) ci (n + 1))
        = Except.ok (s', c', t') := h
      intro x
      cases hs : seen.lookup i with
      | some e =>
        rw [hs] at h'
        have ih := merge_loop_conflicts rest seen _ (n + 1) s' c' t' h' x
        rw [ih]
        by_cases hx : x = i
        · subst hx
          rw [hs]
          simp only []
          have hsplit : (∃ u ∈ r :: rest, merge_event_id u = some x ∧ u ≠ e) ↔
              ((merge_event_id r = some x ∧ r ≠ e) ∨
                ∃ u ∈ rest, merge_event_id u = some x ∧ u ≠ e) := by
            constructor
            · rintro ⟨u, hu, h1, h2⟩
              rcases List.mem_cons.mp hu with rfl | hu'
              · exact .inl ⟨h1, h2⟩
              · exact .inr ⟨u, hu', h1, h2⟩
            · rintro (⟨h1, h2⟩ | ⟨u, hu', h1, h2⟩)
              · exact ⟨r, List.mem_cons_self _ _, h1, h2⟩
              · exact ⟨u, List.mem_cons_of_mem _ hu', h1, h2⟩
          rw [hsplit]
          by_cases hcond : e ≠ r ∧ ¬ ci.contains x = true
          · rw [if_pos hcond]
            have hxmem : x ∈ ci ++ [x] := List.mem_append_right _ (List.mem_singleton.mpr rfl)
            have hre : r ≠ e := fun hh => hcond.1 hh.symm
            constructor
            · intro hmem
              exact .inr (.inl ⟨hid, hre⟩)
            · intro hmem
              exact .inl hxmem
          · rw [if_neg hcond]
            by_cases hci : ci.contains x = true
            · have hxci : x ∈ ci := contains_iff_mem.mp hci
              constructor
              · exact fun _ => .inl hxci
              · exact fun _ => .inl hxci
            · have her : e = r := by
                by_contra hne
                exact hcond ⟨hne, hci⟩
              subst her
              constructor
              · rintro (hq | hq)
                · exact .inl hq
                · exact .inr (.inr hq)
              · rintro (hq | (⟨-, hq⟩ | hq))
                · exact .inl hq
                · exact absurd rfl hq
                · exact .inr hq
        · have hci2 : ∀ ci2 : List String,
              (if e ≠ r ∧ ¬ ci.contains i = true then ci ++ [i] else ci) = ci2 →
              (x ∈ ci2 ↔ x ∈ ci) := by
            intro ci2 hc
            subst hc
            split
            · rw [List.mem_append, List.mem_singleton]
              constructor
              · rintro (hq | hq)
                · exact hq
                · exact absurd hq hx
              · exact fun hq => .inl hq
            · exact Iff.rfl
          rw [hci2 _ rfl]
          cases hsx : seen.lookup x with
          | some e' =>
            have hsplit : (∃ u ∈ r :: rest, merge_event_id u = some x ∧ u ≠ e') ↔
                (∃ u ∈ rest, merge_event_id u = some x ∧ u ≠ e') := by
              constructor
              · rintro ⟨u, hu, h1, h2⟩
                rcases List.mem_cons.mp hu with rfl | hu'
                · rw [hid] at h1
                  cases h1
                  exact absurd rfl hx
                · exact ⟨u, hu', h1, h2⟩
              · rintro ⟨u, hu', h1, h2⟩
                exact ⟨u, List.mem_cons_of_mem _ hu', h1, h2⟩
            simp only []
            rw [hsplit]
          | none =>
            simp only []
            rw [pair_conflict_cons_ne (by rw [hid]; exact fun hc => hx (by cases hc; rfl))]
      | none =>
        rw [hs] at h'
        have ih := merge_loop_conflicts rest (seen ++ [(i, r)]) ci (n + 1) s' c' t' h' x
        rw [ih]
        by_cases hx : x = i
        · subst hx
          rw [lookup_append_right seen [(x, r)] x hs, lookup_cons, if_pos rfl, hs]
          simp only []
          rw [pair_conflict_cons_first hid]
        · have happ : (seen ++ [(i, r)]).lookup x = seen.lookup x := by
            cases hsx : seen.lookup x with
            | some v =>
              rw [lookup_append_left seen [(i, r)] x (by rw [hsx]; rfl), hsx]
            | none =>
              rw [lookup_append_right seen [(i, r)] x hsx]
              rw [lookup_cons, if_neg hx]
              rfl
          rw [happ]
          cases hsx : seen.lookup x with
          | some e' =>
            have hsplit : (∃ u ∈ r :: rest, merge_event_id u = some x ∧ u ≠ e') ↔
                (∃ u ∈ rest, merge_event_id u = some x ∧ u ≠ e') := by
              constructor
              · rintro ⟨u, hu, h1, h2⟩
                rcases List.mem_cons.mp hu with rfl | hu'
                · rw [hid] at h1
                  cases h1
                  exact absurd rfl hx
                · exact ⟨u, hu', h1, h2⟩
              · rintro ⟨u, hu', h1, h2⟩
                exact ⟨u, List.mem_cons_of_mem _ hu', h1, h2⟩
            simp only []
            rw [hsplit]
          | none =>
            simp only []
            rw [pair_conflict_cons_ne (by rw [hid]; exact fun hc => hx (by cases hc; rfl))]

theorem merge_loop_conflicts_nodup :
    ∀ (L : List EventRecord) (seen : List (String × EventRecord))
      (ci : List String) (n : Nat) (s' : List (String × EventRecord))
      (c' : List String) (t' : Nat),
      merge_loop L seen ci n = .ok (s', c', t') →
      ci.Nodup → c'.Nodup
  | [], seen, ci, n, s', c', t', h, hnd => by
    cases h
    exact hnd
  | r :: rest, seen, ci, n, s', c', t', h, hnd => by
    rw [merge_loop_cons] at h
    cases hid : merge_event_id r with
    | none => rw [hid] at h; cases h
    | some i =>
      rw [hid] at h
      have h' : (match seen.lookup i with
        | some existing =>
          merge_loop rest seen
            (if existing ≠ r ∧ ¬ ci.contains i then ci ++ [i] else ci) (n + 1)
        | none => merge_loop rest (seen ++ [(i, r)]) ci (n + 1))
        = Except.ok (s', c', t') := h
      cases hs : seen.lookup i with
      | some e =>
        rw [hs] at h'
        refine merge_loop_conflicts_nodup rest seen _ (n + 1) s' c' t' h' ?_
        split
        · rename_i hcond
          rw [List.nodup_append]
          refine ⟨hnd, List.nodup_singleton _, ?_⟩
          intro a hmem hsing
          rw [List.mem_singleton] at hsing
          subst hsing
          rw [contains_iff_mem.mpr hmem] at hcond
          exact hcond.2 rfl
        · exact hnd
      | none =>
        rw [hs] at h'
        exact merge_loop_conflicts_nodup rest (seen ++ [(i, r)]) ci (n + 1) s' c' t' h' hnd

theorem merge_events_files_eq (p : String) (anc ours theirs : List EventRecord)
    {seen : List (String × EventRecord)} {ci : List String} {t : Nat}
    (hloop : merge_loop (anc ++ ours ++ theirs) [] [] 0 = .ok (seen, ci, t)) :
    merge_events_files p anc ours theirs =
      (if ¬ (sort_strings ci).isEmpty then
        .ok ({ total_events := seen.length
               duplicates_removed := t - seen.length
               conflict := true
               conflicting_ids := sort_strings ci }, [])
      else
        .ok ({ total_events := (sort_by_id seen).length
               duplicates_removed := t - (sort_by_id seen).length
               conflict := false
               conflicting_ids := [] },
             write_events_to_path p (sort_by_id seen))) := by
  unfold merge_events_files
  simp only [bind, Except.bind, pure, Except.pure]
  rw [hloop]

theorem merge_loop_conflicts_nil {L : List EventRecord}
    {s' : List (String × EventRecord)} {c' : List String} {t' : Nat}
    (h : merge_loop L [] [] 0 = .ok (s', c', t')) :
    ∀ x, x ∈ c' ↔ PairConflict L x := by
  intro x
  have hh := merge_loop_conflicts L [] [] 0 s' c' t' h x
  simpa [List.lookup] using hh

theorem merge_loop_seen_nil {L : List EventRecord}
    {s' : List (String × EventRecord)} {c' : List String} {t' : Nat}
    (h : merge_loop L [] [] 0 = .ok (s', c', t')) :
    ∀ x, s'.lookup x = first_with_id L x := by
  intro x
  have hh := merge_loop_seen_lookup L [] [] 0 s' c' t' h x
  simpa [List.lookup, Option.orElse] using hh

theorem pair_conflict_perm {L1 L2 : List EventRecord} (hp : L1.Perm L2) (x : String) :
    PairConflict L1 x ↔ PairConflict L2 x := by
  unfold PairConflict
  constructor
  · rintro ⟨a, ha, b, hb, h1, h2, h3⟩
    exact ⟨a, hp.mem_iff.mp ha, b, hp.mem_iff.mp hb, h1, h2, h3⟩
  · rintro ⟨a, ha, b, hb, h1, h2, h3⟩
    exact ⟨a, hp.mem_iff.mpr ha, b, hp.mem_iff.mpr hb, h1, h2, h3⟩

theorem sort_strings_eq_of_perm {l1 l2 : List String} (hp : l1.Perm l2) :
    sort_strings l1 = sort_strings l2 := by
  unfold sort_strings
  exact List.eq_of_perm_of_sorted
    (((List.perm_insertionSort _ l1).trans hp).trans
      (List.perm_insertionSort _ l2).symm)
    (List.sorted_insertionSort _ l1) (List.sorted_insertionSort _ l2)

theorem first_with_id_mem {L : List EventRecord} {x : String} {r : EventRecord}
    (h : first_with_id L x = some r) :
    r ∈ L ∧ merge_event_id r = some x := by
  unfold first_with_id at h
  have hm := List.mem_of_find?_eq_some h
  have hp := List.find?_some h
  rw [beq_iff_eq] at hp
  exact ⟨hm, hp⟩

theorem first_with_id_isSome {L : List EventRecord} {x : String} :
    (first_with_id L x).isSome = true ↔ ∃ r ∈ L, merge_event_id r = some x := by
  unfold first_with_id
  rw [List.find?_isSome]
  constructor
  · rintro ⟨r, hr, hp⟩
    rw [beq_iff_eq] at hp
    exact ⟨r, hr, hp⟩
  · rintro ⟨r, hr, hp⟩
    exact ⟨r, hr, by rw [beq_iff_eq]; exact hp⟩

theorem no_conflict_id_unique {L : List EventRecord}
    (hnc : ∀ x, ¬ PairConflict L x) :
    ∀ r ∈ L, ∀ u ∈ L, ∀ x, merge_event_id r = some x → merge_event_id u = some x →
      r = u := by
  intro r hr u hu x h1 h2
  by_contra hne
  exact hnc x ⟨r, hr, u, hu, h1, h2, hne⟩

theorem seen_keys_perm {L1 L2 : List EventRecord}
    {s1 s2 : List (String × EventRecord)} {c1 c2 : List String} {t1 t2 : Nat}
    (hp : L1.Perm L2)
    (h1 : merge_loop L1 [] [] 0 = .ok (s1, c1, t1))
    (h2 : merge_loop L2 [] [] 0 = .ok (s2, c2, t2)) :
    (s1.map Prod.fst).Perm (s2.map Prod.fst) := by
  have hk1 : (s1.map Prod.fst).Nodup :=
    merge_loop_keys_nodup L1 [] [] 0 s1 c1 t1 h1 (by simp)
  have hk2 : (s2.map Prod.fst).Nodup :=
    merge_loop_keys_nodup L2 [] [] 0 s2 c2 t2 h2 (by simp)
  refine (List.perm_ext_iff_of_nodup hk1 hk2).mpr (fun x => ?_)
  rw [← lookup_isSome_iff, ← lookup_isSome_iff,
    merge_loop_seen_nil h1 x, merge_loop_seen_nil h2 x,
    first_with_id_isSome, first_with_id_isSome]
  constructor
  · rintro ⟨r, hr, hid⟩
    exact ⟨r, hp.mem_iff.mp hr, hid⟩
  · rintro ⟨r, hr, hid⟩
    exact ⟨r, hp.mem_iff.mpr hr, hid⟩

theorem seen_perm_of_no_conflict {L1 L2 : List EventRecord}
    {s1 s2 : List (String × EventRecord)} {c1 c2 : List String} {t1 t2 : Nat}
    (hp : L1.Perm L2)
    (h1 : merge_loop L1 [] [] 0 = .ok (s1, c1, t1))
    (h2 : merge_loop L2 [] [] 0 = .ok (s2, c2, t2))
    (hnc : ∀ x, ¬ PairConflict L1 x) :
    s1.Perm s2 := by
  have hk1 : (s1.map Prod.fst).Nodup :=
    merge_loop_keys_nodup L1 [] [] 0 s1 c1 t1 h1 (by simp)
  have hk2 : (s2.map Prod.fst).Nodup :=
    merge_loop_keys_nodup L2 [] [] 0 s2 c2 t2 h2 (by simp)
  have hlook : ∀ x, s1.lookup x = s2.lookup x := by
    intro x
    rw [merge_loop_seen_nil h1 x, merge_loop_seen_nil h2 x]
    cases hf1 : first_with_id L1 x with
    | none =>
      cases hf2 : first_with_id L2 x with
      | none => rfl
      | some r2 =>
        obtain ⟨hm2, hid2⟩ := first_with_id_mem hf2
        have hsome : (first_with_id L1 x).isSome = true :=
          first_with_id_isSome.mpr ⟨r2, hp.mem_iff.mpr hm2, hid2⟩
        rw [hf1] at hsome
        cases hsome
    | some r1 =>
      obtain ⟨hm1, hid1⟩ := first_with_id_mem hf1
      cases hf2 : first_with_id L2 x with
      | none =>
        have hsome : (first_with_id L2 x).isSome = true :=
          first_with_id_isSome.mpr ⟨r1, hp.mem_iff.mp hm1, hid1⟩
        rw [hf2] at hsome
        cases hsome
      | some r2 =>
        obtain ⟨hm2, hid2⟩ := first_with_id_mem hf2
        rw [no_conflict_id_unique hnc r1 hm1 r2 (hp.mem_iff.mpr hm2) x hid1 hid2]
  refine (List.perm_ext_iff_of_nodup (hk1.of_map _) (hk2.of_map _)).mpr (fun q => ?_)
  obtain ⟨qx, qr⟩ := q
  rw [mem_iff_lookup s1 hk1 qx qr, mem_iff_lookup s2 hk2 qx qr, hlook qx]

theorem pairwise_ne_of_nodup_keys :
    ∀ {l : List (String × EventRecord)}, (l.map Prod.fst).Nodup →
      l.Pairwise fun q u => q.1 ≠ u.1
  | [], _ => List.Pairwise.nil
  | q :: rest, h => by
    rw [List.map_cons, List.nodup_cons] at h
    refine List.Pairwise.cons (fun u hu hqu => ?_) (pairwise_ne_of_nodup_keys h.2)
    exact h.1 (hqu ▸ List.mem_map.mpr ⟨u, hu, rfl⟩)

theorem sort_by_id_sorted_le (l : List (String × EventRecord)) :
    (sort_by_id l).Pairwise fun q u => str_lex_le q.1 u.1 := by
  unfold sort_by_id
  letI : IsTotal (String × EventRecord) (fun q u => str_lex_le q.1 u.1) :=
    ⟨fun a b => le_total a.1.data b.1.data⟩
  letI : IsTrans (String × EventRecord) (fun q u => str_lex_le q.1 u.1) :=
    ⟨fun _ _ _ ha hb => le_trans ha hb⟩
  exact List.sorted_insertionSort _ l

theorem sort_by_id_perm (l : List (String × EventRecord)) : (sort_by_id l).Perm l :=
  List.perm_insertionSort _ l

theorem sort_by_id_eq_of_perm {s1 s2 : List (String × EventRecord)}
    (hp : s1.Perm s2) (hk1 : (s1.map Prod.fst).Nodup) :
    sort_by_id s1 = sort_by_id s2 := by
  have hk2 : (s2.map Prod.fst).Nodup := ((hp.map Prod.fst).nodup_iff).mp hk1
  have hperm : (sort_by_id s1).Perm (sort_by_id s2) :=
    ((sort_by_id_perm s1).trans hp).trans (sort_by_id_perm s2).symm
  have hs1k : ((sort_by_id s1).map Prod.fst).Nodup :=
    (((sort_by_id_perm s1).map Prod.fst).nodup_iff).mpr hk1
  have hs2k : ((sort_by_id s2).map Prod.fst).Nodup :=
    (((sort_by_id_perm s2).map Prod.fst).nodup_iff).mpr hk2
  have hlt1 : (sort_by_id s1).Pairwise key_lt := by
    refine ((sort_by_id_sorted_le s1).and (pairwise_ne_of_nodup_keys hs1k)).imp ?_
    rintro a b ⟨hle, hne⟩
    exact lt_of_le_of_ne hle (fun hd => hne (String.ext hd))
  have hlt2 : (sort_by_id s2).Pairwise key_lt := by
    refine ((sort_by_id_sorted_le s2).and (pairwise_ne_of_nodup_keys hs2k)).imp ?_
    rintro a b ⟨hle, hne⟩
    exact lt_of_le_of_ne hle (fun hd => hne (String.ext hd))
  exact List.eq_of_perm_of_sorted hperm hlt1 hlt2

theorem merge_comm (p : String) (A B C : List EventRecord) :
    merge_events_files p A B C = merge_events_files p A C B := by
  have hperm : (A ++ B ++ C).Perm (A ++ C ++ B) := by
    rw [List.append_assoc, List.append_assoc]
    exact List.Perm.append_left A List.perm_append_comm
  by_cases hall : AllIdsPresent (A ++ B ++ C)
  · have hall2 : AllIdsPresent (A ++ C ++ B) :=
      fun r hr => hall r (hperm.mem_iff.mpr hr)
    obtain ⟨⟨s1, c1, t1⟩, h1⟩ := merge_loop_ok _ [] [] 0 hall
    obtain ⟨⟨s2, c2, t2⟩, h2⟩ := merge_loop_ok _ [] [] 0 hall2
    rw [merge_events_files_eq p A B C h1, merge_events_files_eq p A C B h2]
    have htt : t1 = t2 := by
      rw [merge_loop_total _ [] [] 0 _ _ _ h1, merge_loop_total _ [] [] 0 _ _ _ h2,
        hperm.length_eq]
    have hnd1 : c1.Nodup :=
      merge_loop_conflicts_nodup _ [] [] 0 s1 c1 t1 h1 List.nodup_nil
    have hnd2 : c2.Nodup :=
      merge_loop_conflicts_nodup _ [] [] 0 s2 c2 t2 h2 List.nodup_nil
    have hcperm : c1.Perm c2 := by
      refine (List.perm_ext_iff_of_nodup hnd1 hnd2).mpr (fun x => ?_)
      rw [merge_loop_conflicts_nil h1 x, merge_loop_conflicts_nil h2 x]
      exact pair_conflict_perm hperm x
    have hsort : sort_strings c1 = sort_strings c2 := sort_strings_eq_of_perm hcperm
    have hkeys := seen_keys_perm hperm h1 h2
    have hlen : s1.length = s2.length := by
      rw [← List.length_map s1 Prod.fst, ← List.length_map s2 Prod.fst]
      exact hkeys.length_eq
    rw [hsort, htt]
    by_cases hemp : (sort_strings c2).isEmpty = true
    · rw [if_neg (by simp [hemp]), if_neg (by simp [hemp])]
      have hc2nil : c2 = [] := by
        have : sort_strings c2 = [] := List.isEmpty_iff.mp hemp
        have hp2 : c2.Perm [] := this ▸ (List.perm_insertionSort _ c2).symm
        exact hp2.eq_nil
      have hnc : ∀ x, ¬ PairConflict (A ++ B ++ C) x := by
        intro x hx
        have : x ∈ c2 := (merge_loop_conflicts_nil h2 x).mpr
          ((pair_conflict_perm hperm x).mp hx)
        rw [hc2nil] at this
        cases this
      have hk1 : (s1.map Prod.fst).Nodup :=
        merge_loop_keys_nodup _ [] [] 0 s1 c1 t1 h1 (by simp)
      have hsperm := seen_perm_of_no_conflict hperm h1 h2 hnc
      rw [sort_by_id_eq_of_perm hsperm hk1]
    · rw [if_pos (by simp [hemp]), if_pos (by simp [hemp]), hlen]
  · have hall2 : ¬ AllIdsPresent (A ++ C ++ B) :=
      fun h2 => hall (fun r hr => h2 r (hperm.mem_iff.mp hr))
    have e1 := merge_loop_missing_id _ [] [] 0 hall
    have e2 := merge_loop_missing_id _ [] [] 0 hall2
    unfold merge_events_files
    simp only [bind, Except.bind]
    rw [e1, e2]

theorem canonical_id_unique {B : List EventRecord} (hcan : CanonicalEventLog B) :
    ∀ r ∈ B, ∀ u ∈ B, ∀ x, merge_event_id r = some x → merge_event_id u = some x →
      r = u := by
  intro r hr u hu x h1 h2
  by_contra hne
  have hsym : Symmetric (fun r u : EventRecord => ∀ a b,
      merge_event_id r = some a → merge_event_id u = some b →
        a.data < b.data ∨ b.data < a.data) := by
    intro a b hab x y hx hy
    rcases hab y x hy hx with hc | hc
    · exact .inr hc
    · exact .inl hc
  have hpair := (hcan.2.imp (fun h => fun a b ha hb => Or.inl (h a b ha hb))).forall
    hsym hr hu hne
  rcases hpair x x h1 h2 with hc | hc <;> exact absurd hc (lt_irrefl _)

theorem canonical_nodup {B : List EventRecord} (hcan : CanonicalEventLog B) :
    B.Nodup := by
  refine hcan.2.imp_of_mem ?_
  intro r u hr hu hrel heq
  obtain ⟨a, ha⟩ := Option.isSome_iff_exists.mp (hcan.1 r hr)
  exact absurd (hrel a a ha (heq ▸ ha)) (lt_irrefl _)

theorem canonical_keys_nodup {B : List EventRecord} (hcan : CanonicalEventLog B) :
    ((B.map fun r => ((merge_event_id r).getD "", r)).map Prod.fst).Nodup := by
  rw [List.map_map]
  refine List.Nodup.map_on ?_ (canonical_nodup hcan)
  intro x hx y hy hf
  obtain ⟨a, ha⟩ := Option.isSome_iff_exists.mp (hcan.1 x hx)
  obtain ⟨b, hb⟩ := Option.isSome_iff_exists.mp (hcan.1 y hy)
  have hab : a = b := by
    have : (Prod.fst ∘ fun r : EventRecord => ((merge_event_id r).getD "", r)) x
        = (merge_event_id x).getD "" := rfl
    rw [show (Prod.fst ∘ fun r : EventRecord => ((merge_event_id r).getD "", r)) x
        = (merge_event_id x).getD "" from rfl,
      show (Prod.fst ∘ fun r : EventRecord => ((merge_event_id r).getD "", r)) y
        = (merge_event_id y).getD "" from rfl, ha, hb] at hf
    exact hf
  subst hab
  exact canonical_id_unique hcan x hx y hy a ha hb

theorem merge_idem (p : String) (A B : List EventRecord)
    (hcan : CanonicalEventLog B) (hsub : ∀ r ∈ A, r ∈ B) :
    merge_events_files p A B B =
      .ok ({ total_events := B.length
             duplicates_removed := (A ++ B ++ B).length - B.length
             conflict := false
             conflicting_ids := [] },
           write_events_to_path p
             (B.map fun r => ((merge_event_id r).getD "", r))) := by
  have hmemB : ∀ r ∈ A ++ B ++ B, r ∈ B := by
    intro r hr
    rcases List.mem_append.mp hr with hr1 | hr2
    · rcases List.mem_append.mp hr1 with hra | hrb
      · exact hsub r hra
      · exact hrb
    · exact hr2
  have hall : AllIdsPresent (A ++ B ++ B) := fun r hr => hcan.1 r (hmemB r hr)
  obtain ⟨⟨s, c, t⟩, hloop⟩ := merge_loop_ok _ [] [] 0 hall
  rw [merge_events_files_eq p A B B hloop]
  have hnc : ∀ x, ¬ PairConflict (A ++ B ++ B) x := by
    rintro x ⟨r, hr, u, hu, h1, h2, hne⟩
    exact hne (canonical_id_unique hcan r (hmemB r hr) u (hmemB u hu) x h1 h2)
  have hc : c = [] := by
    refine List.eq_nil_iff_forall_not_mem.mpr (fun x hx => ?_)
    exact hnc x ((merge_loop_conflicts_nil hloop x).mp hx)
  subst hc
  rw [show sort_strings ([] : List String) = [] from rfl]
  rw [if_neg (by simp)]
  have hk : (s.map Prod.fst).Nodup :=
    merge_loop_keys_nodup _ [] [] 0 s [] t hloop (by simp)
  have hkB := canonical_keys_nodup hcan
  have hsperm : s.Perm (B.map fun r => ((merge_event_id r).getD "", r)) := by
    refine (List.perm_ext_iff_of_nodup (hk.of_map _) (hkB.of_map _)).mpr (fun q => ?_)
    obtain ⟨qx, qr⟩ := q
    rw [mem_iff_lookup s hk qx qr, merge_loop_seen_nil hloop qx]
    constructor
    · intro hf
      obtain ⟨hm, hid⟩ := first_with_id_mem hf
      refine List.mem_map.mpr ⟨qr, hmemB qr hm, ?_⟩
      rw [hid]
      rfl
    · intro hmem
      obtain ⟨r, hrB, heq⟩ := List.mem_map.mp hmem
      obtain ⟨b, hb⟩ := Option.isSome_iff_exists.mp (hcan.1 r hrB)
      rw [hb] at heq
      injection heq with he1 he2
      subst he2
      subst he1
      have hidr : merge_event_id r = some ((some b).getD "") := hb
      have hrL : r ∈ A ++ B ++ B := List.mem_append.mpr (.inr hrB)
      cases hf : first_with_id (A ++ B ++ B) ((some b).getD "") with
      | none =>
        have hsome : (first_with_id (A ++ B ++ B) ((some b).getD "")).isSome = true :=
          first_with_id_isSome.mpr ⟨r, hrL, hidr⟩
        rw [hf] at hsome
        cases hsome
      | some u =>
        obtain ⟨hmu, hidu⟩ := first_with_id_mem hf
        rw [canonical_id_unique hcan u (hmemB u hmu) r hrB _ hidu hidr]
  have hsortB : (B.map fun r => ((merge_event_id r).getD "", r)).Pairwise
      fun q u => str_lex_le q.1 u.1 := by
    rw [List.pairwise_map]
    refine hcan.2.imp_of_mem ?_
    intro r u hr hu hrel
    obtain ⟨a, ha⟩ := Option.isSome_iff_exists.mp (hcan.1 r hr)
    obtain ⟨b, hb⟩ := Option.isSome_iff_exists.mp (hcan.1 u hu)
    show str_lex_le ((merge_event_id r).getD "") ((merge_event_id u).getD "")
    rw [ha, hb]
    exact le_of_lt (hrel a b ha hb)
  have hsorteq : sort_by_id s = B.map fun r => ((merge_event_id r).getD "", r) := by
    rw [sort_by_id_eq_of_perm hsperm hk]
    show List.insertionSort _ _ = _
    exact List.Sorted.insertionSort_eq hsortB
  rw [hsorteq]
  rw [List.length_map, merge_loop_total _ [] [] 0 s [] t hloop, Nat.zero_add]

theorem rename_not_mem_write (path : String) (events : List (String × EventRecord))
    (a b : String) : FsOp.rename a b ∉ write_events_to_path path events := by
  unfold write_events_to_path
  intro h
  rcases List.mem_cons.mp h with h | h
  · cases h
  rcases List.mem_append.mp h with h | h
  · obtain ⟨q, -, hq⟩ := List.mem_map.mp h
    cases hq
  · rw [List.mem_singleton] at h
    cases h

theorem atomic_contract_has_rename {ops : List FsOp} {target : String}
    (h : atomic_write_contract ops target) :
    ∃ temp, FsOp.rename temp target ∈ ops := by
  obtain ⟨temp, lines, -, heq⟩ := h
  refine ⟨temp, ?_⟩
  rw [heq]
  exact List.mem_cons_of_mem _ (List.mem_append_right _ (by simp))

theorem write_not_atomic (path : String) (events : List (String × EventRecord)) :
    ¬ atomic_write_contract (write_events_to_path path events) path := by
  intro h
  obtain ⟨temp, hmem⟩ := atomic_contract_has_rename h
  exact rename_not_mem_write path events temp path hmem

/-- **C8 (counterexample).** `merge(A, B, B) == B` fails: with an ancestor
event absent from ours/theirs, the driver writes that event back, so the
merged content differs from B (here B is empty). -/
theorem C8_merge_idempotence_counterexample :
    merge_events_files "events" [sample_merge_a] [] []
      = .ok ({ total_events := 1, duplicates_removed := 0, conflict := false
               conflicting_ids := [] },
             write_events_to_path "events" [("01A", sample_merge_a)]) ∧
    [("01A", sample_merge_a)].map Prod.snd ≠ ([] : List EventRecord) :=
  ⟨rfl, by decide⟩

/-- **C8 (amended).** The merge is commutative in its last two arguments
unconditionally; and `merge(A, B, B)` reproduces exactly B's records when B
is in the driver's own canonical form (ids present, strictly sorted) and
every ancestor record also appears in B. -/
theorem C8_merge_algebra_amended :
    (∀ (p : String) (A B C : List EventRecord),
        merge_events_files p A B C = merge_events_files p A C B) ∧
    (∀ (p : String) (A B : List EventRecord),
        CanonicalEventLog B → (∀ r ∈ A, r ∈ B) →
        ∃ merged, merge_events_files p A B B =
          .ok ({ total_events := B.length
                 duplicates_removed := (A ++ B ++ B).length - B.length
                 conflict := false
                 conflicting_ids := [] },
               write_events_to_path p merged) ∧
          merged.map Prod.snd = B) := by
  constructor
  · exact merge_comm
  · intro p A B hcan hsub
    refine ⟨B.map fun r => ((merge_event_id r).getD "", r),
      merge_idem p A B hcan hsub, ?_⟩
    rw [List.map_map]
    show B.map id = B
    exact List.map_id B

/-- Witness for the amended C8: commutativity on two concrete one-event
logs, and idempotence on a concrete canonical singleton log. -/
theorem C8_merge_algebra_amended_witness :
    merge_events_files "events" [] [sample_merge_a] [sample_merge_b]
      = merge_events_files "events" [] [sample_merge_b] [sample_merge_a] ∧
    ∃ merged, merge_events_files "events" [] [sample_merge_a] [sample_merge_a] =
      .ok ({ total_events := 1, duplicates_removed := 1, conflict := false
             conflicting_ids := [] },
           write_events_to_path "events" merged) ∧
      merged.map Prod.snd = [sample_merge_a] :=
  ⟨C8_merge_algebra_amended.1 "events" [] [sample_merge_a] [sample_merge_b],
   C8_merge_algebra_amended.2 "events" [] [sample_merge_a]
     ⟨fun r hr => by rw [List.mem_singleton] at hr; subst hr; rfl, by simp⟩
     (fun r hr => absurd hr (List.not_mem_nil r))⟩

/-- **C9 (counterexample).** The merge driver's write is not the
atomic-write contract: the trace creates the target in place, writes the
lines and syncs, with no temp file and no rename. -/
theorem C9_atomic_write_counterexample :
    merge_events_files "events" [] [sample_merge_a] []
      = .ok ({ total_events := 1, duplicates_removed := 0, conflict := false
               conflicting_ids := [] },
             [FsOp.create "events", FsOp.write_line "events" sample_merge_a,
              FsOp.sync "events"]) ∧
    ¬ atomic_write_contract
        [FsOp.create "events", FsOp.write_line "events" sample_merge_a,
         FsOp.sync "events"] "events" :=
  ⟨rfl, write_not_atomic "events" [("01A", sample_merge_a)]⟩

/-- **C9 (amended).** In the no-conflict case the merge driver sorts the
union lexicographically by event id and writes the result to the "ours"
path — but directly (`File::create` on the target, write lines, `sync_all`),
not via the spec's temp-file plus rename atomic-write contract. -/
theorem C9_merge_write_amended :
    ∀ (p : String) (anc ours theirs : List EventRecord)
      (outcome : MergeDriverOutcome) (ops : List FsOp),
      merge_events_files p anc ours theirs = .ok (outcome, ops) →
      outcome.conflict = false →
      ∃ merged, ops = write_events_to_path p merged ∧
        merged.Pairwise (fun q u => str_lex_le q.1 u.1) ∧
        ¬ atomic_write_contract ops p := by
  intro p anc ours theirs outcome ops h hnc
  by_cases hall : AllIdsPresent (anc ++ ours ++ theirs)
  · obtain ⟨⟨s, c, t⟩, hloop⟩ := merge_loop_ok _ [] [] 0 hall
    rw [merge_events_files_eq p anc ours theirs hloop] at h
    split at h
    · rw [Except.ok.injEq, Prod.mk.injEq] at h
      rw [← h.1] at hnc
      cases hnc
    · rw [Except.ok.injEq, Prod.mk.injEq] at h
      refine ⟨sort_by_id s, h.2.symm, sort_by_id_sorted_le s, ?_⟩
      rw [h.2.symm]
      exact write_not_atomic p (sort_by_id s)
  · have herr := merge_loop_missing_id _ [] [] 0 hall
    unfold merge_events_files at h
    simp only [bind, Except.bind] at h
    rw [herr] at h
    cases h

/-- Witness for the amended C9: the concrete no-conflict merge writes the
sorted singleton via create/write/sync and no rename. -/
theorem C9_merge_write_amended_witness :
    ∃ merged,
      [FsOp.create "events", FsOp.write_line "events" sample_merge_a,
        FsOp.sync "events"] = write_events_to_path "events" merged ∧
      merged.Pairwise (fun q u => str_lex_le q.1 u.1) ∧
      ¬ atomic_write_contract
          [FsOp.create "events", FsOp.write_line "events" sample_merge_a,
           FsOp.sync "events"] "events" :=
  C9_merge_write_amended "events" [] [sample_merge_a] []
    { total_events := 1, duplicates_removed := 0, conflict := false
      conflicting_ids := [] }
    [FsOp.create "events", FsOp.write_line "events" sample_merge_a,
     FsOp.sync "events"] rfl rfl

end Tasque
